import Mathlib

/-!
# NXP S32K1xx FTFC flash driver (`drivers/flash/flash_nxp_s32k1xx.c`)

A shallow embedding of the driver and a verification of its specification.

Machine model.  The target is the S32K148, a 32-bit Cortex-M4 (ILP32):
`size_t`, `uintptr_t` and `uint32_t` are naturals reduced modulo `2^32`,
`off_t` is a signed 32-bit integer (an `Int`), `uint8_t` values are reduced
modulo `256`, and `int` return codes are `Int`.

Hardware model.  The FTFC controller is outside the driver, so every driver
function is parameterised by a `Controller σ`: an arbitrary state machine that
answers volatile register reads, reacts to register writes and exposes the
memory-mapped flash array.  Every driver function returns its result together
with the controller state it leaves and the list of hardware accesses it
performed, in program order.

Loops.  The busy-wait loops of the driver have no bound in the source; they
are given a `fuel` (the maximal number of iterations) and end in
`Fault.spin` when the fuel runs out.  Division by a zero block size, which is
undefined behaviour in C, ends in `Fault.undefined`.
-/

namespace S32kFlash

/-! ## Machine integers and errno values -/

/-- Number of values of `size_t`, `uintptr_t` and `uint32_t` on the target. -/
abbrev SIZE_MOD : Nat := 2 ^ 32

/-- The cast `(size_t)offset` of an `off_t`. -/
def to_size_t (offset : Int) : Nat := (offset % (SIZE_MOD : Int)).toNat

/-- Value of `EINVAL` in Zephyr's errno.h. -/
abbrev EINVAL : Int := 22

/-- Value of `EIO` in Zephyr's errno.h. -/
abbrev EIO : Int := 5

/-! ## Register map -/

/-- The C macro `BIT(n)`. -/
abbrev BIT (n : Nat) : Nat := 1 <<< n

abbrev FTFC_FSTAT_OFF : Nat := 0x00
abbrev FTFC_FERSTAT_OFF : Nat := 0x2E

abbrev FSTAT_CCIF : Nat := BIT 7
abbrev FSTAT_RDCOLERR : Nat := BIT 6
abbrev FSTAT_ACCERR : Nat := BIT 5
abbrev FSTAT_FPVIOL : Nat := BIT 4

abbrev CMD_ERASE_SECTOR : Nat := 0x09
abbrev CMD_PROGRAM_PHRASE : Nat := 0x07

/-- The expression `(FSTAT_RDCOLERR | FSTAT_ACCERR | FSTAT_FPVIOL)` that the
source repeats at every error test and every error clear. -/
abbrev FSTAT_ERRORS : Nat := FSTAT_RDCOLERR ||| FSTAT_ACCERR ||| FSTAT_FPVIOL

/-! ## Hardware interface and execution model -/

/-- One hardware access, as seen on the bus.  Register offsets are relative
to `S32K_FTFC_BASE`; flash addresses are absolute. -/
inductive Access where
  | regRead (off val : Nat)
  | regWrite (off val : Nat)
  | flashRead (addr : Nat)
  deriving DecidableEq, Repr

/-- The controller and the flash array behind it: an arbitrary state machine.
`read8 s off` is the byte a volatile read of register `off` returns and the
state after the read; `write8 s off v` is the state after writing `v`;
`flash s a` is the byte of the memory-mapped array at absolute address `a`. -/
structure Controller (σ : Type) where
  read8 : σ → Nat → Nat × σ
  write8 : σ → Nat → Nat → σ
  flash : σ → Nat → Nat

/-- Ways an execution can fail to return. -/
inductive Fault where
  | spin
  | undefined
  deriving DecidableEq, Repr

/-- A driver computation: from a controller state to a result (or a fault),
the controller state left behind and the accesses performed, in order. -/
def Run (σ α : Type) : Type := σ → Except Fault α × σ × List Access

/-- Return without touching the hardware. -/
def Run.pure {σ α : Type} (a : α) : Run σ α := fun s => (Except.ok a, s, [])

/-- Stop with a fault. -/
def Run.fail {σ α : Type} (e : Fault) : Run σ α := fun s => (Except.error e, s, [])

/-- Sequencing: the accesses of the second computation follow those of the
first; a fault stops the execution and keeps what was done so far. -/
def Run.bind {σ α β : Type} (m : Run σ α) (f : α → Run σ β) : Run σ β := fun s =>
  match m s with
  | (Except.ok a, s1, t1) =>
    match f a s1 with
    | (r, s2, t2) => (r, s2, t1 ++ t2)
  | (Except.error e, s1, t1) => (Except.error e, s1, t1)

instance instMonadRun {σ : Type} : Monad (Run σ) where
  pure := Run.pure
  bind := Run.bind

/-- A volatile read `REG8(off)`: one bus read, the value is a `uint8_t`. -/
def REG8_read {σ : Type} (c : Controller σ) (off : Nat) : Run σ Nat := fun s =>
  (Except.ok ((c.read8 s off).1 % 256), (c.read8 s off).2,
    [Access.regRead off ((c.read8 s off).1 % 256)])

/-- A volatile write `REG8(off) = val`: one bus write of a `uint8_t`. -/
def REG8_write {σ : Type} (c : Controller σ) (off val : Nat) : Run σ Unit := fun s =>
  (Except.ok (), c.write8 s off (val % 256), [Access.regWrite off (val % 256)])

/-! ## Device configuration -/

/-- Zephyr's `struct flash_parameters`. -/
structure flash_parameters where
  write_block_size : Nat
  erase_value : Nat
  deriving DecidableEq, Repr

/-- The driver's `struct s32k_flash_config`. -/
structure s32k_flash_config where
  flash_base : Nat
  flash_size : Nat
  erase_block : Nat
  write_block : Nat
  params : flash_parameters
  deriving DecidableEq, Repr

/-! ## RAM-resident helpers -/

/-- The loop `while (!(REG8(FTFC_FSTAT_OFF) & FSTAT_CCIF)) { }`, with at most
`fuel` polls of the status register. -/
def wait_ccif {σ : Type} (c : Controller σ) : Nat → Run σ Unit
  | 0 => Run.fail Fault.spin
  | fuel + 1 => do
    let v ← REG8_read c FTFC_FSTAT_OFF
    if v &&& FSTAT_CCIF = 0 then wait_ccif c fuel else pure ()

/-- The function `ftfc_clear_errors_and_ready`. -/
def ftfc_clear_errors_and_ready {σ : Type} (c : Controller σ) (fuel : Nat) : Run σ Int := do
  let fstat ← REG8_read c FTFC_FSTAT_OFF
  (if fstat &&& FSTAT_ERRORS ≠ 0 then REG8_write c FTFC_FSTAT_OFF FSTAT_ERRORS else pure ())
  wait_ccif c fuel
  let fstat ← REG8_read c FTFC_FSTAT_OFF
  if fstat &&& FSTAT_ERRORS ≠ 0 then
    REG8_write c FTFC_FSTAT_OFF FSTAT_ERRORS
    pure (- EIO)
  else
    pure 0

/-- The function `ftfc_launch_and_wait`. -/
def ftfc_launch_and_wait {σ : Type} (c : Controller σ) (fuel : Nat) : Run σ Int := do
  REG8_write c FTFC_FSTAT_OFF FSTAT_CCIF
  wait_ccif c fuel
  let fstat ← REG8_read c FTFC_FSTAT_OFF
  if fstat &&& FSTAT_ERRORS ≠ 0 then
    REG8_write c FTFC_FSTAT_OFF FSTAT_ERRORS
    pure (- EIO)
  else
    let ferstat ← REG8_read c FTFC_FERSTAT_OFF
    if ferstat ≠ 0 then
      REG8_write c FTFC_FERSTAT_OFF ferstat
      pure (- EIO)
    else
      pure 0

/-- The loop `for (size_t i = 0; i < phrase_size && i < 8; i++) REG8(0x0B + i) = data[i];`
of `ftfc_cmd_program_phrase`, entered at index `i` with `n` iterations allowed. -/
def program_data_loop {σ : Type} (c : Controller σ) (data : Nat → Nat) (phrase_size : Nat) :
    Nat → Nat → Run σ Unit
  | 0, i => if i < phrase_size ∧ i < 8 then Run.fail Fault.spin else pure ()
  | n + 1, i =>
    if i < phrase_size ∧ i < 8 then do
      REG8_write c (0x0B + i) (data i)
      program_data_loop c data phrase_size n (i + 1)
    else pure ()

/-- The function `ftfc_cmd_program_phrase`; `data i` is the byte `data[i]`.
The data loop is given 8 iterations, which its guard `i < 8` never exceeds. -/
def ftfc_cmd_program_phrase {σ : Type} (c : Controller σ) (fuel : Nat) (addr : Nat)
    (data : Nat → Nat) (phrase_size : Nat) : Run σ Int := do
  let rc ← ftfc_clear_errors_and_ready c fuel
  if rc ≠ 0 then pure rc
  else
    REG8_write c 0x07 CMD_PROGRAM_PHRASE
    REG8_write c 0x06 ((addr >>> 16) &&& 0xFF)
    REG8_write c 0x05 ((addr >>> 8) &&& 0xFF)
    REG8_write c 0x04 (addr &&& 0xFF)
    program_data_loop c data phrase_size 8 0
    ftfc_launch_and_wait c fuel

/-- The function `ftfc_cmd_erase_sector`. -/
def ftfc_cmd_erase_sector {σ : Type} (c : Controller σ) (fuel : Nat) (addr : Nat) : Run σ Int := do
  let rc ← ftfc_clear_errors_and_ready c fuel
  if rc ≠ 0 then pure rc
  else
    REG8_write c 0x07 CMD_ERASE_SECTOR
    REG8_write c 0x06 ((addr >>> 16) &&& 0xFF)
    REG8_write c 0x05 ((addr >>> 8) &&& 0xFF)
    REG8_write c 0x04 (addr &&& 0xFF)
    ftfc_launch_and_wait c fuel

/-! ## Zephyr flash API -/

/-- The call `memcpy(buf, (const void *)src, len)` with `src` in the
memory-mapped flash array: `len` flash reads in ascending order; the result is
the destination memory afterwards (`buf i` is the byte at `buf + i`). -/
def memcpy_from_flash {σ : Type} (c : Controller σ) (buf : Nat → Nat) (src len : Nat) :
    Run σ (Nat → Nat) := fun s =>
  (Except.ok (fun i => if i < len then c.flash s (src + i) % 256 else buf i), s,
    (List.range len).map (fun i => Access.flashRead (src + i)))

/-- The function `s32k_flash_read`; it returns the return code and the
destination memory. -/
def s32k_flash_read {σ : Type} (c : Controller σ) (cfg : s32k_flash_config) (offset : Int)
    (buf : Nat → Nat) (len : Nat) : Run σ (Int × (Nat → Nat)) :=
  if offset < 0 ∨ (to_size_t offset + len) % SIZE_MOD > cfg.flash_size then
    pure (- EINVAL, buf)
  else do
    let out ← memcpy_from_flash c buf ((cfg.flash_base + to_size_t offset) % SIZE_MOD) len
    pure (0, out)

/-- The loop `for (size_t done = 0; done < len; done += cfg->write_block)` of
`s32k_flash_write`, entered with the current `done`, `addr` and `p` (an index
into the source memory `buf`), with `n` iterations allowed. -/
def write_loop {σ : Type} (c : Controller σ) (cfg : s32k_flash_config) (fuel : Nat)
    (buf : Nat → Nat) (len : Nat) : Nat → Nat → Nat → Nat → Run σ Int
  | 0, done, _, _ => if done < len then Run.fail Fault.spin else pure 0
  | n + 1, done, addr, p =>
    if done < len then do
      let rc ← ftfc_cmd_program_phrase c fuel addr (fun i => buf (p + i)) cfg.write_block
      if rc ≠ 0 then pure rc
      else
        write_loop c cfg fuel buf len n ((done + cfg.write_block) % SIZE_MOD)
          ((addr + cfg.write_block) % SIZE_MOD) (p + cfg.write_block)
    else pure 0

/-- The function `s32k_flash_write`; `buf i` is the byte at `buf + i`.  The
operands of `%` are converted to `unsigned long`; a zero `write_block` is a
division by zero. -/
def s32k_flash_write {σ : Type} (c : Controller σ) (cfg : s32k_flash_config) (fuel : Nat)
    (offset : Int) (buf : Nat → Nat) (len : Nat) : Run σ Int :=
  if offset < 0 ∨ (to_size_t offset + len) % SIZE_MOD > cfg.flash_size then
    pure (- EINVAL)
  else if cfg.write_block = 0 then Run.fail Fault.undefined
  else if to_size_t offset % cfg.write_block ≠ 0 ∨ len % cfg.write_block ≠ 0 then
    pure (- EINVAL)
  else
    write_loop c cfg fuel buf len fuel 0 ((cfg.flash_base + to_size_t offset) % SIZE_MOD) 0

/-- The loop `for (size_t done = 0; done < size; done += cfg->erase_block)` of
`s32k_flash_erase`, entered with the current `done` and `addr`, with `n`
iterations allowed. -/
def erase_loop {σ : Type} (c : Controller σ) (cfg : s32k_flash_config) (fuel : Nat)
    (size : Nat) : Nat → Nat → Nat → Run σ Int
  | 0, done, _ => if done < size then Run.fail Fault.spin else pure 0
  | n + 1, done, addr =>
    if done < size then do
      let rc ← ftfc_cmd_erase_sector c fuel addr
      if rc ≠ 0 then pure rc
      else
        erase_loop c cfg fuel size n ((done + cfg.erase_block) % SIZE_MOD)
          ((addr + cfg.erase_block) % SIZE_MOD)
    else pure 0

/-- The function `s32k_flash_erase`. -/
def s32k_flash_erase {σ : Type} (c : Controller σ) (cfg : s32k_flash_config) (fuel : Nat)
    (offset : Int) (size : Nat) : Run σ Int :=
  if offset < 0 ∨ (to_size_t offset + size) % SIZE_MOD > cfg.flash_size then
    pure (- EINVAL)
  else if cfg.erase_block = 0 then Run.fail Fault.undefined
  else if to_size_t offset % cfg.erase_block ≠ 0 ∨ size % cfg.erase_block ≠ 0 then
    pure (- EINVAL)
  else
    erase_loop c cfg fuel size fuel 0 ((cfg.flash_base + to_size_t offset) % SIZE_MOD)

/-- The function `s32k_get_parameters`: the read-only parameters of the configuration. -/
def s32k_get_parameters (cfg : s32k_flash_config) : flash_parameters := cfg.params

/-- The function `s32k_get_size`: the return code and the value stored through `out`. -/
def s32k_get_size (cfg : s32k_flash_config) : Int × Nat := (0, cfg.flash_size)

/-- The function `s32k_flash_init`.  The call `k_mutex_init(&data->lock)` touches no
hardware; the assignment `REG8(FTFC_FERSTAT_OFF) = REG8(FTFC_FERSTAT_OFF)` reads the register
and writes the value back. -/
def s32k_flash_init {σ : Type} (c : Controller σ) : Run σ Int := do
  REG8_write c FTFC_FSTAT_OFF FSTAT_ERRORS
  let v ← REG8_read c FTFC_FERSTAT_OFF
  REG8_write c FTFC_FERSTAT_OFF v
  pure 0

/-- Zephyr's `struct flash_pages_layout`. -/
structure flash_pages_layout where
  pages_count : Nat
  pages_size : Nat
  deriving DecidableEq, Repr

abbrev S32K148_FLASH_PAGE_SIZE : Nat := 0x1000
abbrev S32K148_FLASH_SIZE : Nat := 1536 * 1024

/-- The constant `s32k_layout`. -/
def s32k_layout : flash_pages_layout :=
  { pages_count := S32K148_FLASH_SIZE / S32K148_FLASH_PAGE_SIZE,
    pages_size := S32K148_FLASH_PAGE_SIZE }

/-- The function `s32k_page_layout`: the layout entries stored through `layout` and the
number of entries stored through `layout_size`.  The device argument is unused
(`ARG_UNUSED(dev)`). -/
def s32k_page_layout (_cfg : s32k_flash_config) : List flash_pages_layout × Nat :=
  ([s32k_layout], 1)

/-! ## Vocabulary of the specification -/

/-- Range of `off_t` on the target (signed 32-bit). -/
def off_t_range (offset : Int) : Prop := -(2 ^ 31 : Int) ≤ offset ∧ offset < 2 ^ 31

/-- The register offset a bus access goes to; none for a read of the flash array. -/
def Access.reg : Access → Option Nat
  | Access.regRead off _ => some off
  | Access.regWrite off _ => some off
  | Access.flashRead _ => none

/-- The values written to the command opcode register `0x07` in an access sequence, in
order: one per command whose command registers were loaded. -/
def opcode_writes (t : List Access) : List Nat :=
  t.filterMap (fun a =>
    match a with
    | Access.regWrite off v => if off = 0x07 then some v else none
    | _ => none)

/-- A write to the status register of a value with the command-complete bit set: the
access that launches a command. -/
def Access.is_launch : Access → Prop
  | Access.regWrite off v => off = FTFC_FSTAT_OFF ∧ v &&& FSTAT_CCIF ≠ 0
  | _ => False

/-- What stands right before a launch when the command was prepared: the last poll of the
ready check's wait loop (command-complete set), the ready check's final status read (no
error bit, so the ready check returned `0`), the opcode byte, the three address bytes, and
then nothing but data-register writes. -/
def launch_prepared (pre : List Access) : Prop :=
  ∃ pre0 w f op a b c ds,
    pre = pre0 ++ [Access.regRead FTFC_FSTAT_OFF w, Access.regRead FTFC_FSTAT_OFF f,
      Access.regWrite 0x07 op, Access.regWrite 0x06 a, Access.regWrite 0x05 b,
      Access.regWrite 0x04 c] ++ ds ∧
    w &&& FSTAT_CCIF ≠ 0 ∧ f &&& FSTAT_ERRORS = 0 ∧
    (op = CMD_ERASE_SECTOR ∨ op = CMD_PROGRAM_PHRASE) ∧
    ∀ d, d ∈ ds → ∃ j v, j < 8 ∧ d = Access.regWrite (0x0B + j) v

/-- Launch discipline of an access sequence: every launch is the write of `FSTAT_CCIF`
that `ftfc_launch_and_wait` starts with and comes after a prepared command; every other
write to the status register is the error-clear mask. -/
def launch_discipline (t : List Access) : Prop :=
  (∀ pre x post, t = pre ++ x :: post → x.is_launch →
    x = Access.regWrite FTFC_FSTAT_OFF FSTAT_CCIF ∧ launch_prepared pre) ∧
  (∀ v, Access.regWrite FTFC_FSTAT_OFF v ∈ t → v = FSTAT_CCIF ∨ v = FSTAT_ERRORS)

/-- An access sequence without a launch, whose writes to the status register are all the
error-clear mask. -/
def no_launch (t : List Access) : Prop :=
  ∀ a, a ∈ t → ¬ a.is_launch ∧ ∀ v, a = Access.regWrite FTFC_FSTAT_OFF v → v = FSTAT_ERRORS

/-- The writes to the data registers `0x0B..0x12` in an access sequence, in order, as
pairs of register offset and value. -/
def data_writes (t : List Access) : List (Nat × Nat) :=
  t.filterMap (fun a =>
    match a with
    | Access.regWrite off v => if 0x0B ≤ off ∧ off ≤ 0x12 then some (off, v) else none
    | _ => none)

/-- The data-register writes of the first `k` strides of a write request with more than 8
bytes per stride: the first 8 bytes of each stride, the source advancing by `write_block`. -/
def stride_data (buf : Nat → Nat) (write_block : Nat) : Nat → List (Nat × Nat)
  | 0 => []
  | k + 1 => stride_data buf write_block k ++
      (List.range 8).map (fun i => (0x0B + i, buf (k * write_block + i) % 256))

/-- The status byte `ftfc_launch_and_wait` reads once its wait loop has seen
command-complete set. -/
def launch_status {σ : Type} (c : Controller σ) (fuel : Nat) (s : σ) : Nat :=
  (c.read8 (wait_ccif c fuel (c.write8 s FTFC_FSTAT_OFF (FSTAT_CCIF % 256))).2.1
    FTFC_FSTAT_OFF).1 % 256

/-- The secondary error-status byte (offset `0x2E`) as the controller returns it right after
the status byte `launch_status`. -/
def launch_secondary {σ : Type} (c : Controller σ) (fuel : Nat) (s : σ) : Nat :=
  (c.read8 (c.read8 (wait_ccif c fuel (c.write8 s FTFC_FSTAT_OFF (FSTAT_CCIF % 256))).2.1
    FTFC_FSTAT_OFF).2 FTFC_FERSTAT_OFF).1 % 256

/-- The status byte `ftfc_clear_errors_and_ready` reads at entry. -/
def ready_status_at_entry {σ : Type} (c : Controller σ) (s : σ) : Nat :=
  (c.read8 s FTFC_FSTAT_OFF).1 % 256

/-- The status byte `ftfc_clear_errors_and_ready` reads after its wait loop, when the entry
status showed no error (so that nothing was written before the wait). -/
def ready_status_after_wait {σ : Type} (c : Controller σ) (fuel : Nat) (s : σ) : Nat :=
  (c.read8 (wait_ccif c fuel (c.read8 s FTFC_FSTAT_OFF).2).2.1 FTFC_FSTAT_OFF).1 % 256

/-- An outcome with earlier accesses put in front of its own. -/
def prepend {σ α : Type} (t : List Access) (r : Except Fault α × σ × List Access) :
    Except Fault α × σ × List Access := (r.1, r.2.1, t ++ r.2.2)

/-- Controller state after the first `k` commands of `cmd 0, cmd 1, ...` have
run one after another from `s`. -/
def stride_state {σ : Type} (cmd : Nat → Run σ Int) (s : σ) : Nat → σ
  | 0 => s
  | k + 1 => (cmd k (stride_state cmd s k)).2.1

/-- Accesses performed by the first `k` commands of `cmd 0, cmd 1, ...` run
one after another from `s`, in program order. -/
def stride_trace {σ : Type} (cmd : Nat → Run σ Int) (s : σ) : Nat → List Access
  | 0 => []
  | k + 1 => stride_trace cmd s k ++ (cmd k (stride_state cmd s k)).2.2

/-- The program-phrase command of stride `k` of a write request: absolute
address `flash_base + offset + k * write_block` as a `uint32_t`, data pointer
`buf + k * write_block`, phrase size `write_block`. -/
def write_stride_cmd {σ : Type} (c : Controller σ) (cfg : s32k_flash_config) (fuel : Nat)
    (offset : Int) (buf : Nat → Nat) (k : Nat) : Run σ Int :=
  ftfc_cmd_program_phrase c fuel
    ((cfg.flash_base + offset.toNat + k * cfg.write_block) % SIZE_MOD)
    (fun i => buf (k * cfg.write_block + i)) cfg.write_block

/-- The erase-sector command of stride `k` of an erase request: absolute
address `flash_base + offset + k * erase_block` as a `uint32_t`. -/
def erase_stride_cmd {σ : Type} (c : Controller σ) (cfg : s32k_flash_config) (fuel : Nat)
    (offset : Int) (k : Nat) : Run σ Int :=
  ftfc_cmd_erase_sector c fuel
    ((cfg.flash_base + offset.toNat + k * cfg.erase_block) % SIZE_MOD)

/-! ## A simulated controller

Registers with write-1-to-clear error flags in front of a flash array.  A
launch completes at once; `script` lists, for the launches to come, the error
bits the controller raises in the status byte and in the secondary
error-status byte (none once the list is used up). -/

/-- State of the simulated controller. -/
structure SimState where
  fstat : Nat
  ferstat : Nat
  fccob : Nat → Nat
  mem : Nat → Nat
  script : List (Nat × Nat)

/-- The 24-bit address held in the three address registers. -/
def SimState.addr24 (s : SimState) : Nat :=
  s.fccob 0x06 * 65536 + s.fccob 0x05 * 256 + s.fccob 0x04

/-- Flash array after the command held in the command registers has run:
program-phrase stores the eight data registers at the addressed location,
erase-sector sets the addressed sector to `0xFF`. -/
def SimState.execute (sector : Nat) (s : SimState) : Nat → Nat := fun a =>
  if s.fccob 0x07 = CMD_PROGRAM_PHRASE then
    if s.addr24 ≤ a ∧ a < s.addr24 + 8 then s.fccob (0x0B + (a - s.addr24)) else s.mem a
  else if s.fccob 0x07 = CMD_ERASE_SECTOR then
    if s.addr24 ≤ a ∧ a < s.addr24 + sector then 0xFF else s.mem a
  else s.mem a

/-- A command launch: without scripted error the command runs, otherwise the
flash array is left alone and the scripted error flags are raised. -/
def SimState.launch (sector : Nat) (s : SimState) : SimState :=
  if (s.script.headD (0, 0)).1 &&& FSTAT_ERRORS = 0 ∧ (s.script.headD (0, 0)).2 % 256 = 0 then
    { s with fstat := FSTAT_CCIF, mem := s.execute sector, script := s.script.tail }
  else
    { s with fstat := FSTAT_CCIF ||| ((s.script.headD (0, 0)).1 &&& FSTAT_ERRORS),
             ferstat := s.ferstat ||| (s.script.headD (0, 0)).2 % 256,
             script := s.script.tail }

/-- Modelled from the spec: the simulated controller of the test scenarios,
which is not part of the repository.  On each program-phrase launch it stores
the bytes held in the data registers at the flash location named by the
address registers; writing 1 to an error bit clears it. -/
def sim (sector : Nat) : Controller SimState where
  read8 s off :=
    if off = FTFC_FSTAT_OFF then (s.fstat, s)
    else if off = FTFC_FERSTAT_OFF then (s.ferstat, s)
    else (s.fccob off, s)
  write8 s off v :=
    if off = FTFC_FSTAT_OFF then
      if v &&& FSTAT_CCIF ≠ 0 then
        SimState.launch sector { s with fstat := s.fstat ^^^ (s.fstat &&& v &&& FSTAT_ERRORS) }
      else { s with fstat := s.fstat ^^^ (s.fstat &&& v &&& FSTAT_ERRORS) }
    else if off = FTFC_FERSTAT_OFF then { s with ferstat := s.ferstat ^^^ (s.ferstat &&& v) }
    else { s with fccob := fun r => if r = off then v else s.fccob r }
  flash s a := s.mem a

/-- The simulated controller states `s` and `t` differ at most in the status byte. -/
def SimState.same_but_fstat (s t : SimState) : Prop :=
  t.mem = s.mem ∧ t.fccob = s.fccob ∧ t.script = s.script ∧ t.ferstat = s.ferstat

/-- A ready simulated controller in front of an erased flash array. -/
def sim_init (script : List (Nat × Nat)) : SimState :=
  { fstat := FSTAT_CCIF, ferstat := 0, fccob := fun _ => 0, mem := fun _ => 0xFF,
    script := script }

/-- A ready simulated controller in front of a flash array programmed with zeros. -/
def sim_written (script : List (Nat × Nat)) : SimState :=
  { fstat := FSTAT_CCIF, ferstat := 0, fccob := fun _ => 0, mem := fun _ => 0x00,
    script := script }

/-- State of the scripted controller: the values its next reads of the status register and
of the secondary error-status register return. -/
structure ScriptState where
  fstat_reads : List Nat
  ferstat_reads : List Nat
  deriving DecidableEq, Repr

/-- Modelled from the spec: a simulated controller that answers register reads from a
script (the injectable register abstraction of the design notes, which is not part of the
repository).  Once a script is used up the status register reads ready and error-free and
the secondary error-status register reads `0`; writes are ignored. -/
def scripted : Controller ScriptState where
  read8 s off :=
    if off = FTFC_FSTAT_OFF then
      (s.fstat_reads.headD FSTAT_CCIF, { s with fstat_reads := s.fstat_reads.tail })
    else if off = FTFC_FERSTAT_OFF then
      (s.ferstat_reads.headD 0, { s with ferstat_reads := s.ferstat_reads.tail })
    else (0, s)
  write8 s _ _ := s
  flash _ _ := 0xFF

/-- A geometry with 2 KiB sectors: `flash_size = 512 * 1024`, `erase_block = 0x800`. -/
def small_sector_cfg : s32k_flash_config :=
  { flash_base := 0, flash_size := 512 * 1024, erase_block := 0x800, write_block := 8,
    params := { write_block_size := 8, erase_value := 0xFF } }

/-- The device of the specification's scenarios: the S32K148 program flash,
`flash_size = 1536 * 1024` (`S32K148_FLASH_SIZE` in the source), `erase_block = 0x1000`
(`S32K148_FLASH_PAGE_SIZE`), `write_block = 8`, at `flash_base = 0`.  The devicetree values
themselves are not in the repository. -/
def S32K148_cfg : s32k_flash_config :=
  { flash_base := 0, flash_size := 1536 * 1024, erase_block := 0x1000, write_block := 8,
    params := { write_block_size := 8, erase_value := 0xFF } }

/-- A geometry that is valid by the specification's invariant (all sizes positive,
`erase_block` a multiple of `write_block`) with a 16-byte `write_block`. -/
def wide_phrase_cfg : s32k_flash_config :=
  { flash_base := 0, flash_size := 1536 * 1024, erase_block := 0x1000, write_block := 16,
    params := { write_block_size := 16, erase_value := 0xFF } }

/-- A valid geometry whose flash region starts at `2^24`, beyond what three address bytes
can name. -/
def high_base_cfg : s32k_flash_config :=
  { flash_base := 0x1000000, flash_size := 0x1000, erase_block := 0x1000, write_block := 8,
    params := { write_block_size := 8, erase_value := 0xFF } }

/-! ## Basic facts about the execution model -/

theorem bind_apply {σ α β : Type} (m : Run σ α) (f : α → Run σ β) (s : σ) :
    (m >>= f) s = Run.bind m f s := rfl

theorem pure_apply {σ α : Type} (a : α) (s : σ) :
    (pure a : Run σ α) s = (Except.ok a, s, []) := rfl

theorem prepend_nil {σ α : Type} (r : Except Fault α × σ × List Access) : prepend [] r = r := by
  rcases r with ⟨a, s, t⟩
  rfl

theorem prepend_prepend {σ α : Type} (t u : List Access)
    (r : Except Fault α × σ × List Access) : prepend t (prepend u r) = prepend (t ++ u) r := by
  simp [prepend, List.append_assoc]

theorem bind_of_ok {σ α β : Type} (m : Run σ α) (f : α → Run σ β) (s : σ) (a : α)
    (h : (m s).1 = Except.ok a) : (m >>= f) s = prepend (m s).2.2 (f a (m s).2.1) := by
  rw [bind_apply]
  unfold Run.bind prepend
  rcases hm : m s with ⟨r, s1, t1⟩
  rw [hm] at h
  simp only at h
  subst h
  rfl

theorem bind_of_error {σ α β : Type} (m : Run σ α) (f : α → Run σ β) (s : σ) (e : Fault)
    (h : (m s).1 = Except.error e) :
    (m >>= f) s = (Except.error e, (m s).2.1, (m s).2.2) := by
  rw [bind_apply]
  unfold Run.bind
  rcases hm : m s with ⟨r, s1, t1⟩
  rw [hm] at h
  simp only at h
  subst h
  rfl

theorem bind_ok_inv {σ α β : Type} (m : Run σ α) (f : α → Run σ β) (s : σ) (b : β)
    (h : ((m >>= f) s).1 = Except.ok b) :
    ∃ a, (m s).1 = Except.ok a ∧ (f a (m s).2.1).1 = Except.ok b := by
  cases hm : (m s).1 with
  | error e =>
    rw [bind_of_error m f s e hm] at h
    cases h
  | ok a =>
    rw [bind_of_ok m f s a hm] at h
    exact ⟨a, rfl, h⟩

/-- The ready check returns `0` or `-EIO`. -/
theorem ftfc_clear_errors_and_ready_rc {σ : Type} (c : Controller σ) (fuel : Nat) (s : σ)
    (rc : Int) (h : (ftfc_clear_errors_and_ready c fuel s).1 = Except.ok rc) :
    rc = 0 ∨ rc = - EIO := by
  unfold ftfc_clear_errors_and_ready at h
  obtain ⟨_, _, h⟩ := bind_ok_inv _ _ _ _ h
  obtain ⟨_, _, h⟩ := bind_ok_inv _ _ _ _ h
  obtain ⟨_, _, h⟩ := bind_ok_inv _ _ _ _ h
  obtain ⟨_, _, h⟩ := bind_ok_inv _ _ _ _ h
  split at h
  · obtain ⟨_, _, h⟩ := bind_ok_inv _ _ _ _ h
    rw [pure_apply] at h
    injection h with h
    exact Or.inr h.symm
  · rw [pure_apply] at h
    injection h with h
    exact Or.inl h.symm

/-- The launch step returns `0` or `-EIO`. -/
theorem ftfc_launch_and_wait_rc {σ : Type} (c : Controller σ) (fuel : Nat) (s : σ)
    (rc : Int) (h : (ftfc_launch_and_wait c fuel s).1 = Except.ok rc) :
    rc = 0 ∨ rc = - EIO := by
  unfold ftfc_launch_and_wait at h
  obtain ⟨_, _, h⟩ := bind_ok_inv _ _ _ _ h
  obtain ⟨_, _, h⟩ := bind_ok_inv _ _ _ _ h
  obtain ⟨_, _, h⟩ := bind_ok_inv _ _ _ _ h
  split at h
  · obtain ⟨_, _, h⟩ := bind_ok_inv _ _ _ _ h
    rw [pure_apply] at h
    injection h with h
    exact Or.inr h.symm
  · obtain ⟨_, _, h⟩ := bind_ok_inv _ _ _ _ h
    split at h
    · obtain ⟨_, _, h⟩ := bind_ok_inv _ _ _ _ h
      rw [pure_apply] at h
      injection h with h
      exact Or.inr h.symm
    · rw [pure_apply] at h
      injection h with h
      exact Or.inl h.symm

/-- An erase-sector command returns `0` or `-EIO`. -/
theorem ftfc_cmd_erase_sector_rc {σ : Type} (c : Controller σ) (fuel addr : Nat) (s : σ)
    (rc : Int) (h : (ftfc_cmd_erase_sector c fuel addr s).1 = Except.ok rc) :
    rc = 0 ∨ rc = - EIO := by
  unfold ftfc_cmd_erase_sector at h
  obtain ⟨rc1, h1, h⟩ := bind_ok_inv _ _ _ _ h
  split at h
  · rw [pure_apply] at h
    injection h with h
    subst h
    exact ftfc_clear_errors_and_ready_rc c fuel s _ h1
  · obtain ⟨_, _, h⟩ := bind_ok_inv _ _ _ _ h
    obtain ⟨_, _, h⟩ := bind_ok_inv _ _ _ _ h
    obtain ⟨_, _, h⟩ := bind_ok_inv _ _ _ _ h
    obtain ⟨_, _, h⟩ := bind_ok_inv _ _ _ _ h
    exact ftfc_launch_and_wait_rc c fuel _ _ h

/-- A program-phrase command returns `0` or `-EIO`. -/
theorem ftfc_cmd_program_phrase_rc {σ : Type} (c : Controller σ) (fuel addr : Nat)
    (data : Nat → Nat) (phrase_size : Nat) (s : σ)
    (rc : Int) (h : (ftfc_cmd_program_phrase c fuel addr data phrase_size s).1 = Except.ok rc) :
    rc = 0 ∨ rc = - EIO := by
  unfold ftfc_cmd_program_phrase at h
  obtain ⟨rc1, h1, h⟩ := bind_ok_inv _ _ _ _ h
  split at h
  · rw [pure_apply] at h
    injection h with h
    subst h
    exact ftfc_clear_errors_and_ready_rc c fuel s _ h1
  · obtain ⟨_, _, h⟩ := bind_ok_inv _ _ _ _ h
    obtain ⟨_, _, h⟩ := bind_ok_inv _ _ _ _ h
    obtain ⟨_, _, h⟩ := bind_ok_inv _ _ _ _ h
    obtain ⟨_, _, h⟩ := bind_ok_inv _ _ _ _ h
    obtain ⟨_, _, h⟩ := bind_ok_inv _ _ _ _ h
    exact ftfc_launch_and_wait_rc c fuel _ _ h

/-! ## Request validation -/

theorem to_size_t_of_nonneg {offset : Int} (h0 : 0 ≤ offset) (h1 : offset < 2 ^ 31) :
    to_size_t offset = offset.toNat := by
  unfold to_size_t
  rw [Int.emod_eq_of_lt h0 (by simp only [SIZE_MOD]; omega)]

theorem to_size_t_emod {offset : Int} (h0 : 0 ≤ offset) (h1 : offset < 2 ^ 31) (b : Nat) :
    ((to_size_t offset % b : Nat) : Int) = offset % (b : Int) := by
  rw [to_size_t_of_nonneg h0 h1]
  have : ((offset.toNat : Nat) : Int) = offset := Int.toNat_of_nonneg h0
  rw [Int.natCast_mod, this]

/-- A request that lies inside the flash region passes the bounds test. -/
theorem bounds_test_in_bounds (flash_size : Nat) (offset : Int) (len : Nat)
    (hsz : flash_size < SIZE_MOD) (h0 : 0 ≤ offset) (hin : offset + (len : Int) ≤ (flash_size : Int)) :
    to_size_t offset = offset.toNat ∧
      ¬ (offset < 0 ∨ (to_size_t offset + len) % SIZE_MOD > flash_size) := by
  have h31 : offset < 2 ^ 32 := by simp only [SIZE_MOD] at hsz; omega
  have hts : to_size_t offset = offset.toNat := by
    unfold to_size_t
    rw [Int.emod_eq_of_lt h0 (by simp only [SIZE_MOD]; omega)]
  refine ⟨hts, ?_⟩
  rw [hts, Nat.mod_eq_of_lt (by simp only [SIZE_MOD] at hsz ⊢; omega)]
  omega

theorem s32k_flash_erase_checked {σ : Type} (c : Controller σ) (cfg : s32k_flash_config)
    (fuel : Nat) (offset : Int) (size : Nat)
    (hsz : cfg.flash_size < SIZE_MOD) (heb : 0 < cfg.erase_block) (h0 : 0 ≤ offset)
    (hin : offset + (size : Int) ≤ (cfg.flash_size : Int))
    (hao : offset % (cfg.erase_block : Int) = 0) (hal : size % cfg.erase_block = 0) :
    s32k_flash_erase c cfg fuel offset size =
      erase_loop c cfg fuel size fuel 0 ((cfg.flash_base + offset.toNat) % SIZE_MOD) := by
  obtain ⟨hts, hb⟩ := bounds_test_in_bounds cfg.flash_size offset size hsz h0 hin
  unfold s32k_flash_erase
  rw [if_neg hb, if_neg (by omega), hts]
  have hao' : offset.toNat % cfg.erase_block = 0 := by
    have h := Int.toNat_of_nonneg h0
    have : ((offset.toNat % cfg.erase_block : Nat) : Int) = 0 := by
      rw [Int.natCast_mod, h]; exact hao
    exact_mod_cast this
  rw [if_neg (by simp [hao', hal])]

theorem s32k_flash_write_checked {σ : Type} (c : Controller σ) (cfg : s32k_flash_config)
    (fuel : Nat) (offset : Int) (buf : Nat → Nat) (len : Nat)
    (hsz : cfg.flash_size < SIZE_MOD) (hwb : 0 < cfg.write_block) (h0 : 0 ≤ offset)
    (hin : offset + (len : Int) ≤ (cfg.flash_size : Int))
    (hao : offset % (cfg.write_block : Int) = 0) (hal : len % cfg.write_block = 0) :
    s32k_flash_write c cfg fuel offset buf len =
      write_loop c cfg fuel buf len fuel 0 ((cfg.flash_base + offset.toNat) % SIZE_MOD) 0 := by
  obtain ⟨hts, hb⟩ := bounds_test_in_bounds cfg.flash_size offset len hsz h0 hin
  unfold s32k_flash_write
  rw [if_neg hb, if_neg (by omega), hts]
  have hao' : offset.toNat % cfg.write_block = 0 := by
    have h := Int.toNat_of_nonneg h0
    have : ((offset.toNat % cfg.write_block : Nat) : Int) = 0 := by
      rw [Int.natCast_mod, h]; exact hao
    exact_mod_cast this
  rw [if_neg (by simp [hao', hal])]

/-! ## The stride loops -/

theorem stride_congr {σ : Type} (cmd1 cmd2 : Nat → Run σ Int) (s : σ) (n : Nat)
    (h : ∀ j, j < n → cmd1 j = cmd2 j) :
    stride_state cmd1 s n = stride_state cmd2 s n ∧
      stride_trace cmd1 s n = stride_trace cmd2 s n := by
  induction n with
  | zero => exact ⟨rfl, rfl⟩
  | succ n ih =>
    obtain ⟨h1, h2⟩ := ih (fun j hj => h j (by omega))
    constructor
    · show (cmd1 n (stride_state cmd1 s n)).2.1 = (cmd2 n (stride_state cmd2 s n)).2.1
      rw [h1, h n (by omega)]
    · show stride_trace cmd1 s n ++ (cmd1 n (stride_state cmd1 s n)).2.2
        = stride_trace cmd2 s n ++ (cmd2 n (stride_state cmd2 s n)).2.2
      rw [h1, h2, h n (by omega)]

theorem erase_loop_succ {σ : Type} (c : Controller σ) (cfg : s32k_flash_config)
    (fuel size n done addr : Nat) :
    erase_loop c cfg fuel size (n + 1) done addr =
      if done < size then
        (ftfc_cmd_erase_sector c fuel addr >>= fun rc =>
          if rc ≠ 0 then pure rc
          else erase_loop c cfg fuel size n ((done + cfg.erase_block) % SIZE_MOD)
            ((addr + cfg.erase_block) % SIZE_MOD))
      else pure 0 := rfl

theorem erase_loop_done {σ : Type} (c : Controller σ) (cfg : s32k_flash_config)
    (fuel size n done addr : Nat) (h : ¬ done < size) (s : σ) :
    erase_loop c cfg fuel size n done addr s = (Except.ok 0, s, []) := by
  cases n with
  | zero => simp only [erase_loop, if_neg h]; rfl
  | succ n => rw [erase_loop_succ, if_neg h]; rfl

/-- After `m` erase strides that returned `0`, the erase loop stands at stride `m`. -/
theorem erase_loop_upto {σ : Type} (c : Controller σ) (cfg : s32k_flash_config)
    (fuel size n A : Nat) (s : σ) (heb : 0 < cfg.erase_block) (hsize : size < SIZE_MOD)
    (m : Nat) :
    m ≤ n → m * cfg.erase_block ≤ size →
    (∀ i, i < m → ((ftfc_cmd_erase_sector c fuel ((A + i * cfg.erase_block) % SIZE_MOD))
        (stride_state
          (fun j => ftfc_cmd_erase_sector c fuel ((A + j * cfg.erase_block) % SIZE_MOD)) s i)).1
          = Except.ok 0) →
    erase_loop c cfg fuel size n 0 (A % SIZE_MOD) s =
      prepend
        (stride_trace
          (fun j => ftfc_cmd_erase_sector c fuel ((A + j * cfg.erase_block) % SIZE_MOD)) s m)
        (erase_loop c cfg fuel size (n - m) (m * cfg.erase_block)
          ((A + m * cfg.erase_block) % SIZE_MOD)
          (stride_state
            (fun j => ftfc_cmd_erase_sector c fuel ((A + j * cfg.erase_block) % SIZE_MOD))
            s m)) := by
  induction m with
  | zero =>
    intro _ _ _
    simp only [stride_trace, stride_state, prepend_nil, Nat.sub_zero, Nat.zero_mul, Nat.add_zero]
  | succ m ih =>
    intro hn hle hok
    have hle' : m * cfg.erase_block + cfg.erase_block ≤ size := by
      rw [Nat.succ_mul] at hle; exact hle
    rw [ih (by omega) (by omega) (fun i hi => hok i (by omega))]
    obtain ⟨n', hn'⟩ : ∃ n', n - m = n' + 1 := ⟨n - m - 1, by omega⟩
    rw [hn', erase_loop_succ, if_pos (by omega), bind_of_ok _ _ _ 0 (hok m (by omega))]
    rw [if_neg (by simp), prepend_prepend]
    have h1 : (m * cfg.erase_block + cfg.erase_block) % SIZE_MOD = (m + 1) * cfg.erase_block := by
      rw [Nat.succ_mul]; exact Nat.mod_eq_of_lt (by omega)
    have h2 : ((A + m * cfg.erase_block) % SIZE_MOD + cfg.erase_block) % SIZE_MOD
        = (A + (m + 1) * cfg.erase_block) % SIZE_MOD := by
      rw [Nat.succ_mul, ← Nat.add_assoc]
      exact Nat.mod_add_mod _ _ _
    have h3 : n - (m + 1) = n' := by omega
    rw [h1, h2, h3]
    rfl

theorem write_loop_succ {σ : Type} (c : Controller σ) (cfg : s32k_flash_config)
    (fuel : Nat) (buf : Nat → Nat) (len n done addr p : Nat) :
    write_loop c cfg fuel buf len (n + 1) done addr p =
      if done < len then
        (ftfc_cmd_program_phrase c fuel addr (fun i => buf (p + i)) cfg.write_block >>= fun rc =>
          if rc ≠ 0 then pure rc
          else write_loop c cfg fuel buf len n ((done + cfg.write_block) % SIZE_MOD)
            ((addr + cfg.write_block) % SIZE_MOD) (p + cfg.write_block))
      else pure 0 := rfl

theorem write_loop_done {σ : Type} (c : Controller σ) (cfg : s32k_flash_config)
    (fuel : Nat) (buf : Nat → Nat) (len n done addr p : Nat) (h : ¬ done < len) (s : σ) :
    write_loop c cfg fuel buf len n done addr p s = (Except.ok 0, s, []) := by
  cases n with
  | zero => simp only [write_loop, if_neg h]; rfl
  | succ n => rw [write_loop_succ, if_neg h]; rfl

/-- After `m` write strides that returned `0`, the write loop stands at stride `m`. -/
theorem write_loop_upto {σ : Type} (c : Controller σ) (cfg : s32k_flash_config)
    (fuel : Nat) (buf : Nat → Nat) (len n A : Nat) (s : σ) (hwb : 0 < cfg.write_block)
    (hlen : len < SIZE_MOD) (m : Nat) :
    m ≤ n → m * cfg.write_block ≤ len →
    (∀ i, i < m → ((ftfc_cmd_program_phrase c fuel ((A + i * cfg.write_block) % SIZE_MOD)
          (fun x => buf (i * cfg.write_block + x)) cfg.write_block)
        (stride_state
          (fun j => ftfc_cmd_program_phrase c fuel ((A + j * cfg.write_block) % SIZE_MOD)
            (fun x => buf (j * cfg.write_block + x)) cfg.write_block) s i)).1
          = Except.ok 0) →
    write_loop c cfg fuel buf len n 0 (A % SIZE_MOD) 0 s =
      prepend
        (stride_trace
          (fun j => ftfc_cmd_program_phrase c fuel ((A + j * cfg.write_block) % SIZE_MOD)
            (fun x => buf (j * cfg.write_block + x)) cfg.write_block) s m)
        (write_loop c cfg fuel buf len (n - m) (m * cfg.write_block)
          ((A + m * cfg.write_block) % SIZE_MOD) (m * cfg.write_block)
          (stride_state
            (fun j => ftfc_cmd_program_phrase c fuel ((A + j * cfg.write_block) % SIZE_MOD)
              (fun x => buf (j * cfg.write_block + x)) cfg.write_block) s m)) := by
  induction m with
  | zero =>
    intro _ _ _
    simp only [stride_trace, stride_state, prepend_nil, Nat.sub_zero, Nat.zero_mul, Nat.add_zero]
  | succ m ih =>
    intro hn hle hok
    have hle' : m * cfg.write_block + cfg.write_block ≤ len := by
      rw [Nat.succ_mul] at hle; exact hle
    rw [ih (by omega) (by omega) (fun i hi => hok i (by omega))]
    obtain ⟨n', hn'⟩ : ∃ n', n - m = n' + 1 := ⟨n - m - 1, by omega⟩
    rw [hn', write_loop_succ, if_pos (by omega), bind_of_ok _ _ _ 0 (hok m (by omega))]
    rw [if_neg (by simp), prepend_prepend]
    have h1 : (m * cfg.write_block + cfg.write_block) % SIZE_MOD = (m + 1) * cfg.write_block := by
      rw [Nat.succ_mul]; exact Nat.mod_eq_of_lt (by omega)
    have h2 : ((A + m * cfg.write_block) % SIZE_MOD + cfg.write_block) % SIZE_MOD
        = (A + (m + 1) * cfg.write_block) % SIZE_MOD := by
      rw [Nat.succ_mul, ← Nat.add_assoc]
      exact Nat.mod_add_mod _ _ _
    have h3 : n - (m + 1) = n' := by omega
    have h4 : m * cfg.write_block + cfg.write_block = (m + 1) * cfg.write_block := by
      rw [Nat.succ_mul]
    rw [h1, h2, h3, h4]
    rfl

/-- A checked write request whose first `m` strides return `0` stands at stride `m`
of its loop, having performed exactly the accesses of those `m` commands. -/
theorem s32k_flash_write_upto {σ : Type} (c : Controller σ) (cfg : s32k_flash_config)
    (fuel : Nat) (offset : Int) (buf : Nat → Nat) (len : Nat) (s : σ)
    (hsz : cfg.flash_size < SIZE_MOD)
    (hwb : 0 < cfg.write_block) (h0 : 0 ≤ offset)
    (hin : offset + (len : Int) ≤ (cfg.flash_size : Int))
    (hao : offset % (cfg.write_block : Int) = 0) (hal : len % cfg.write_block = 0)
    (m : Nat) (hm : m ≤ len / cfg.write_block) (hfuel : m ≤ fuel)
    (hok : ∀ k, k < m → (write_stride_cmd c cfg fuel offset buf k
      (stride_state (write_stride_cmd c cfg fuel offset buf) s k)).1 = Except.ok 0) :
    s32k_flash_write c cfg fuel offset buf len s =
      prepend (stride_trace (write_stride_cmd c cfg fuel offset buf) s m)
        (write_loop c cfg fuel buf len (fuel - m) (m * cfg.write_block)
          ((cfg.flash_base + offset.toNat + m * cfg.write_block) % SIZE_MOD)
          (m * cfg.write_block)
          (stride_state (write_stride_cmd c cfg fuel offset buf) s m)) := by
  have hlen : len < SIZE_MOD := by omega
  have hnl : len / cfg.write_block * cfg.write_block = len :=
    Nat.div_mul_cancel (Nat.dvd_of_mod_eq_zero hal)
  have hml : m * cfg.write_block ≤ len := by
    calc m * cfg.write_block ≤ len / cfg.write_block * cfg.write_block :=
          Nat.mul_le_mul_right _ hm
      _ = len := hnl
  rw [s32k_flash_write_checked c cfg fuel offset buf len hsz hwb h0 hin hao hal]
  exact write_loop_upto c cfg fuel buf len fuel (cfg.flash_base + offset.toNat) s hwb hlen m
    hfuel hml hok

/-- A checked erase request whose first `m` strides return `0` stands at stride `m`
of its loop, having performed exactly the accesses of those `m` commands. -/
theorem s32k_flash_erase_upto {σ : Type} (c : Controller σ) (cfg : s32k_flash_config)
    (fuel : Nat) (offset : Int) (size : Nat) (s : σ)
    (hsz : cfg.flash_size < SIZE_MOD)
    (heb : 0 < cfg.erase_block) (h0 : 0 ≤ offset)
    (hin : offset + (size : Int) ≤ (cfg.flash_size : Int))
    (hao : offset % (cfg.erase_block : Int) = 0) (hal : size % cfg.erase_block = 0)
    (m : Nat) (hm : m ≤ size / cfg.erase_block) (hfuel : m ≤ fuel)
    (hok : ∀ k, k < m → (erase_stride_cmd c cfg fuel offset k
      (stride_state (erase_stride_cmd c cfg fuel offset) s k)).1 = Except.ok 0) :
    s32k_flash_erase c cfg fuel offset size s =
      prepend (stride_trace (erase_stride_cmd c cfg fuel offset) s m)
        (erase_loop c cfg fuel size (fuel - m) (m * cfg.erase_block)
          ((cfg.flash_base + offset.toNat + m * cfg.erase_block) % SIZE_MOD)
          (stride_state (erase_stride_cmd c cfg fuel offset) s m)) := by
  have hlen : size < SIZE_MOD := by omega
  have hnl : size / cfg.erase_block * cfg.erase_block = size :=
    Nat.div_mul_cancel (Nat.dvd_of_mod_eq_zero hal)
  have hml : m * cfg.erase_block ≤ size := by
    calc m * cfg.erase_block ≤ size / cfg.erase_block * cfg.erase_block :=
          Nat.mul_le_mul_right _ hm
      _ = size := hnl
  rw [s32k_flash_erase_checked c cfg fuel offset size hsz heb h0 hin hao hal]
  exact erase_loop_upto c cfg fuel size fuel (cfg.flash_base + offset.toNat) s heb hlen m
    hfuel hml hok

/-- The first accesses of a sequence are those of its first computation. -/
theorem bind_trace_starts {σ α β : Type} (m : Run σ α) (f : α → Run σ β) (s : σ) :
    ∃ t, ((m >>= f) s).2.2 = (m s).2.2 ++ t := by
  cases hm : (m s).1 with
  | error e =>
    rw [bind_of_error m f s e hm]
    exact ⟨[], (List.append_nil _).symm⟩
  | ok a =>
    rw [bind_of_ok m f s a hm]
    exact ⟨_, rfl⟩

/-- With a positive fuel the ready check starts with a read of the status register. -/
theorem ftfc_clear_errors_and_ready_first_access {σ : Type} (c : Controller σ) (fuel : Nat)
    (s : σ) :
    ∃ t, (ftfc_clear_errors_and_ready c fuel s).2.2
      = Access.regRead FTFC_FSTAT_OFF ((c.read8 s FTFC_FSTAT_OFF).1 % 256) :: t := by
  unfold ftfc_clear_errors_and_ready
  obtain ⟨t, ht⟩ := bind_trace_starts (REG8_read c FTFC_FSTAT_OFF) _ s
  exact ⟨t, ht⟩

/-- An erase-sector command starts with a read of the status register. -/
theorem ftfc_cmd_erase_sector_first_access {σ : Type} (c : Controller σ) (fuel addr : Nat)
    (s : σ) :
    ∃ t, (ftfc_cmd_erase_sector c fuel addr s).2.2
      = Access.regRead FTFC_FSTAT_OFF ((c.read8 s FTFC_FSTAT_OFF).1 % 256) :: t := by
  unfold ftfc_cmd_erase_sector
  obtain ⟨t, ht⟩ := bind_trace_starts (ftfc_clear_errors_and_ready c fuel) _ s
  obtain ⟨u, hu⟩ := ftfc_clear_errors_and_ready_first_access c fuel s
  rw [ht, hu]
  exact ⟨u ++ t, rfl⟩

/-- A program-phrase command starts with a read of the status register. -/
theorem ftfc_cmd_program_phrase_first_access {σ : Type} (c : Controller σ) (fuel addr : Nat)
    (data : Nat → Nat) (phrase_size : Nat) (s : σ) :
    ∃ t, (ftfc_cmd_program_phrase c fuel addr data phrase_size s).2.2
      = Access.regRead FTFC_FSTAT_OFF ((c.read8 s FTFC_FSTAT_OFF).1 % 256) :: t := by
  unfold ftfc_cmd_program_phrase
  obtain ⟨t, ht⟩ := bind_trace_starts (ftfc_clear_errors_and_ready c fuel) _ s
  obtain ⟨u, hu⟩ := ftfc_clear_errors_and_ready_first_access c fuel s
  rw [ht, hu]
  exact ⟨u ++ t, rfl⟩

/-- The bounds test rejects, without any hardware access, every request with a negative
offset and every request that ends beyond the flash region, as long as `offset + len` does
not exceed the range of `size_t`. -/
theorem out_of_bounds_rejected_without_wrap {σ : Type} (c : Controller σ)
    (cfg : s32k_flash_config) (fuel : Nat) (offset : Int) (buf : Nat → Nat) (len : Nat) (s : σ)
    (hoff : off_t_range offset)
    (hout : offset < 0 ∨
      ((cfg.flash_size : Int) < offset + (len : Int) ∧ offset + (len : Int) < (SIZE_MOD : Int))) :
    s32k_flash_read c cfg offset buf len s = (Except.ok (- EINVAL, buf), s, []) ∧
    s32k_flash_write c cfg fuel offset buf len s = (Except.ok (- EINVAL), s, []) ∧
    s32k_flash_erase c cfg fuel offset len s = (Except.ok (- EINVAL), s, []) := by
  have hb : offset < 0 ∨ (to_size_t offset + len) % SIZE_MOD > cfg.flash_size := by
    rcases hout with h | ⟨h1, h2⟩
    · exact Or.inl h
    · by_cases hneg : offset < 0
      · exact Or.inl hneg
      · right
        rw [to_size_t_of_nonneg (by omega) hoff.2, Nat.mod_eq_of_lt (by omega)]
        omega
  unfold s32k_flash_read s32k_flash_write s32k_flash_erase
  rw [if_pos hb, if_pos hb, if_pos hb]
  exact ⟨rfl, rfl, rfl⟩

/-- An in-bounds read returns `0`, copies the `len` flash bytes at `flash_base + offset ..`
in order, leaves the rest of the destination memory alone and touches no register. -/
theorem s32k_flash_read_in_bounds {σ : Type} (c : Controller σ) (cfg : s32k_flash_config)
    (offset : Int) (buf : Nat → Nat) (len : Nat) (s : σ)
    (hsz : cfg.flash_size < SIZE_MOD) (hregion : cfg.flash_base + cfg.flash_size ≤ SIZE_MOD)
    (h0 : 0 ≤ offset) (hin : offset + (len : Int) ≤ (cfg.flash_size : Int)) :
    s32k_flash_read c cfg offset buf len s =
      (Except.ok (0, fun i =>
          if i < len then c.flash s (cfg.flash_base + offset.toNat + i) % 256 else buf i),
        s, (List.range len).map (fun i => Access.flashRead (cfg.flash_base + offset.toNat + i))) := by
  obtain ⟨hts, hb⟩ := bounds_test_in_bounds cfg.flash_size offset len hsz h0 hin
  unfold s32k_flash_read
  rw [if_neg hb, hts]
  have h1 : (memcpy_from_flash c buf ((cfg.flash_base + offset.toNat) % SIZE_MOD) len s).1
      = Except.ok (fun i =>
          if i < len then c.flash s ((cfg.flash_base + offset.toNat) % SIZE_MOD + i) % 256
          else buf i) := rfl
  rw [bind_of_ok _ _ _ _ h1]
  simp only [prepend, pure_apply, List.append_nil, memcpy_from_flash]
  by_cases hlen : len = 0
  · subst hlen
    have hf : (fun i => if i < 0
          then c.flash s ((cfg.flash_base + offset.toNat) % SIZE_MOD + i) % 256 else buf i)
        = (fun i => if i < 0
          then c.flash s (cfg.flash_base + offset.toNat + i) % 256 else buf i) := by
      funext i
      rw [if_neg (Nat.not_lt_zero i), if_neg (Nat.not_lt_zero i)]
    rw [hf]
    rfl
  · rw [Nat.mod_eq_of_lt (show cfg.flash_base + offset.toNat < SIZE_MOD by omega)]

/-! ## Shape of the access sequences -/

theorem mem_bind_trace {σ α β : Type} (m : Run σ α) (f : α → Run σ β) (s : σ) (a : Access)
    (h : a ∈ ((m >>= f) s).2.2) :
    a ∈ (m s).2.2 ∨ ∃ x, (m s).1 = Except.ok x ∧ a ∈ (f x (m s).2.1).2.2 := by
  cases hm : (m s).1 with
  | error e =>
    rw [bind_of_error m f s e hm] at h
    exact Or.inl h
  | ok x =>
    rw [bind_of_ok m f s x hm] at h
    rcases List.mem_append.mp h with h | h
    · exact Or.inl h
    · exact Or.inr ⟨x, rfl, h⟩

theorem mem_REG8_read {σ : Type} (c : Controller σ) (off : Nat) (s : σ) (a : Access)
    (h : a ∈ (REG8_read c off s).2.2) : a.reg = some off := by
  have h' : a ∈ [Access.regRead off ((c.read8 s off).1 % 256)] := h
  rw [List.mem_singleton] at h'
  subst h'
  rfl

theorem mem_REG8_write {σ : Type} (c : Controller σ) (off val : Nat) (s : σ) (a : Access)
    (h : a ∈ (REG8_write c off val s).2.2) : a = Access.regWrite off (val % 256) := by
  have h' : a ∈ [Access.regWrite off (val % 256)] := h
  exact List.mem_singleton.mp h'

theorem mem_pure {σ α : Type} (x : α) (s : σ) (a : Access)
    (h : a ∈ ((pure x : Run σ α) s).2.2) : False := by
  rw [pure_apply] at h
  exact List.not_mem_nil _ h

/-- The busy-wait loop only reads the status register. -/
theorem wait_ccif_touches {σ : Type} (c : Controller σ) (fuel : Nat) (s : σ) (a : Access)
    (h : a ∈ (wait_ccif c fuel s).2.2) : ∃ v, a = Access.regRead FTFC_FSTAT_OFF v := by
  induction fuel generalizing s with
  | zero => exact absurd h (List.not_mem_nil _)
  | succ n ih =>
    unfold wait_ccif at h
    rcases mem_bind_trace _ _ _ _ h with h | ⟨v, _, h⟩
    · exact ⟨_, List.mem_singleton.mp h⟩
    · split at h
      · exact ih _ h
      · exact absurd h (List.not_mem_nil _)

/-- The ready check only touches the status register, and writes nothing to it but the
error-clear mask. -/
theorem ftfc_clear_errors_and_ready_touches {σ : Type} (c : Controller σ) (fuel : Nat)
    (s : σ) (a : Access) (h : a ∈ (ftfc_clear_errors_and_ready c fuel s).2.2) :
    (∃ v, a = Access.regRead FTFC_FSTAT_OFF v) ∨
      a = Access.regWrite FTFC_FSTAT_OFF FSTAT_ERRORS := by
  unfold ftfc_clear_errors_and_ready at h
  rcases mem_bind_trace _ _ _ _ h with h | ⟨v, _, h⟩
  · exact Or.inl ⟨_, List.mem_singleton.mp h⟩
  rcases mem_bind_trace _ _ _ _ h with h | ⟨_, _, h⟩
  · split at h
    · exact Or.inr (mem_REG8_write _ _ _ _ _ h)
    · exact absurd h (List.not_mem_nil _)
  rcases mem_bind_trace _ _ _ _ h with h | ⟨_, _, h⟩
  · exact Or.inl (wait_ccif_touches _ _ _ _ h)
  rcases mem_bind_trace _ _ _ _ h with h | ⟨_, _, h⟩
  · exact Or.inl ⟨_, List.mem_singleton.mp h⟩
  split at h
  · rcases mem_bind_trace _ _ _ _ h with h | ⟨_, _, h⟩
    · exact Or.inr (mem_REG8_write _ _ _ _ _ h)
    · exact absurd h (List.not_mem_nil _)
  · exact absurd h (List.not_mem_nil _)

/-- The launch step only touches the status register and the secondary error-status
register. -/
theorem ftfc_launch_and_wait_touches {σ : Type} (c : Controller σ) (fuel : Nat)
    (s : σ) (a : Access) (h : a ∈ (ftfc_launch_and_wait c fuel s).2.2) :
    a.reg = some FTFC_FSTAT_OFF ∨ a.reg = some FTFC_FERSTAT_OFF := by
  unfold ftfc_launch_and_wait at h
  rcases mem_bind_trace _ _ _ _ h with h | ⟨_, _, h⟩
  · rw [mem_REG8_write _ _ _ _ _ h]; exact Or.inl rfl
  rcases mem_bind_trace _ _ _ _ h with h | ⟨_, _, h⟩
  · obtain ⟨v, hv⟩ := wait_ccif_touches _ _ _ _ h
    rw [hv]; exact Or.inl rfl
  rcases mem_bind_trace _ _ _ _ h with h | ⟨_, _, h⟩
  · exact Or.inl (mem_REG8_read _ _ _ _ h)
  split at h
  · rcases mem_bind_trace _ _ _ _ h with h | ⟨_, _, h⟩
    · rw [mem_REG8_write _ _ _ _ _ h]; exact Or.inl rfl
    · exact absurd h (List.not_mem_nil _)
  · rcases mem_bind_trace _ _ _ _ h with h | ⟨_, _, h⟩
    · exact Or.inr (mem_REG8_read _ _ _ _ h)
    split at h
    · rcases mem_bind_trace _ _ _ _ h with h | ⟨_, _, h⟩
      · rw [mem_REG8_write _ _ _ _ _ h]; exact Or.inr rfl
      · exact absurd h (List.not_mem_nil _)
    · exact absurd h (List.not_mem_nil _)

/-- The data loop, entered at index `i`, only writes data registers `0x0B + j`, `i ≤ j < 8`. -/
theorem program_data_loop_touches {σ : Type} (c : Controller σ) (data : Nat → Nat)
    (phrase_size n i : Nat) (s : σ) (a : Access)
    (h : a ∈ (program_data_loop c data phrase_size n i s).2.2) :
    ∃ j, i ≤ j ∧ j < 8 ∧ j < phrase_size ∧ a = Access.regWrite (0x0B + j) (data j % 256) := by
  induction n generalizing i s with
  | zero =>
    unfold program_data_loop at h
    split at h <;> exact absurd h (List.not_mem_nil _)
  | succ n ih =>
    unfold program_data_loop at h
    split at h
    · rename_i hg
      rcases mem_bind_trace _ _ _ _ h with h | ⟨_, _, h⟩
      · exact ⟨i, Nat.le_refl _, hg.2, hg.1, mem_REG8_write _ _ _ _ _ h⟩
      · obtain ⟨j, h1, h2, h3, h4⟩ := ih _ _ h
        exact ⟨j, by omega, h2, h3, h4⟩
    · exact absurd h (List.not_mem_nil _)

theorem and_255_mod (x : Nat) : (x &&& 0xFF) % 256 = x &&& 0xFF :=
  Nat.mod_eq_of_lt (Nat.lt_of_le_of_lt Nat.and_le_right (by decide))

theorem and_255_eq_mod (x : Nat) : x &&& 0xFF = x % 256 :=
  Nat.and_pow_two_sub_one_eq_mod x 8

/-- The three address bytes of a 24-bit address reassemble to the address. -/
theorem addr_bytes_reassemble (addr : Nat) (h : addr < 2 ^ 24) :
    ((addr >>> 16) &&& 0xFF) * 65536 + ((addr >>> 8) &&& 0xFF) * 256 + (addr &&& 0xFF) = addr := by
  rw [and_255_eq_mod, and_255_eq_mod, and_255_eq_mod, Nat.shiftRight_eq_div_pow,
    Nat.shiftRight_eq_div_pow]
  omega

theorem REG8_write_bind {σ β : Type} (c : Controller σ) (off val : Nat) (f : Unit → Run σ β)
    (s : σ) :
    (REG8_write c off val >>= f) s
      = prepend [Access.regWrite off (val % 256)] (f () (c.write8 s off (val % 256))) :=
  bind_of_ok (REG8_write c off val) f s () rfl

/-- An erase-sector command whose ready check passed: its accesses, in order. -/
theorem ftfc_cmd_erase_sector_trace {σ : Type} (c : Controller σ) (fuel addr : Nat) (s : σ)
    (hready : (ftfc_clear_errors_and_ready c fuel s).1 = Except.ok 0) :
    (ftfc_cmd_erase_sector c fuel addr s).2.2 =
      (ftfc_clear_errors_and_ready c fuel s).2.2 ++
        Access.regWrite 0x07 0x09 :: Access.regWrite 0x06 ((addr >>> 16) &&& 0xFF) ::
        Access.regWrite 0x05 ((addr >>> 8) &&& 0xFF) :: Access.regWrite 0x04 (addr &&& 0xFF) ::
        (ftfc_launch_and_wait c fuel
          (c.write8 (c.write8 (c.write8 (c.write8 (ftfc_clear_errors_and_ready c fuel s).2.1
            0x07 0x09) 0x06 ((addr >>> 16) &&& 0xFF)) 0x05 ((addr >>> 8) &&& 0xFF))
            0x04 (addr &&& 0xFF))).2.2 := by
  unfold ftfc_cmd_erase_sector
  rw [bind_of_ok _ _ _ 0 hready, if_neg (by simp), REG8_write_bind, REG8_write_bind,
    REG8_write_bind, REG8_write_bind, and_255_mod, and_255_mod, and_255_mod]
  simp only [prepend, List.singleton_append]
  rfl

/-- A program-phrase command whose ready check passed: its accesses, in order. -/
theorem ftfc_cmd_program_phrase_trace {σ : Type} (c : Controller σ) (fuel addr : Nat)
    (data : Nat → Nat) (phrase_size : Nat) (s : σ)
    (hready : (ftfc_clear_errors_and_ready c fuel s).1 = Except.ok 0) :
    ∃ t, (ftfc_cmd_program_phrase c fuel addr data phrase_size s).2.2 =
      (ftfc_clear_errors_and_ready c fuel s).2.2 ++
        Access.regWrite 0x07 0x07 :: Access.regWrite 0x06 ((addr >>> 16) &&& 0xFF) ::
        Access.regWrite 0x05 ((addr >>> 8) &&& 0xFF) :: Access.regWrite 0x04 (addr &&& 0xFF) ::
        t ∧
      ∀ a, a ∈ t →
        (∃ j, j < 8 ∧ j < phrase_size ∧ a = Access.regWrite (0x0B + j) (data j % 256)) ∨
        a.reg = some FTFC_FSTAT_OFF ∨ a.reg = some FTFC_FERSTAT_OFF := by
  unfold ftfc_cmd_program_phrase
  rw [bind_of_ok _ _ _ 0 hready, if_neg (by simp), REG8_write_bind, REG8_write_bind,
    REG8_write_bind, REG8_write_bind, and_255_mod, and_255_mod, and_255_mod]
  simp only [prepend, List.singleton_append]
  refine ⟨_, rfl, ?_⟩
  intro a ha
  rcases mem_bind_trace _ _ _ _ ha with h | ⟨_, _, h⟩
  · obtain ⟨j, _, h2, h3, h4⟩ := program_data_loop_touches _ _ _ _ _ _ _ h
    exact Or.inl ⟨j, h2, h3, h4⟩
  · exact Or.inr (ftfc_launch_and_wait_touches _ _ _ _ h)

/-! ## Round trip on the simulated controller -/

theorem bind_ok_state {σ α β : Type} (m : Run σ α) (f : α → Run σ β) (s : σ) (b : β)
    (h : ((m >>= f) s).1 = Except.ok b) :
    ∃ a, (m s).1 = Except.ok a ∧ (f a (m s).2.1).1 = Except.ok b ∧
      ((m >>= f) s).2.1 = (f a (m s).2.1).2.1 := by
  cases hm : (m s).1 with
  | error e =>
    rw [bind_of_error m f s e hm] at h
    cases h
  | ok a =>
    rw [bind_of_ok m f s a hm] at h ⊢
    exact ⟨a, rfl, h, rfl⟩

/-- The data loop given 8 iterations from index 0 never runs out of them. -/
theorem program_data_loop_ok {σ : Type} (c : Controller σ) (data : Nat → Nat)
    (phrase_size n i : Nat) (s : σ) (h : 8 ≤ n + i) :
    (program_data_loop c data phrase_size n i s).1 = Except.ok () := by
  induction n generalizing i s with
  | zero =>
    unfold program_data_loop
    rw [if_neg (by omega)]
    rfl
  | succ n ih =>
    unfold program_data_loop
    split
    · rw [REG8_write_bind]
      exact ih (i + 1) _ (by omega)
    · rfl

/-- A program-phrase command whose ready check passed is the four command-register writes,
the data loop and the launch step, from the state the ready check left. -/
theorem ftfc_cmd_program_phrase_of_ready {σ : Type} (c : Controller σ) (fuel addr : Nat)
    (data : Nat → Nat) (phrase_size : Nat) (s : σ)
    (hready : (ftfc_clear_errors_and_ready c fuel s).1 = Except.ok 0) :
    ftfc_cmd_program_phrase c fuel addr data phrase_size s =
      prepend ((ftfc_clear_errors_and_ready c fuel s).2.2 ++
        (Access.regWrite 0x07 0x07 :: Access.regWrite 0x06 ((addr >>> 16) &&& 0xFF) ::
          Access.regWrite 0x05 ((addr >>> 8) &&& 0xFF) ::
          Access.regWrite 0x04 (addr &&& 0xFF) ::
          (program_data_loop c data phrase_size 8 0
            (c.write8 (c.write8 (c.write8 (c.write8 (ftfc_clear_errors_and_ready c fuel s).2.1
              0x07 0x07) 0x06 ((addr >>> 16) &&& 0xFF)) 0x05 ((addr >>> 8) &&& 0xFF))
              0x04 (addr &&& 0xFF))).2.2))
        (ftfc_launch_and_wait c fuel
          (program_data_loop c data phrase_size 8 0
            (c.write8 (c.write8 (c.write8 (c.write8 (ftfc_clear_errors_and_ready c fuel s).2.1
              0x07 0x07) 0x06 ((addr >>> 16) &&& 0xFF)) 0x05 ((addr >>> 8) &&& 0xFF))
              0x04 (addr &&& 0xFF))).2.1) := by
  unfold ftfc_cmd_program_phrase
  rw [bind_of_ok _ _ _ 0 hready, if_neg (by simp), REG8_write_bind, REG8_write_bind,
    REG8_write_bind, REG8_write_bind, and_255_mod, and_255_mod, and_255_mod,
    bind_of_ok _ _ _ () (program_data_loop_ok c data phrase_size 8 0 _ (by omega))]
  simp only [prepend_prepend, List.singleton_append, List.cons_append, List.nil_append]
  rfl

/-- An erase-sector command whose ready check passed is the four command-register writes and
the launch step, from the state the ready check left. -/
theorem ftfc_cmd_erase_sector_of_ready {σ : Type} (c : Controller σ) (fuel addr : Nat) (s : σ)
    (hready : (ftfc_clear_errors_and_ready c fuel s).1 = Except.ok 0) :
    ftfc_cmd_erase_sector c fuel addr s =
      prepend ((ftfc_clear_errors_and_ready c fuel s).2.2 ++
        [Access.regWrite 0x07 0x09, Access.regWrite 0x06 ((addr >>> 16) &&& 0xFF),
          Access.regWrite 0x05 ((addr >>> 8) &&& 0xFF), Access.regWrite 0x04 (addr &&& 0xFF)])
        (ftfc_launch_and_wait c fuel
          (c.write8 (c.write8 (c.write8 (c.write8 (ftfc_clear_errors_and_ready c fuel s).2.1
            0x07 0x09) 0x06 ((addr >>> 16) &&& 0xFF)) 0x05 ((addr >>> 8) &&& 0xFF))
            0x04 (addr &&& 0xFF))) := by
  unfold ftfc_cmd_erase_sector
  rw [bind_of_ok _ _ _ 0 hready, if_neg (by simp), REG8_write_bind, REG8_write_bind,
    REG8_write_bind, REG8_write_bind, and_255_mod, and_255_mod, and_255_mod]
  simp only [prepend_prepend, List.singleton_append, List.cons_append, List.nil_append]
  rfl

/-- A command that returns `0` passed its ready check. -/
theorem ftfc_cmd_program_phrase_ready {σ : Type} (c : Controller σ) (fuel addr : Nat)
    (data : Nat → Nat) (phrase_size : Nat) (s : σ)
    (h : (ftfc_cmd_program_phrase c fuel addr data phrase_size s).1 = Except.ok 0) :
    (ftfc_clear_errors_and_ready c fuel s).1 = Except.ok 0 := by
  unfold ftfc_cmd_program_phrase at h
  obtain ⟨rc, h1, h2⟩ := bind_ok_inv _ _ _ _ h
  by_cases hrc : rc = 0
  · rw [h1, hrc]
  · rw [if_pos hrc, pure_apply] at h2
    injection h2 with h2
    exact absurd h2 hrc

theorem REG8_read_bind {σ β : Type} (c : Controller σ) (off : Nat) (f : Nat → Run σ β)
    (s : σ) :
    (REG8_read c off >>= f) s
      = prepend [Access.regRead off ((c.read8 s off).1 % 256)]
          (f ((c.read8 s off).1 % 256) (c.read8 s off).2) :=
  bind_of_ok (REG8_read c off) f s _ rfl

/-- A property of the controller state that every step keeps is kept by a sequence. -/
theorem bind_preserves {σ α β : Type} (P : σ → σ → Prop)
    (htrans : ∀ a b c, P a b → P b c → P a c) (m : Run σ α) (f : α → Run σ β)
    (hm : ∀ s, P s (m s).2.1) (hf : ∀ a s, P s (f a s).2.1) (s : σ) :
    P s ((m >>= f) s).2.1 := by
  cases h : (m s).1 with
  | error e =>
    rw [bind_of_error m f s e h]
    exact hm s
  | ok a =>
    rw [bind_of_ok m f s a h]
    exact htrans _ _ _ (hm s) (hf a _)

theorem same_but_fstat_refl (s : SimState) : s.same_but_fstat s := ⟨rfl, rfl, rfl, rfl⟩

theorem same_but_fstat_trans (a b c : SimState) (h1 : a.same_but_fstat b)
    (h2 : b.same_but_fstat c) : a.same_but_fstat c :=
  ⟨h2.1.trans h1.1, h2.2.1.trans h1.2.1, h2.2.2.1.trans h1.2.2.1, h2.2.2.2.trans h1.2.2.2⟩

theorem sim_read8_state (sector : Nat) (s : SimState) (off : Nat) :
    ((sim sector).read8 s off).2 = s := by
  show (if off = FTFC_FSTAT_OFF then (s.fstat, s)
    else if off = FTFC_FERSTAT_OFF then (s.ferstat, s) else (s.fccob off, s)).2 = s
  split
  · rfl
  · split <;> rfl

theorem sim_REG8_read_preserves (sector off : Nat) (s : SimState) :
    s.same_but_fstat (REG8_read (sim sector) off s).2.1 := by
  show s.same_but_fstat ((sim sector).read8 s off).2
  rw [sim_read8_state]
  exact same_but_fstat_refl s

theorem sim_clear_write_preserves (sector : Nat) (s : SimState) :
    s.same_but_fstat (REG8_write (sim sector) FTFC_FSTAT_OFF FSTAT_ERRORS s).2.1 :=
  ⟨rfl, rfl, rfl, rfl⟩

theorem sim_wait_ccif_state (sector fuel : Nat) (s : SimState) :
    (wait_ccif (sim sector) fuel s).2.1 = s := by
  induction fuel with
  | zero => rfl
  | succ n ih =>
    unfold wait_ccif
    rw [REG8_read_bind, sim_read8_state]
    split
    · exact ih
    · rfl

/-- On the simulated controller the ready check changes nothing but the status byte. -/
theorem sim_ready_preserves (sector fuel : Nat) (s : SimState) :
    s.same_but_fstat (ftfc_clear_errors_and_ready (sim sector) fuel s).2.1 := by
  unfold ftfc_clear_errors_and_ready
  refine bind_preserves _ same_but_fstat_trans _ _ (sim_REG8_read_preserves sector _) ?_ s
  intro v s
  refine bind_preserves _ same_but_fstat_trans _ _ ?_ ?_ s
  · intro s
    split
    · exact sim_clear_write_preserves sector s
    · exact same_but_fstat_refl s
  intro _ s
  refine bind_preserves _ same_but_fstat_trans _ _ ?_ ?_ s
  · intro s
    rw [sim_wait_ccif_state]
    exact same_but_fstat_refl s
  intro _ s
  refine bind_preserves _ same_but_fstat_trans _ _ (sim_REG8_read_preserves sector _) ?_ s
  intro v s
  split
  · refine bind_preserves _ same_but_fstat_trans _ _ (sim_clear_write_preserves sector) ?_ s
    intro _ s
    exact same_but_fstat_refl s
  · exact same_but_fstat_refl s

theorem sim_write8_fccob (sector : Nat) (s : SimState) (off v : Nat)
    (h0 : off ≠ 0x00) (h1 : off ≠ 0x2E) :
    (sim sector).write8 s off v = { s with fccob := fun r => if r = off then v else s.fccob r } := by
  show (if off = FTFC_FSTAT_OFF then _ else if off = FTFC_FERSTAT_OFF then _ else _) = _
  rw [if_neg h0, if_neg h1]

/-- On the simulated controller the data loop, entered at index `i`, stores `data[j]` in data
register `0x0B + j` for `i ≤ j < min phrase_size 8` and changes nothing else. -/
theorem sim_program_data_loop_state (sector : Nat) (data : Nat → Nat) (phrase_size n i : Nat)
    (s : SimState) (h : 8 ≤ n + i) :
    (program_data_loop (sim sector) data phrase_size n i s).2.1 =
      { s with fccob := fun r =>
          if 0x0B + i ≤ r ∧ r < 0x0B + phrase_size ∧ r < 0x0B + 8
          then data (r - 0x0B) % 256 else s.fccob r } := by
  induction n generalizing i s with
  | zero =>
    unfold program_data_loop
    rw [if_neg (by omega)]
    show s = _
    have : (fun r => if 0x0B + i ≤ r ∧ r < 0x0B + phrase_size ∧ r < 0x0B + 8
        then data (r - 0x0B) % 256 else s.fccob r) = s.fccob := by
      funext r
      rw [if_neg (by omega)]
    rw [this]
  | succ n ih =>
    unfold program_data_loop
    split
    · rename_i hg
      rw [REG8_write_bind]
      show (program_data_loop (sim sector) data phrase_size n (i + 1) _).2.1 = _
      rw [ih (i + 1) _ (by omega), sim_write8_fccob sector s _ _ (by omega) (by omega)]
      congr 1
      funext r
      by_cases hr : r = 0x0B + i
      · subst hr
        rw [if_neg (by omega), if_pos (by omega)]
        simp
      · by_cases hr2 : 0x0B + (i + 1) ≤ r ∧ r < 0x0B + phrase_size ∧ r < 0x0B + 8
        · rw [if_pos hr2, if_pos (by omega)]
        · rw [if_neg hr2, if_neg (by omega)]
          simp only [if_neg hr]
    · rename_i hg
      show s = _
      have : (fun r => if 0x0B + i ≤ r ∧ r < 0x0B + phrase_size ∧ r < 0x0B + 8
          then data (r - 0x0B) % 256 else s.fccob r) = s.fccob := by
        funext r
        rw [if_neg (by omega)]
      rw [this]

theorem status_error_bits_visible (x : Nat)
    (h : ((FSTAT_CCIF ||| (x &&& FSTAT_ERRORS)) % 256) &&& FSTAT_ERRORS = 0) :
    x &&& FSTAT_ERRORS = 0 := by
  have key : ∀ y, y < 113 → ((128 ||| y) % 256) &&& 112 = 0 → y &&& 112 = 0 := by decide
  have hy : x &&& 112 < 113 := Nat.lt_succ_of_le Nat.and_le_right
  have h2 := key (x &&& 112) hy h
  rw [Nat.and_assoc, Nat.and_self] at h2
  exact h2

theorem secondary_error_visible (f y : Nat) (h : (f ||| y % 256) % 256 = 0) : y % 256 = 0 := by
  by_contra hne
  obtain ⟨i, hi⟩ := Nat.ne_zero_implies_bit_true hne
  have h8 : (256 : Nat) = 2 ^ 8 := by decide
  rw [h8] at hi h
  have hi2 := hi
  rw [Nat.testBit_mod_two_pow] at hi2
  have hlt : i < 8 := by
    by_contra hge
    simp [hge] at hi2
  have hb : ((f ||| y % 2 ^ 8) % 2 ^ 8).testBit i = true := by
    rw [Nat.testBit_mod_two_pow, Nat.testBit_or, hi]
    simp [hlt]
  rw [h] at hb
  simp at hb

theorem prepend_fst {σ α : Type} (t : List Access) (r : Except Fault α × σ × List Access) :
    (prepend t r).1 = r.1 := rfl

theorem prepend_state {σ α : Type} (t : List Access) (r : Except Fault α × σ × List Access) :
    (prepend t r).2.1 = r.2.1 := rfl

theorem prepend_trace {σ α : Type} (t : List Access) (r : Except Fault α × σ × List Access) :
    (prepend t r).2.2 = t ++ r.2.2 := rfl

/-- On the simulated controller a launch step that returns `0` has run the command held in
the command registers; the command registers are left as they were. -/
theorem sim_launch_ok (sector fuel : Nat) (s : SimState)
    (h : (ftfc_launch_and_wait (sim sector) fuel s).1 = Except.ok 0) :
    (ftfc_launch_and_wait (sim sector) fuel s).2.1.mem = SimState.execute sector s := by
  unfold ftfc_launch_and_wait at h ⊢
  rw [REG8_write_bind] at h ⊢
  rw [prepend_fst] at h
  rw [prepend_state]
  obtain ⟨_, _, h2, hst⟩ := bind_ok_state _ _ _ _ h
  rw [hst]
  rw [sim_wait_ccif_state, REG8_read_bind, sim_read8_state] at h2 ⊢
  by_cases hc : ((sim sector).read8 ((sim sector).write8 s FTFC_FSTAT_OFF (FSTAT_CCIF % 256))
      FTFC_FSTAT_OFF).1 % 256 &&& FSTAT_ERRORS ≠ 0
  · rw [if_pos hc, REG8_write_bind] at h2
    exact absurd h2 (by simp [prepend, pure_apply])
  rw [if_neg hc, REG8_read_bind, sim_read8_state] at h2 ⊢
  by_cases hd : ((sim sector).read8 ((sim sector).write8 s FTFC_FSTAT_OFF (FSTAT_CCIF % 256))
      FTFC_FERSTAT_OFF).1 % 256 ≠ 0
  · rw [if_pos hd, REG8_write_bind] at h2
    exact absurd h2 (by simp [prepend, pure_apply])
  rw [if_neg hd]
  show ((sim sector).write8 s FTFC_FSTAT_OFF (FSTAT_CCIF % 256)).mem = _
  have hw : (sim sector).write8 s FTFC_FSTAT_OFF (FSTAT_CCIF % 256)
      = SimState.launch sector
          { s with fstat := s.fstat ^^^ (s.fstat &&& (FSTAT_CCIF % 256) &&& FSTAT_ERRORS) } := rfl
  rw [hw] at hc hd ⊢
  unfold SimState.launch at hc hd ⊢
  split
  · rfl
  · rename_i hbad
    exfalso
    rw [if_neg hbad] at hc hd
    apply hbad
    constructor
    · exact status_error_bits_visible _ (not_not.mp hc)
    · exact secondary_error_visible _ _ (not_not.mp hd)

/-- On the simulated controller a program-phrase command for a 24-bit address that returns
`0` has stored its `phrase_size ≤ 8` data bytes at `addr ..` and has left every lower
address alone. -/
theorem sim_program_phrase_mem (sector fuel addr : Nat) (data : Nat → Nat) (phrase_size : Nat)
    (s : SimState) (haddr : addr < 2 ^ 24) (hps : phrase_size ≤ 8)
    (h : (ftfc_cmd_program_phrase (sim sector) fuel addr data phrase_size s).1 = Except.ok 0) :
    (∀ a, addr ≤ a → a < addr + phrase_size →
      (ftfc_cmd_program_phrase (sim sector) fuel addr data phrase_size s).2.1.mem a
        = data (a - addr) % 256) ∧
    (∀ a, a < addr →
      (ftfc_cmd_program_phrase (sim sector) fuel addr data phrase_size s).2.1.mem a
        = s.mem a) := by
  have hready := ftfc_cmd_program_phrase_ready _ _ _ _ _ _ h
  rw [ftfc_cmd_program_phrase_of_ready _ _ _ _ _ _ hready] at h ⊢
  rw [prepend_fst] at h
  rw [prepend_state, sim_launch_ok _ _ _ h, sim_program_data_loop_state _ _ _ _ _ _ (by omega),
    sim_write8_fccob _ _ _ _ (by decide) (by decide),
    sim_write8_fccob _ _ _ _ (by decide) (by decide),
    sim_write8_fccob _ _ _ _ (by decide) (by decide),
    sim_write8_fccob _ _ _ _ (by decide) (by decide)]
  obtain ⟨hmem, hfccob, _, _⟩ := sim_ready_preserves sector fuel s
  have hre := addr_bytes_reassemble addr haddr
  constructor
  · intro a h1 h2
    simp only [SimState.execute, SimState.addr24]
    simp only [show ¬ (11 + 0 ≤ 7 ∧ 7 < 11 + phrase_size ∧ 7 < 11 + 8) by omega,
      show ¬ (11 + 0 ≤ 6 ∧ 6 < 11 + phrase_size ∧ 6 < 11 + 8) by omega,
      show ¬ (11 + 0 ≤ 5 ∧ 5 < 11 + phrase_size ∧ 5 < 11 + 8) by omega,
      show ¬ (11 + 0 ≤ 4 ∧ 4 < 11 + phrase_size ∧ 4 < 11 + 8) by omega,
      if_false, if_true, Nat.reduceEqDiff, hre]
    rw [if_pos (by omega), if_pos (by omega)]
    congr 2
    omega
  · intro a h1
    simp only [SimState.execute, SimState.addr24]
    simp only [show ¬ (11 + 0 ≤ 7 ∧ 7 < 11 + phrase_size ∧ 7 < 11 + 8) by omega,
      show ¬ (11 + 0 ≤ 6 ∧ 6 < 11 + phrase_size ∧ 6 < 11 + 8) by omega,
      show ¬ (11 + 0 ≤ 5 ∧ 5 < 11 + phrase_size ∧ 5 < 11 + 8) by omega,
      show ¬ (11 + 0 ≤ 4 ∧ 4 < 11 + phrase_size ∧ 4 < 11 + 8) by omega,
      if_false, if_true, Nat.reduceEqDiff, hre]
    rw [if_neg (by omega)]
    exact congrFun hmem a

/-- A checked write request that returns `0` had enough fuel for its `len / write_block`
strides, and each of its program-phrase commands returned `0`. -/
theorem s32k_flash_write_ok_strides {σ : Type} (c : Controller σ) (cfg : s32k_flash_config)
    (fuel : Nat) (offset : Int) (buf : Nat → Nat) (len : Nat) (s : σ)
    (hsz : cfg.flash_size < SIZE_MOD)
    (hwb : 0 < cfg.write_block) (h0 : 0 ≤ offset)
    (hin : offset + (len : Int) ≤ (cfg.flash_size : Int))
    (hao : offset % (cfg.write_block : Int) = 0) (hal : len % cfg.write_block = 0)
    (hw : (s32k_flash_write c cfg fuel offset buf len s).1 = Except.ok 0) (k : Nat) :
    k ≤ len / cfg.write_block →
      k ≤ fuel ∧ ∀ i, i < k → (write_stride_cmd c cfg fuel offset buf i
        (stride_state (write_stride_cmd c cfg fuel offset buf) s i)).1 = Except.ok 0 := by
  induction k with
  | zero =>
    intro _
    exact ⟨Nat.zero_le _, fun i hi => absurd hi (Nat.not_lt_zero i)⟩
  | succ k ih =>
    intro hk
    obtain ⟨hkf, hok⟩ := ih (by omega)
    have hnl : len / cfg.write_block * cfg.write_block = len :=
      Nat.div_mul_cancel (Nat.dvd_of_mod_eq_zero hal)
    have hkl : (k + 1) * cfg.write_block ≤ len := by
      calc (k + 1) * cfg.write_block ≤ len / cfg.write_block * cfg.write_block :=
            Nat.mul_le_mul_right _ hk
        _ = len := hnl
    rw [Nat.succ_mul] at hkl
    rw [s32k_flash_write_upto c cfg fuel offset buf len s hsz hwb h0 hin hao hal
      k (by omega) hkf hok, prepend_fst] at hw
    have hfk : fuel - k ≠ 0 := by
      intro hz
      rw [hz] at hw
      unfold write_loop at hw
      rw [if_pos (by omega)] at hw
      cases hw
    obtain ⟨n', hn'⟩ : ∃ n', fuel - k = n' + 1 := ⟨fuel - k - 1, by omega⟩
    rw [hn', write_loop_succ, if_pos (by omega)] at hw
    obtain ⟨rc, h1, h2⟩ := bind_ok_inv _ _ _ _ hw
    have hrc : rc = 0 := by
      by_contra hne
      rw [if_pos hne, pure_apply] at h2
      injection h2 with h2
      exact hne h2
    refine ⟨by omega, ?_⟩
    intro i hi
    by_cases hik : i < k
    · exact hok i hik
    · have hie : i = k := by omega
      rw [hie, ← hrc]
      exact h1

/-- After `k` strides of a write request that each returned `0` on the simulated
controller, the first `k * write_block` bytes of the request are in the flash array. -/
theorem sim_write_strides_mem (sector : Nat) (cfg : s32k_flash_config) (fuel : Nat)
    (offset : Int) (data : Nat → Nat) (s : SimState) (bound : Nat)
    (hwb8 : cfg.write_block ≤ 8)
    (hbound : cfg.flash_base + offset.toNat + bound ≤ 2 ^ 24) (k : Nat) :
    k * cfg.write_block ≤ bound →
    (∀ i, i < k → (write_stride_cmd (sim sector) cfg fuel offset data i
        (stride_state (write_stride_cmd (sim sector) cfg fuel offset data) s i)).1
          = Except.ok 0) →
    ∀ j, j < k * cfg.write_block →
      (stride_state (write_stride_cmd (sim sector) cfg fuel offset data) s k).mem
        (cfg.flash_base + offset.toNat + j) = data j % 256 := by
  induction k with
  | zero =>
    intro _ _ j hj
    rw [Nat.zero_mul] at hj
    exact absurd hj (Nat.not_lt_zero j)
  | succ k ih =>
    intro hkb hok j hj
    rw [Nat.succ_mul] at hkb hj
    have hz : cfg.write_block ≠ 0 := by
      intro hz
      rw [hz] at hj
      omega
    have haddr : (cfg.flash_base + offset.toNat + k * cfg.write_block) % SIZE_MOD
        = cfg.flash_base + offset.toNat + k * cfg.write_block :=
      Nat.mod_eq_of_lt (by simp only [SIZE_MOD]; omega)
    have hcmd := hok k (Nat.lt_succ_self k)
    unfold write_stride_cmd at hcmd
    rw [haddr] at hcmd
    obtain ⟨hnew, hold⟩ := sim_program_phrase_mem sector fuel
      (cfg.flash_base + offset.toNat + k * cfg.write_block)
      (fun i => data (k * cfg.write_block + i)) cfg.write_block
      (stride_state (write_stride_cmd (sim sector) cfg fuel offset data) s k)
      (by omega) hwb8 hcmd
    show (ftfc_cmd_program_phrase (sim sector) fuel
      ((cfg.flash_base + offset.toNat + k * cfg.write_block) % SIZE_MOD)
      (fun i => data (k * cfg.write_block + i)) cfg.write_block
      (stride_state (write_stride_cmd (sim sector) cfg fuel offset data) s k)).2.1.mem
        (cfg.flash_base + offset.toNat + j) = data j % 256
    rw [haddr]
    by_cases hjk : j < k * cfg.write_block
    · have h1 := hold (cfg.flash_base + offset.toNat + j) (by omega)
      have h2 := ih (by omega) (fun i hi => hok i (by omega)) j hjk
      exact h1.trans h2
    · have h1 := hnew (cfg.flash_base + offset.toNat + j) (by omega) (by omega)
      have h3 : k * cfg.write_block
          + (cfg.flash_base + offset.toNat + j
            - (cfg.flash_base + offset.toNat + k * cfg.write_block)) = j := by omega
      rw [h3] at h1
      exact h1

/-- A checked write request whose stride commands all return `0` is the sequence of those
commands. -/
theorem s32k_flash_write_all_strides {σ : Type} (c : Controller σ) (cfg : s32k_flash_config)
    (fuel : Nat) (offset : Int) (buf : Nat → Nat) (len : Nat) (s : σ)
    (hsz : cfg.flash_size < SIZE_MOD)
    (hwb : 0 < cfg.write_block) (h0 : 0 ≤ offset)
    (hin : offset + (len : Int) ≤ (cfg.flash_size : Int))
    (hao : offset % (cfg.write_block : Int) = 0) (hal : len % cfg.write_block = 0)
    (hfuel : len / cfg.write_block ≤ fuel)
    (hok : ∀ k, k < len / cfg.write_block → (write_stride_cmd c cfg fuel offset buf k
      (stride_state (write_stride_cmd c cfg fuel offset buf) s k)).1 = Except.ok 0) :
    s32k_flash_write c cfg fuel offset buf len s =
      (Except.ok 0,
        stride_state (write_stride_cmd c cfg fuel offset buf) s (len / cfg.write_block),
        stride_trace (write_stride_cmd c cfg fuel offset buf) s (len / cfg.write_block)) := by
  rw [s32k_flash_write_upto c cfg fuel offset buf len s hsz hwb h0 hin hao hal
    (len / cfg.write_block) (Nat.le_refl _) hfuel hok]
  rw [write_loop_done c cfg fuel buf len _ _ _ _
    (by rw [Nat.div_mul_cancel (Nat.dvd_of_mod_eq_zero hal)]; omega)]
  simp only [prepend, List.append_nil]

/-- A checked erase request whose stride commands all return `0` is the sequence of those
commands. -/
theorem s32k_flash_erase_all_strides {σ : Type} (c : Controller σ) (cfg : s32k_flash_config)
    (fuel : Nat) (offset : Int) (size : Nat) (s : σ)
    (hsz : cfg.flash_size < SIZE_MOD)
    (heb : 0 < cfg.erase_block) (h0 : 0 ≤ offset)
    (hin : offset + (size : Int) ≤ (cfg.flash_size : Int))
    (hao : offset % (cfg.erase_block : Int) = 0) (hal : size % cfg.erase_block = 0)
    (hfuel : size / cfg.erase_block ≤ fuel)
    (hok : ∀ k, k < size / cfg.erase_block → (erase_stride_cmd c cfg fuel offset k
      (stride_state (erase_stride_cmd c cfg fuel offset) s k)).1 = Except.ok 0) :
    s32k_flash_erase c cfg fuel offset size s =
      (Except.ok 0,
        stride_state (erase_stride_cmd c cfg fuel offset) s (size / cfg.erase_block),
        stride_trace (erase_stride_cmd c cfg fuel offset) s (size / cfg.erase_block)) := by
  rw [s32k_flash_erase_upto c cfg fuel offset size s hsz heb h0 hin hao hal
    (size / cfg.erase_block) (Nat.le_refl _) hfuel hok]
  rw [erase_loop_done c cfg fuel size _ _ _
    (by rw [Nat.div_mul_cancel (Nat.dvd_of_mod_eq_zero hal)]; omega)]
  simp only [prepend, List.append_nil]

/-! ## Opcode writes -/

theorem opcode_writes_append (t u : List Access) :
    opcode_writes (t ++ u) = opcode_writes t ++ opcode_writes u := by
  unfold opcode_writes
  exact List.filterMap_append t u _

theorem opcode_writes_eq_nil (t : List Access)
    (h : ∀ a, a ∈ t → ∀ v, a ≠ Access.regWrite 0x07 v) : opcode_writes t = [] := by
  unfold opcode_writes
  rw [List.filterMap_eq_nil_iff]
  intro a ha
  cases a with
  | regRead off v => rfl
  | flashRead addr => rfl
  | regWrite off v =>
    by_cases hoff : off = 0x07
    · subst hoff
      exact absurd rfl (h _ ha v)
    · simp only [if_neg hoff]

/-- The ready check writes no opcode. -/
theorem opcode_writes_ready {σ : Type} (c : Controller σ) (fuel : Nat) (s : σ) :
    opcode_writes (ftfc_clear_errors_and_ready c fuel s).2.2 = [] := by
  apply opcode_writes_eq_nil
  intro a ha v hv
  rcases ftfc_clear_errors_and_ready_touches c fuel s a ha with ⟨w, h⟩ | h
  · rw [h] at hv; cases hv
  · rw [h] at hv; cases hv

/-- The launch step writes no opcode. -/
theorem opcode_writes_launch {σ : Type} (c : Controller σ) (fuel : Nat) (s : σ) :
    opcode_writes (ftfc_launch_and_wait c fuel s).2.2 = [] := by
  apply opcode_writes_eq_nil
  intro a ha v hv
  rcases ftfc_launch_and_wait_touches c fuel s a ha with h | h
  · rw [hv] at h; cases h
  · rw [hv] at h; cases h

/-- The data loop writes no opcode. -/
theorem opcode_writes_data_loop {σ : Type} (c : Controller σ) (data : Nat → Nat)
    (phrase_size n i : Nat) (s : σ) :
    opcode_writes (program_data_loop c data phrase_size n i s).2.2 = [] := by
  apply opcode_writes_eq_nil
  intro a ha v hv
  obtain ⟨j, _, _, _, h⟩ := program_data_loop_touches c data phrase_size n i s a ha
  rw [h] at hv
  injection hv with h1 _
  omega

/-- A program-phrase command whose ready check passed writes the program opcode once. -/
theorem opcode_writes_program_phrase {σ : Type} (c : Controller σ) (fuel addr : Nat)
    (data : Nat → Nat) (phrase_size : Nat) (s : σ)
    (hready : (ftfc_clear_errors_and_ready c fuel s).1 = Except.ok 0) :
    opcode_writes (ftfc_cmd_program_phrase c fuel addr data phrase_size s).2.2
      = [CMD_PROGRAM_PHRASE] := by
  rw [ftfc_cmd_program_phrase_of_ready c fuel addr data phrase_size s hready, prepend_trace,
    opcode_writes_append, opcode_writes_append, opcode_writes_ready, opcode_writes_launch]
  rw [show ∀ (x y z w : Access) (t : List Access),
      x :: y :: z :: w :: t = [x, y, z, w] ++ t from fun _ _ _ _ _ => rfl,
    opcode_writes_append, opcode_writes_data_loop]
  rfl

/-- An erase-sector command whose ready check passed writes the erase opcode once. -/
theorem opcode_writes_erase_sector {σ : Type} (c : Controller σ) (fuel addr : Nat) (s : σ)
    (hready : (ftfc_clear_errors_and_ready c fuel s).1 = Except.ok 0) :
    opcode_writes (ftfc_cmd_erase_sector c fuel addr s).2.2 = [CMD_ERASE_SECTOR] := by
  rw [ftfc_cmd_erase_sector_of_ready c fuel addr s hready, prepend_trace,
    opcode_writes_append, opcode_writes_append, opcode_writes_ready, opcode_writes_launch]
  rfl

/-- A command whose ready check did not return `0` stops after the ready check. -/
theorem ftfc_cmd_program_phrase_not_ready {σ : Type} (c : Controller σ) (fuel addr : Nat)
    (data : Nat → Nat) (phrase_size : Nat) (s : σ)
    (h : (ftfc_clear_errors_and_ready c fuel s).1 ≠ Except.ok 0) :
    ftfc_cmd_program_phrase c fuel addr data phrase_size s
      = ftfc_clear_errors_and_ready c fuel s := by
  unfold ftfc_cmd_program_phrase
  cases hr : (ftfc_clear_errors_and_ready c fuel s).1 with
  | error e =>
    rw [bind_of_error _ _ _ e hr, ← hr]
  | ok rc =>
    have hrc : rc ≠ 0 := by
      intro hz
      rw [hr, hz] at h
      exact h rfl
    rw [bind_of_ok _ _ _ rc hr, if_pos hrc, pure_apply, ← hr]
    simp only [prepend, List.append_nil]

/-- A command whose ready check did not return `0` stops after the ready check. -/
theorem ftfc_cmd_erase_sector_not_ready {σ : Type} (c : Controller σ) (fuel addr : Nat) (s : σ)
    (h : (ftfc_clear_errors_and_ready c fuel s).1 ≠ Except.ok 0) :
    ftfc_cmd_erase_sector c fuel addr s = ftfc_clear_errors_and_ready c fuel s := by
  unfold ftfc_cmd_erase_sector
  cases hr : (ftfc_clear_errors_and_ready c fuel s).1 with
  | error e =>
    rw [bind_of_error _ _ _ e hr, ← hr]
  | ok rc =>
    have hrc : rc ≠ 0 := by
      intro hz
      rw [hr, hz] at h
      exact h rfl
    rw [bind_of_ok _ _ _ rc hr, if_pos hrc, pure_apply, ← hr]
    simp only [prepend, List.append_nil]

/-- A command that returns `0` passed its ready check. -/
theorem ftfc_cmd_erase_sector_ready {σ : Type} (c : Controller σ) (fuel addr : Nat) (s : σ)
    (h : (ftfc_cmd_erase_sector c fuel addr s).1 = Except.ok 0) :
    (ftfc_clear_errors_and_ready c fuel s).1 = Except.ok 0 := by
  unfold ftfc_cmd_erase_sector at h
  obtain ⟨rc, h1, h2⟩ := bind_ok_inv _ _ _ _ h
  by_cases hrc : rc = 0
  · rw [h1, hrc]
  · rw [if_pos hrc, pure_apply] at h2
    injection h2 with h2
    exact absurd h2 hrc

/-- Whatever its outcome, a program-phrase command writes at most one opcode. -/
theorem opcode_writes_program_phrase_le {σ : Type} (c : Controller σ) (fuel addr : Nat)
    (data : Nat → Nat) (phrase_size : Nat) (s : σ) :
    (opcode_writes (ftfc_cmd_program_phrase c fuel addr data phrase_size s).2.2).length ≤ 1 := by
  by_cases h : (ftfc_clear_errors_and_ready c fuel s).1 = Except.ok 0
  · rw [opcode_writes_program_phrase c fuel addr data phrase_size s h]
    exact Nat.le_refl 1
  · rw [ftfc_cmd_program_phrase_not_ready c fuel addr data phrase_size s h, opcode_writes_ready]
    exact Nat.zero_le 1

/-- Whatever its outcome, an erase-sector command writes at most one opcode. -/
theorem opcode_writes_erase_sector_le {σ : Type} (c : Controller σ) (fuel addr : Nat) (s : σ) :
    (opcode_writes (ftfc_cmd_erase_sector c fuel addr s).2.2).length ≤ 1 := by
  by_cases h : (ftfc_clear_errors_and_ready c fuel s).1 = Except.ok 0
  · rw [opcode_writes_erase_sector c fuel addr s h]
    exact Nat.le_refl 1
  · rw [ftfc_cmd_erase_sector_not_ready c fuel addr s h, opcode_writes_ready]
    exact Nat.zero_le 1

/-- Strides that each wrote the opcode `op` once wrote it once per stride. -/
theorem opcode_writes_stride_trace {σ : Type} (cmd : Nat → Run σ Int) (s : σ) (op k : Nat)
    (h : ∀ i, i < k → opcode_writes (cmd i (stride_state cmd s i)).2.2 = [op]) :
    opcode_writes (stride_trace cmd s k) = List.replicate k op := by
  induction k with
  | zero => rfl
  | succ k ih =>
    show opcode_writes (stride_trace cmd s k ++ (cmd k (stride_state cmd s k)).2.2) = _
    rw [opcode_writes_append, ih (fun i hi => h i (by omega)), h k (by omega),
      List.replicate_succ']

/-! ## Error flags after a failure, on the simulated controller -/

theorem w1c_status_clears (x : Nat) :
    ((x ^^^ (x &&& FSTAT_ERRORS % 256 &&& FSTAT_ERRORS)) % 256) &&& FSTAT_ERRORS = 0 := by
  apply Nat.eq_of_testBit_eq
  intro i
  have h8 : (256 : Nat) = 2 ^ 8 := by decide
  have he : FSTAT_ERRORS % 256 = FSTAT_ERRORS := by decide
  rw [he, h8, Nat.testBit_and, Nat.testBit_mod_two_pow, Nat.testBit_xor, Nat.testBit_and,
    Nat.testBit_and, Nat.zero_testBit]
  cases FSTAT_ERRORS.testBit i <;> cases x.testBit i <;> simp

theorem w1c_secondary_clears (y : Nat) : (y ^^^ (y &&& y % 256 % 256)) % 256 = 0 := by
  apply Nat.eq_of_testBit_eq
  intro i
  have h8 : (256 : Nat) = 2 ^ 8 := by decide
  rw [h8, Nat.testBit_mod_two_pow, Nat.testBit_xor, Nat.testBit_and, Nat.testBit_mod_two_pow,
    Nat.testBit_mod_two_pow, Nat.zero_testBit]
  by_cases hi : i < 8 <;> cases y.testBit i <;> simp [hi]

/-- On the simulated controller, a launch step that returns `-EIO` leaves the three status
error bits clear; it leaves the secondary error-status byte clear as well if the status byte
of the completed command showed no error bit. -/
theorem sim_launch_eio_flags (sector fuel : Nat) (s : SimState)
    (h : (ftfc_launch_and_wait (sim sector) fuel s).1 = Except.ok (- EIO)) :
    (ftfc_launch_and_wait (sim sector) fuel s).2.1.fstat % 256 &&& FSTAT_ERRORS = 0 ∧
    (((sim sector).write8 s FTFC_FSTAT_OFF (FSTAT_CCIF % 256)).fstat % 256
        &&& FSTAT_ERRORS = 0 →
      (ftfc_launch_and_wait (sim sector) fuel s).2.1.ferstat % 256 = 0) := by
  unfold ftfc_launch_and_wait at h ⊢
  rw [REG8_write_bind] at h ⊢
  rw [prepend_fst] at h
  rw [prepend_state]
  obtain ⟨_, _, h2, hst⟩ := bind_ok_state _ _ _ _ h
  rw [hst]
  rw [sim_wait_ccif_state, REG8_read_bind, sim_read8_state] at h2 ⊢
  by_cases hc : ((sim sector).read8 ((sim sector).write8 s FTFC_FSTAT_OFF (FSTAT_CCIF % 256))
      FTFC_FSTAT_OFF).1 % 256 &&& FSTAT_ERRORS ≠ 0
  · rw [if_pos hc, REG8_write_bind]
    constructor
    · exact w1c_status_clears _
    · intro hclean
      exact absurd hclean hc
  rw [if_neg hc, REG8_read_bind, sim_read8_state] at h2 ⊢
  by_cases hd : ((sim sector).read8 ((sim sector).write8 s FTFC_FSTAT_OFF (FSTAT_CCIF % 256))
      FTFC_FERSTAT_OFF).1 % 256 ≠ 0
  · rw [if_pos hd, REG8_write_bind]
    constructor
    · exact not_not.mp hc
    · intro _
      exact w1c_secondary_clears _
  · rw [if_neg hd] at h2
    exact absurd h2 (by simp [prepend, pure_apply])

/-- On the simulated controller the ready check never fails: the error bits it finds are
cleared by its first write, and the controller raises none while idle. -/
theorem sim_ready_never_fails (sector fuel : Nat) (s : SimState) :
    (ftfc_clear_errors_and_ready (sim sector) fuel s).1 ≠ Except.ok (- EIO) := by
  intro h
  unfold ftfc_clear_errors_and_ready at h
  rw [REG8_read_bind, sim_read8_state, prepend_fst] at h
  obtain ⟨_, _, h2, _⟩ := bind_ok_state _ _ _ _ h
  obtain ⟨_, _, h3, _⟩ := bind_ok_state _ _ _ _ h2
  rw [sim_wait_ccif_state, REG8_read_bind, sim_read8_state, prepend_fst] at h3
  by_cases hc : ((sim sector).read8 s FTFC_FSTAT_OFF).1 % 256 &&& FSTAT_ERRORS ≠ 0
  · rw [if_pos hc] at h3
    have hz : ((sim sector).read8 (REG8_write (sim sector) FTFC_FSTAT_OFF FSTAT_ERRORS s).2.1
        FTFC_FSTAT_OFF).1 % 256 &&& FSTAT_ERRORS = 0 := w1c_status_clears _
    rw [if_neg (not_not.mpr hz)] at h3
    exact absurd h3 (by simp [pure_apply])
  · rw [if_neg hc] at h3
    have hz : ((sim sector).read8 ((pure () : Run SimState Unit) s).2.1
        FTFC_FSTAT_OFF).1 % 256 &&& FSTAT_ERRORS = 0 := not_not.mp hc
    rw [if_neg (not_not.mpr hz)] at h3
    exact absurd h3 (by simp [pure_apply])

/-- On the simulated controller, a command that returns `-EIO` passed its ready check and
failed in its launch step, which leaves the three status error bits clear. -/
theorem sim_cmd_eio_status_clear (sector fuel addr : Nat) (data : Nat → Nat)
    (phrase_size : Nat) (s : SimState) :
    ((ftfc_cmd_erase_sector (sim sector) fuel addr s).1 = Except.ok (- EIO) →
      (ftfc_cmd_erase_sector (sim sector) fuel addr s).2.1.fstat % 256 &&& FSTAT_ERRORS = 0) ∧
    ((ftfc_cmd_program_phrase (sim sector) fuel addr data phrase_size s).1
        = Except.ok (- EIO) →
      (ftfc_cmd_program_phrase (sim sector) fuel addr data phrase_size s).2.1.fstat % 256
        &&& FSTAT_ERRORS = 0) := by
  constructor
  · intro h
    have hr : (ftfc_clear_errors_and_ready (sim sector) fuel s).1 = Except.ok 0 := by
      have h' := h
      unfold ftfc_cmd_erase_sector at h'
      obtain ⟨rc, h1, h2⟩ := bind_ok_inv _ _ _ _ h'
      by_cases hrc : rc = 0
      · rw [h1, hrc]
      · rw [if_pos hrc, pure_apply] at h2
        injection h2 with h2
        rw [h2] at h1
        exact absurd h1 (sim_ready_never_fails sector fuel s)
    rw [ftfc_cmd_erase_sector_of_ready _ _ _ _ hr] at h ⊢
    rw [prepend_fst] at h
    rw [prepend_state]
    exact (sim_launch_eio_flags sector fuel _ h).1
  · intro h
    have hr : (ftfc_clear_errors_and_ready (sim sector) fuel s).1 = Except.ok 0 := by
      have h' := h
      unfold ftfc_cmd_program_phrase at h'
      obtain ⟨rc, h1, h2⟩ := bind_ok_inv _ _ _ _ h'
      by_cases hrc : rc = 0
      · rw [h1, hrc]
      · rw [if_pos hrc, pure_apply] at h2
        injection h2 with h2
        rw [h2] at h1
        exact absurd h1 (sim_ready_never_fails sector fuel s)
    rw [ftfc_cmd_program_phrase_of_ready _ _ _ _ _ _ hr] at h ⊢
    rw [prepend_fst] at h
    rw [prepend_state]
    exact (sim_launch_eio_flags sector fuel _ h).1

/-! ## Results of the ready check and of the launch step -/

set_option maxRecDepth 100000 in
/-- A status byte has one of the bits 4, 5, 6 set exactly when it meets the error mask. -/
theorem status_error_bits (f : Nat) (hf : f < 256) :
    f &&& FSTAT_ERRORS ≠ 0 ↔ (f.testBit 4 = true ∨ f.testBit 5 = true ∨ f.testBit 6 = true) := by
  have key : ∀ g, g < 256 →
      (g &&& 112 ≠ 0 ↔ (g.testBit 4 = true ∨ g.testBit 5 = true ∨ g.testBit 6 = true)) := by
    decide
  exact key f hf

/-- The result of the launch step once command-complete has been seen. -/
theorem ftfc_launch_and_wait_rc_eq {σ : Type} (c : Controller σ) (fuel : Nat) (s : σ)
    (hwait : (wait_ccif c fuel (c.write8 s FTFC_FSTAT_OFF (FSTAT_CCIF % 256))).1
      = Except.ok ()) :
    (ftfc_launch_and_wait c fuel s).1 =
      Except.ok (if launch_status c fuel s &&& FSTAT_ERRORS ≠ 0 ∨ launch_secondary c fuel s ≠ 0
        then - EIO else 0) := by
  unfold ftfc_launch_and_wait
  rw [REG8_write_bind, prepend_fst, bind_of_ok _ _ _ () hwait, prepend_fst, REG8_read_bind,
    prepend_fst]
  by_cases hc : launch_status c fuel s &&& FSTAT_ERRORS ≠ 0
  · rw [if_pos (Or.inl hc)]
    have hc' : (c.read8 (wait_ccif c fuel (c.write8 s FTFC_FSTAT_OFF (FSTAT_CCIF % 256))).2.1
        FTFC_FSTAT_OFF).1 % 256 &&& FSTAT_ERRORS ≠ 0 := hc
    rw [if_pos hc', REG8_write_bind, prepend_fst]
    rfl
  · have hc' : ¬ ((c.read8 (wait_ccif c fuel (c.write8 s FTFC_FSTAT_OFF (FSTAT_CCIF % 256))).2.1
        FTFC_FSTAT_OFF).1 % 256 &&& FSTAT_ERRORS ≠ 0) := hc
    rw [if_neg hc', REG8_read_bind, prepend_fst]
    by_cases hd : launch_secondary c fuel s ≠ 0
    · rw [if_pos (Or.inr hd)]
      have hd' : (c.read8 (c.read8
          (wait_ccif c fuel (c.write8 s FTFC_FSTAT_OFF (FSTAT_CCIF % 256))).2.1
          FTFC_FSTAT_OFF).2 FTFC_FERSTAT_OFF).1 % 256 ≠ 0 := hd
      rw [if_pos hd', REG8_write_bind, prepend_fst]
      rfl
    · have hd' : ¬ ((c.read8 (c.read8
          (wait_ccif c fuel (c.write8 s FTFC_FSTAT_OFF (FSTAT_CCIF % 256))).2.1
          FTFC_FSTAT_OFF).2 FTFC_FERSTAT_OFF).1 % 256 ≠ 0) := hd
      rw [if_neg hd', if_neg (by
        intro h
        rcases h with h | h
        · exact hc h
        · exact hd h)]
      rfl

theorem pure_bind_apply {σ α β : Type} (a : α) (f : α → Run σ β) (s : σ) :
    ((pure a : Run σ α) >>= f) s = f a s := by
  rw [bind_of_ok (pure a) f s a rfl]
  exact prepend_nil _

/-- The ready check entered with no error bit in the status byte: it writes nothing before
its wait loop, and its outcome is decided by the status byte read after the wait. -/
theorem ftfc_clear_errors_and_ready_clean_entry {σ : Type} (c : Controller σ) (fuel : Nat)
    (s : σ) (hentry : ready_status_at_entry c s &&& FSTAT_ERRORS = 0)
    (hwait : (wait_ccif c fuel (c.read8 s FTFC_FSTAT_OFF).2).1 = Except.ok ()) :
    (ready_status_after_wait c fuel s &&& FSTAT_ERRORS = 0 →
      ftfc_clear_errors_and_ready c fuel s =
        (Except.ok 0,
          (c.read8 (wait_ccif c fuel (c.read8 s FTFC_FSTAT_OFF).2).2.1 FTFC_FSTAT_OFF).2,
          Access.regRead FTFC_FSTAT_OFF (ready_status_at_entry c s) ::
            ((wait_ccif c fuel (c.read8 s FTFC_FSTAT_OFF).2).2.2 ++
              [Access.regRead FTFC_FSTAT_OFF (ready_status_after_wait c fuel s)]))) ∧
    (ready_status_after_wait c fuel s &&& FSTAT_ERRORS ≠ 0 →
      (ftfc_clear_errors_and_ready c fuel s).1 = Except.ok (- EIO) ∧
      (ftfc_clear_errors_and_ready c fuel s).2.2 =
        Access.regRead FTFC_FSTAT_OFF (ready_status_at_entry c s) ::
          ((wait_ccif c fuel (c.read8 s FTFC_FSTAT_OFF).2).2.2 ++
            [Access.regRead FTFC_FSTAT_OFF (ready_status_after_wait c fuel s),
              Access.regWrite FTFC_FSTAT_OFF FSTAT_ERRORS])) := by
  have hentry' : ¬ ((c.read8 s FTFC_FSTAT_OFF).1 % 256 &&& FSTAT_ERRORS ≠ 0) :=
    not_not.mpr hentry
  have hrun : ftfc_clear_errors_and_ready c fuel s =
      prepend [Access.regRead FTFC_FSTAT_OFF (ready_status_at_entry c s)]
        (prepend (wait_ccif c fuel (c.read8 s FTFC_FSTAT_OFF).2).2.2
          (prepend [Access.regRead FTFC_FSTAT_OFF (ready_status_after_wait c fuel s)]
            ((if ready_status_after_wait c fuel s &&& FSTAT_ERRORS ≠ 0 then
                (REG8_write c FTFC_FSTAT_OFF FSTAT_ERRORS >>= fun _ => pure (- EIO))
              else (pure 0 : Run σ Int))
              (c.read8 (wait_ccif c fuel (c.read8 s FTFC_FSTAT_OFF).2).2.1
                FTFC_FSTAT_OFF).2))) := by
    unfold ftfc_clear_errors_and_ready
    rw [REG8_read_bind, if_neg hentry', pure_bind_apply, bind_of_ok _ _ _ () hwait,
      REG8_read_bind]
    rfl
  constructor
  · intro hafter
    rw [hrun, if_neg (not_not.mpr hafter)]
    rfl
  · intro hafter
    rw [hrun, if_pos hafter, REG8_write_bind]
    exact ⟨rfl, rfl⟩

/-- The wait loop only reads; when it ends, its last read showed command-complete. -/
theorem wait_ccif_ok_trace {σ : Type} (c : Controller σ) (fuel : Nat) (s : σ)
    (h : (wait_ccif c fuel s).1 = Except.ok ()) :
    ∃ t w, (wait_ccif c fuel s).2.2 = t ++ [Access.regRead FTFC_FSTAT_OFF w] ∧
      w &&& FSTAT_CCIF ≠ 0 := by
  induction fuel generalizing s with
  | zero => cases h
  | succ n ih =>
    unfold wait_ccif at h ⊢
    rw [REG8_read_bind] at h ⊢
    rw [prepend_fst] at h
    rw [prepend_trace]
    by_cases hv : (c.read8 s FTFC_FSTAT_OFF).1 % 256 &&& FSTAT_CCIF = 0
    · rw [if_pos hv] at h ⊢
      obtain ⟨t, w, ht, hw⟩ := ih _ h
      exact ⟨Access.regRead FTFC_FSTAT_OFF ((c.read8 s FTFC_FSTAT_OFF).1 % 256) :: t, w,
        by rw [ht]; rfl, hw⟩
    · rw [if_neg hv]
      exact ⟨[], (c.read8 s FTFC_FSTAT_OFF).1 % 256, rfl, hv⟩

/-- A ready check that returns `0` ends with the last poll of its wait loop, which showed
command-complete, and its final status read, which showed no error bit. -/
theorem ftfc_clear_errors_and_ready_ok_trace {σ : Type} (c : Controller σ) (fuel : Nat)
    (s : σ) (h : (ftfc_clear_errors_and_ready c fuel s).1 = Except.ok 0) :
    ∃ t w f, (ftfc_clear_errors_and_ready c fuel s).2.2
        = t ++ [Access.regRead FTFC_FSTAT_OFF w, Access.regRead FTFC_FSTAT_OFF f] ∧
      w &&& FSTAT_CCIF ≠ 0 ∧ f &&& FSTAT_ERRORS = 0 := by
  have tail : ∀ (s1 : σ),
      ((wait_ccif c fuel >>= fun _ => REG8_read c FTFC_FSTAT_OFF >>= fun fstat =>
          if fstat &&& FSTAT_ERRORS ≠ 0 then
            (REG8_write c FTFC_FSTAT_OFF FSTAT_ERRORS >>= fun _ => pure (- EIO))
          else (pure 0 : Run σ Int)) s1).1 = Except.ok 0 →
      ∃ t w f, ((wait_ccif c fuel >>= fun _ => REG8_read c FTFC_FSTAT_OFF >>= fun fstat =>
          if fstat &&& FSTAT_ERRORS ≠ 0 then
            (REG8_write c FTFC_FSTAT_OFF FSTAT_ERRORS >>= fun _ => pure (- EIO))
          else (pure 0 : Run σ Int)) s1).2.2
          = t ++ [Access.regRead FTFC_FSTAT_OFF w, Access.regRead FTFC_FSTAT_OFF f] ∧
        w &&& FSTAT_CCIF ≠ 0 ∧ f &&& FSTAT_ERRORS = 0 := by
    intro s1 h2
    obtain ⟨_, h3, h4, _⟩ := bind_ok_state _ _ _ _ h2
    rw [bind_of_ok _ _ _ _ h3, prepend_trace]
    obtain ⟨tw, w, htw, hw⟩ := wait_ccif_ok_trace c fuel _ h3
    rw [htw]
    rw [REG8_read_bind, prepend_fst] at h4
    rw [REG8_read_bind, prepend_trace]
    by_cases hf : (c.read8 (wait_ccif c fuel s1).2.1 FTFC_FSTAT_OFF).1 % 256
        &&& FSTAT_ERRORS ≠ 0
    · rw [if_pos hf, REG8_write_bind, prepend_fst, pure_apply] at h4
      exact absurd h4 (by simp)
    · refine ⟨tw, w, _, ?_, hw, not_not.mp hf⟩
      rw [if_neg hf, pure_apply]
      simp only [List.append_assoc, List.singleton_append, List.cons_append, List.nil_append,
        List.append_nil]
  unfold ftfc_clear_errors_and_ready at h ⊢
  rw [REG8_read_bind] at h ⊢
  rw [prepend_fst] at h
  rw [prepend_trace]
  by_cases he : (c.read8 s FTFC_FSTAT_OFF).1 % 256 &&& FSTAT_ERRORS ≠ 0
  · rw [if_pos he, REG8_write_bind, prepend_fst] at h
    rw [if_pos he, REG8_write_bind, prepend_trace]
    obtain ⟨t, w, f, ht, hw, hf⟩ := tail _ h
    rw [ht]
    exact ⟨_ :: _ :: t, w, f, rfl, hw, hf⟩
  · rw [if_neg he, pure_bind_apply] at h
    rw [if_neg he, pure_bind_apply]
    obtain ⟨t, w, f, ht, hw, hf⟩ := tail _ h
    rw [ht]
    exact ⟨_ :: t, w, f, rfl, hw, hf⟩

/-! ## Data-register writes -/

/-- The data loop, entered at index `i`, writes `data[j]` to register `0x0B + j` for
`j = i, i + 1, ..., min phrase_size 8 - 1`, in this order, and does nothing else. -/
theorem program_data_loop_trace {σ : Type} (c : Controller σ) (data : Nat → Nat)
    (phrase_size n i : Nat) (s : σ) (h : 8 ≤ n + i) :
    (program_data_loop c data phrase_size n i s).2.2 =
      (List.range' i (min phrase_size 8 - i)).map
        (fun j => Access.regWrite (0x0B + j) (data j % 256)) := by
  induction n generalizing i s with
  | zero =>
    unfold program_data_loop
    rw [if_neg (by omega), show min phrase_size 8 - i = 0 by omega]
    rfl
  | succ n ih =>
    unfold program_data_loop
    split
    · rename_i hg
      rw [REG8_write_bind, prepend_trace, ih (i + 1) _ (by omega),
        show min phrase_size 8 - i = (min phrase_size 8 - (i + 1)) + 1 by omega,
        List.range'_succ]
      rfl
    · rename_i hg
      rw [show min phrase_size 8 - i = 0 by omega]
      rfl

/-- The launch step starts with the launch write; what follows are reads, the error-clear
mask written to the status register, and writes to the secondary error-status register. -/
theorem ftfc_launch_and_wait_trace {σ : Type} (c : Controller σ) (fuel : Nat) (s : σ) :
    ∃ l, (ftfc_launch_and_wait c fuel s).2.2 = Access.regWrite FTFC_FSTAT_OFF FSTAT_CCIF :: l ∧
      ∀ a, a ∈ l → (∃ off v, a = Access.regRead off v) ∨
        a = Access.regWrite FTFC_FSTAT_OFF FSTAT_ERRORS ∨
        ∃ v, a = Access.regWrite FTFC_FERSTAT_OFF v := by
  unfold ftfc_launch_and_wait
  rw [REG8_write_bind, prepend_trace]
  refine ⟨_, rfl, ?_⟩
  intro a h
  rcases mem_bind_trace _ _ _ _ h with h | ⟨_, _, h⟩
  · obtain ⟨v, hv⟩ := wait_ccif_touches _ _ _ _ h
    exact Or.inl ⟨_, v, hv⟩
  rcases mem_bind_trace _ _ _ _ h with h | ⟨_, _, h⟩
  · exact Or.inl ⟨_, _, List.mem_singleton.mp h⟩
  split at h
  · rcases mem_bind_trace _ _ _ _ h with h | ⟨_, _, h⟩
    · exact Or.inr (Or.inl (mem_REG8_write _ _ _ _ _ h))
    · exact absurd h (List.not_mem_nil _)
  · rcases mem_bind_trace _ _ _ _ h with h | ⟨_, _, h⟩
    · exact Or.inl ⟨_, _, List.mem_singleton.mp h⟩
    split at h
    · rcases mem_bind_trace _ _ _ _ h with h | ⟨_, _, h⟩
      · exact Or.inr (Or.inr ⟨_, mem_REG8_write _ _ _ _ _ h⟩)
      · exact absurd h (List.not_mem_nil _)
    · exact absurd h (List.not_mem_nil _)

theorem data_writes_append (t u : List Access) :
    data_writes (t ++ u) = data_writes t ++ data_writes u := by
  unfold data_writes
  exact List.filterMap_append t u _

theorem data_writes_eq_nil (t : List Access)
    (h : ∀ a, a ∈ t → ∀ off v, a = Access.regWrite off v → ¬ (0x0B ≤ off ∧ off ≤ 0x12)) :
    data_writes t = [] := by
  unfold data_writes
  rw [List.filterMap_eq_nil_iff]
  intro a ha
  cases a with
  | regRead off v => rfl
  | flashRead addr => rfl
  | regWrite off v =>
    simp only [if_neg (h _ ha off v rfl)]

/-- The ready check writes no data register. -/
theorem data_writes_ready {σ : Type} (c : Controller σ) (fuel : Nat) (s : σ) :
    data_writes (ftfc_clear_errors_and_ready c fuel s).2.2 = [] := by
  apply data_writes_eq_nil
  intro a ha off v hv
  rcases ftfc_clear_errors_and_ready_touches c fuel s a ha with ⟨w, h⟩ | h
  · rw [h] at hv; cases hv
  · rw [h] at hv
    injection hv with h1 _
    subst h1
    decide

/-- The launch step writes no data register. -/
theorem data_writes_launch {σ : Type} (c : Controller σ) (fuel : Nat) (s : σ) :
    data_writes (ftfc_launch_and_wait c fuel s).2.2 = [] := by
  apply data_writes_eq_nil
  intro a ha off v hv
  rcases ftfc_launch_and_wait_touches c fuel s a ha with h | h
  · rw [hv] at h
    injection h with h
    subst h
    decide
  · rw [hv] at h
    injection h with h
    subst h
    decide

/-- The data-register writes of the data loop. -/
theorem data_writes_data_loop (data : Nat → Nat) (m : Nat) (hm : m ≤ 8) :
    data_writes ((List.range m).map (fun j => Access.regWrite (0x0B + j) (data j % 256)))
      = (List.range m).map (fun j => (0x0B + j, data j % 256)) := by
  induction m with
  | zero => rfl
  | succ m ih =>
    rw [List.range_succ, List.map_append, List.map_append, data_writes_append, ih (by omega)]
    congr 1
    simp only [data_writes, List.map_cons, List.map_nil, List.filterMap_cons,
      List.filterMap_nil]
    rw [if_pos (by omega)]

/-- A program-phrase command whose ready check passed: its accesses in order, and the
data-register writes among them. -/
theorem ftfc_cmd_program_phrase_data {σ : Type} (c : Controller σ) (fuel addr : Nat)
    (data : Nat → Nat) (phrase_size : Nat) (s : σ)
    (hready : (ftfc_clear_errors_and_ready c fuel s).1 = Except.ok 0) :
    (∃ l, (ftfc_cmd_program_phrase c fuel addr data phrase_size s).2.2 =
        (ftfc_clear_errors_and_ready c fuel s).2.2 ++
          ([Access.regWrite 0x07 CMD_PROGRAM_PHRASE,
            Access.regWrite 0x06 ((addr >>> 16) &&& 0xFF),
            Access.regWrite 0x05 ((addr >>> 8) &&& 0xFF),
            Access.regWrite 0x04 (addr &&& 0xFF)] ++
          ((List.range (min phrase_size 8)).map
            (fun j => Access.regWrite (0x0B + j) (data j % 256)) ++
          Access.regWrite FTFC_FSTAT_OFF FSTAT_CCIF :: l)) ∧
      ∀ a, a ∈ l → (∃ off v, a = Access.regRead off v) ∨
        a = Access.regWrite FTFC_FSTAT_OFF FSTAT_ERRORS ∨
        ∃ v, a = Access.regWrite FTFC_FERSTAT_OFF v) ∧
    data_writes (ftfc_cmd_program_phrase c fuel addr data phrase_size s).2.2
      = (List.range (min phrase_size 8)).map (fun j => (0x0B + j, data j % 256)) := by
  constructor
  · obtain ⟨l, hl, hq⟩ := ftfc_launch_and_wait_trace c fuel
      (program_data_loop c data phrase_size 8 0
        (c.write8 (c.write8 (c.write8 (c.write8 (ftfc_clear_errors_and_ready c fuel s).2.1
          0x07 0x07) 0x06 ((addr >>> 16) &&& 0xFF)) 0x05 ((addr >>> 8) &&& 0xFF))
          0x04 (addr &&& 0xFF))).2.1
    refine ⟨l, ?_, hq⟩
    rw [ftfc_cmd_program_phrase_of_ready c fuel addr data phrase_size s hready, prepend_trace,
      hl, program_data_loop_trace c data phrase_size 8 0 _ (by omega), Nat.sub_zero,
      ← List.range_eq_range']
    simp only [List.append_assoc, List.cons_append, List.nil_append]
  · rw [ftfc_cmd_program_phrase_of_ready c fuel addr data phrase_size s hready, prepend_trace,
      program_data_loop_trace c data phrase_size 8 0 _ (by omega), Nat.sub_zero,
      ← List.range_eq_range']
    rw [show ∀ (x y z w : Access) (t : List Access),
      x :: y :: z :: w :: t = [x, y, z, w] ++ t from fun _ _ _ _ _ => rfl,
      data_writes_append, data_writes_append, data_writes_append, data_writes_ready,
      data_writes_launch, data_writes_data_loop data _ (Nat.min_le_right _ _),
      List.nil_append, List.append_nil]
    rfl

/-! ## Launch discipline -/

theorem no_launch_nil : no_launch [] := fun _ h => absurd h (List.not_mem_nil _)

theorem no_launch_append (t u : List Access) (ht : no_launch t) (hu : no_launch u) :
    no_launch (t ++ u) := by
  intro a ha
  rcases List.mem_append.mp ha with h | h
  · exact ht a h
  · exact hu a h

/-- An access sequence without a launch keeps the launch discipline. -/
theorem launch_discipline_of_no_launch (t : List Access) (h : no_launch t) :
    launch_discipline t := by
  constructor
  · intro pre x post ht hx
    have hmem : x ∈ t := by
      rw [ht]
      exact List.mem_append_right _ (List.mem_cons_self _ _)
    exact absurd hx (h x hmem).1
  · intro v hv
    exact Or.inr ((h _ hv).2 v rfl)

theorem launch_prepared_append_left (t pre : List Access) (h : launch_prepared pre) :
    launch_prepared (t ++ pre) := by
  obtain ⟨pre0, w, f, op, a, b, c, ds, hpre, hw, hf, hop, hds⟩ := h
  refine ⟨t ++ pre0, w, f, op, a, b, c, ds, ?_, hw, hf, hop, hds⟩
  rw [hpre]
  simp only [List.append_assoc]

/-- Two access sequences that keep the launch discipline keep it when one follows the
other. -/
theorem launch_discipline_append (t u : List Access) (ht : launch_discipline t)
    (hu : launch_discipline u) : launch_discipline (t ++ u) := by
  constructor
  · intro pre x post h hx
    rcases List.append_eq_append_iff.mp h with ⟨a', h1, h2⟩ | ⟨c', h1, h2⟩
    · obtain ⟨hx1, hp⟩ := hu.1 a' x post h2 hx
      refine ⟨hx1, ?_⟩
      rw [h1]
      exact launch_prepared_append_left t a' hp
    · cases c' with
      | nil =>
        rw [List.nil_append] at h2
        rw [List.append_nil] at h1
        obtain ⟨hx1, hp⟩ := hu.1 [] x post h2.symm hx
        refine ⟨hx1, ?_⟩
        have := launch_prepared_append_left t [] hp
        rw [List.append_nil] at this
        rw [← h1]
        exact this
      | cons y c'' =>
        rw [List.cons_append] at h2
        injection h2 with h3 h4
        rw [← h3] at h1
        exact ht.1 pre x c'' h1 hx
  · intro v hv
    rcases List.mem_append.mp hv with h | h
    · exact ht.2 v h
    · exact hu.2 v h

/-- The only launch of `A ++ y :: B`, when `A` and `B` have none, is `y`. -/
theorem launch_position (A B pre post : List Access) (x y : Access) (hA : no_launch A)
    (hB : no_launch B) (h : A ++ y :: B = pre ++ x :: post) (hx : x.is_launch) :
    pre = A ∧ x = y := by
  induction A generalizing pre with
  | nil =>
    cases pre with
    | nil =>
      rw [List.nil_append, List.nil_append] at h
      injection h with h1 _
      exact ⟨rfl, h1.symm⟩
    | cons p pre' =>
      rw [List.nil_append, List.cons_append] at h
      injection h with _ h2
      have hmem : x ∈ B := by
        rw [h2]
        exact List.mem_append_right _ (List.mem_cons_self _ _)
      exact absurd hx (hB x hmem).1
  | cons a A' ih =>
    cases pre with
    | nil =>
      rw [List.cons_append, List.nil_append] at h
      injection h with h1 _
      have hmem : x ∈ a :: A' := by
        rw [← h1]
        exact List.mem_cons_self _ _
      exact absurd hx (hA x hmem).1
    | cons p pre' =>
      rw [List.cons_append, List.cons_append] at h
      injection h with h1 h2
      obtain ⟨h3, h4⟩ := ih pre' (fun b hb => hA b (List.mem_cons_of_mem _ hb)) h2
      exact ⟨by rw [h3, h1], h4⟩

/-- The ready check launches nothing. -/
theorem no_launch_ready {σ : Type} (c : Controller σ) (fuel : Nat) (s : σ) :
    no_launch (ftfc_clear_errors_and_ready c fuel s).2.2 := by
  intro a ha
  rcases ftfc_clear_errors_and_ready_touches c fuel s a ha with ⟨w, h⟩ | h
  · rw [h]
    exact ⟨fun hl => hl, fun v hv => by cases hv⟩
  · rw [h]
    refine ⟨fun hl => hl.2 (by decide), fun v hv => ?_⟩
    injection hv with _ h2
    exact h2.symm

/-- Writes to the data registers launch nothing. -/
theorem no_launch_data (l : List Access)
    (h : ∀ d, d ∈ l → ∃ j v, j < 8 ∧ d = Access.regWrite (0x0B + j) v) : no_launch l := by
  intro a ha
  obtain ⟨j, v, _, hd⟩ := h a ha
  rw [hd]
  refine ⟨fun hl => ?_, fun w hw => ?_⟩
  · have h0 : 0x0B + j = 0 := hl.1
    omega
  · injection hw with h1 _
    have h0 : 0x0B + j = 0 := h1
    omega

/-- What follows the launch write in the launch step launches nothing. -/
theorem no_launch_after_launch (l : List Access)
    (h : ∀ a, a ∈ l → (∃ off v, a = Access.regRead off v) ∨
      a = Access.regWrite FTFC_FSTAT_OFF FSTAT_ERRORS ∨
      ∃ v, a = Access.regWrite FTFC_FERSTAT_OFF v) : no_launch l := by
  intro a ha
  rcases h a ha with ⟨off, v, h1⟩ | h1 | ⟨v, h1⟩
  · rw [h1]
    exact ⟨fun hl => hl, fun v hv => by cases hv⟩
  · rw [h1]
    refine ⟨fun hl => hl.2 (by decide), fun v hv => ?_⟩
    injection hv with _ h2
    exact h2.symm
  · rw [h1]
    refine ⟨fun hl => ?_, fun w hw => ?_⟩
    · exact absurd hl.1 (by decide)
    · injection hw with h2 _
      exact absurd h2 (by decide)

/-- A command that passed its ready check, loaded its command registers and launched keeps
the launch discipline. -/
theorem launch_discipline_command (pre0 D L : List Access) (w f op a b c : Nat)
    (hw : w &&& FSTAT_CCIF ≠ 0) (hf : f &&& FSTAT_ERRORS = 0)
    (hop : op = CMD_ERASE_SECTOR ∨ op = CMD_PROGRAM_PHRASE)
    (hR : no_launch (pre0 ++ [Access.regRead FTFC_FSTAT_OFF w, Access.regRead FTFC_FSTAT_OFF f]))
    (hD : ∀ d, d ∈ D → ∃ j v, j < 8 ∧ d = Access.regWrite (0x0B + j) v)
    (hL : no_launch L) :
    launch_discipline
      ((pre0 ++ [Access.regRead FTFC_FSTAT_OFF w, Access.regRead FTFC_FSTAT_OFF f]) ++
        ([Access.regWrite 0x07 op, Access.regWrite 0x06 a, Access.regWrite 0x05 b,
          Access.regWrite 0x04 c] ++
        (D ++ Access.regWrite FTFC_FSTAT_OFF FSTAT_CCIF :: L))) := by
  have h4 : no_launch [Access.regWrite 0x07 op, Access.regWrite 0x06 a,
      Access.regWrite 0x05 b, Access.regWrite 0x04 c] := by
    intro x hx
    simp only [List.mem_cons, List.mem_singleton, List.not_mem_nil, or_false] at hx
    rcases hx with h | h | h | h <;> rw [h] <;>
      exact ⟨fun hl => absurd hl.1 (by decide), fun v hv => by
        injection hv with h1 _
        exact absurd h1 (by decide)⟩
  have hA : no_launch
      ((pre0 ++ [Access.regRead FTFC_FSTAT_OFF w, Access.regRead FTFC_FSTAT_OFF f]) ++
        ([Access.regWrite 0x07 op, Access.regWrite 0x06 a, Access.regWrite 0x05 b,
          Access.regWrite 0x04 c] ++ D)) :=
    no_launch_append _ _ hR (no_launch_append _ _ h4 (no_launch_data D hD))
  have hshape : (pre0 ++ [Access.regRead FTFC_FSTAT_OFF w, Access.regRead FTFC_FSTAT_OFF f]) ++
        ([Access.regWrite 0x07 op, Access.regWrite 0x06 a, Access.regWrite 0x05 b,
          Access.regWrite 0x04 c] ++
        (D ++ Access.regWrite FTFC_FSTAT_OFF FSTAT_CCIF :: L))
      = ((pre0 ++ [Access.regRead FTFC_FSTAT_OFF w, Access.regRead FTFC_FSTAT_OFF f]) ++
        ([Access.regWrite 0x07 op, Access.regWrite 0x06 a, Access.regWrite 0x05 b,
          Access.regWrite 0x04 c] ++ D)) ++ Access.regWrite FTFC_FSTAT_OFF FSTAT_CCIF :: L := by
    simp only [List.append_assoc]
  rw [hshape]
  constructor
  · intro pre x post h hx
    obtain ⟨hpre, hxy⟩ := launch_position _ _ pre post x _ hA hL h hx
    refine ⟨hxy, pre0, w, f, op, a, b, c, D, ?_, hw, hf, hop, hD⟩
    rw [hpre]
    simp only [List.append_assoc, List.cons_append, List.nil_append]
  · intro v hv
    rcases List.mem_append.mp hv with h | h
    · exact Or.inr ((hA _ h).2 v rfl)
    · rcases List.mem_cons.mp h with h | h
      · injection h with _ h2
        exact Or.inl h2
      · exact Or.inr ((hL _ h).2 v rfl)

/-- A program-phrase command keeps the launch discipline, whatever its outcome. -/
theorem launch_discipline_program_phrase {σ : Type} (c : Controller σ) (fuel addr : Nat)
    (data : Nat → Nat) (phrase_size : Nat) (s : σ) :
    launch_discipline (ftfc_cmd_program_phrase c fuel addr data phrase_size s).2.2 := by
  by_cases hready : (ftfc_clear_errors_and_ready c fuel s).1 = Except.ok 0
  · obtain ⟨⟨l, hl, hq⟩, _⟩ := ftfc_cmd_program_phrase_data c fuel addr data phrase_size s hready
    obtain ⟨t, w, f, ht, hw, hf⟩ := ftfc_clear_errors_and_ready_ok_trace c fuel s hready
    have hR := no_launch_ready c fuel s
    rw [hl, ht]
    rw [ht] at hR
    refine launch_discipline_command t _ l w f _ _ _ _ hw hf (Or.inr rfl) hR ?_
      (no_launch_after_launch l hq)
    intro d hd
    obtain ⟨j, hj, hd2⟩ := List.mem_map.mp hd
    have hj2 : j < min phrase_size 8 := List.mem_range.mp hj
    exact ⟨j, _, by omega, hd2.symm⟩
  · rw [ftfc_cmd_program_phrase_not_ready c fuel addr data phrase_size s hready]
    exact launch_discipline_of_no_launch _ (no_launch_ready c fuel s)

/-- An erase-sector command keeps the launch discipline, whatever its outcome. -/
theorem launch_discipline_erase_sector {σ : Type} (c : Controller σ) (fuel addr : Nat)
    (s : σ) : launch_discipline (ftfc_cmd_erase_sector c fuel addr s).2.2 := by
  by_cases hready : (ftfc_clear_errors_and_ready c fuel s).1 = Except.ok 0
  · obtain ⟨l, hl, hq⟩ := ftfc_launch_and_wait_trace c fuel
      (c.write8 (c.write8 (c.write8 (c.write8 (ftfc_clear_errors_and_ready c fuel s).2.1
        0x07 0x09) 0x06 ((addr >>> 16) &&& 0xFF)) 0x05 ((addr >>> 8) &&& 0xFF))
        0x04 (addr &&& 0xFF))
    obtain ⟨t, w, f, ht, hw, hf⟩ := ftfc_clear_errors_and_ready_ok_trace c fuel s hready
    have hR := no_launch_ready c fuel s
    rw [ftfc_cmd_erase_sector_of_ready c fuel addr s hready, prepend_trace, hl, ht]
    rw [ht] at hR
    have h := launch_discipline_command t [] l w f CMD_ERASE_SECTOR ((addr >>> 16) &&& 0xFF)
      ((addr >>> 8) &&& 0xFF) (addr &&& 0xFF) hw hf (Or.inl rfl) hR
      (fun d hd => absurd hd (List.not_mem_nil _)) (no_launch_after_launch l hq)
    simp only [List.nil_append, List.append_assoc] at h ⊢
    exact h
  · rw [ftfc_cmd_erase_sector_not_ready c fuel addr s hready]
    exact launch_discipline_of_no_launch _ (no_launch_ready c fuel s)

/-- The accesses of a sequence: those of its first computation, then those of what
follows, if anything does. -/
theorem bind_trace_cases {σ α β : Type} (m : Run σ α) (f : α → Run σ β) (s : σ) :
    ((m >>= f) s).2.2 = (m s).2.2 ∨
      ∃ a, ((m >>= f) s).2.2 = (m s).2.2 ++ (f a (m s).2.1).2.2 := by
  cases hm : (m s).1 with
  | error e =>
    rw [bind_of_error m f s e hm]
    exact Or.inl rfl
  | ok a =>
    rw [bind_of_ok m f s a hm]
    exact Or.inr ⟨a, rfl⟩

/-- The write loop keeps the launch discipline. -/
theorem launch_discipline_write_loop {σ : Type} (c : Controller σ) (cfg : s32k_flash_config)
    (fuel : Nat) (buf : Nat → Nat) (len n done addr p : Nat) (s : σ) :
    launch_discipline (write_loop c cfg fuel buf len n done addr p s).2.2 := by
  induction n generalizing done addr p s with
  | zero =>
    unfold write_loop
    split <;> exact launch_discipline_of_no_launch _ no_launch_nil
  | succ n ih =>
    rw [write_loop_succ]
    split
    · rcases bind_trace_cases (ftfc_cmd_program_phrase c fuel addr (fun i => buf (p + i))
          cfg.write_block) _ s with h | ⟨rc, h⟩
      · rw [h]
        exact launch_discipline_program_phrase c fuel addr _ _ s
      · rw [h]
        refine launch_discipline_append _ _
          (launch_discipline_program_phrase c fuel addr _ _ s) ?_
        split
        · exact launch_discipline_of_no_launch _ no_launch_nil
        · exact ih _ _ _ _
    · exact launch_discipline_of_no_launch _ no_launch_nil

/-- The erase loop keeps the launch discipline. -/
theorem launch_discipline_erase_loop {σ : Type} (c : Controller σ) (cfg : s32k_flash_config)
    (fuel size n done addr : Nat) (s : σ) :
    launch_discipline (erase_loop c cfg fuel size n done addr s).2.2 := by
  induction n generalizing done addr s with
  | zero =>
    unfold erase_loop
    split <;> exact launch_discipline_of_no_launch _ no_launch_nil
  | succ n ih =>
    rw [erase_loop_succ]
    split
    · rcases bind_trace_cases (ftfc_cmd_erase_sector c fuel addr) _ s with h | ⟨rc, h⟩
      · rw [h]
        exact launch_discipline_erase_sector c fuel addr s
      · rw [h]
        refine launch_discipline_append _ _ (launch_discipline_erase_sector c fuel addr s) ?_
        split
        · exact launch_discipline_of_no_launch _ no_launch_nil
        · exact ih _ _ _
    · exact launch_discipline_of_no_launch _ no_launch_nil

/-- The initialisation function launches nothing: it writes the error-clear mask to the
status register, reads the secondary error-status register and writes the value back. -/
theorem s32k_flash_init_run {σ : Type} (c : Controller σ) (s : σ) :
    s32k_flash_init c s =
      (Except.ok 0,
        c.write8 (c.read8 (c.write8 s FTFC_FSTAT_OFF FSTAT_ERRORS) FTFC_FERSTAT_OFF).2
          FTFC_FERSTAT_OFF
          ((c.read8 (c.write8 s FTFC_FSTAT_OFF FSTAT_ERRORS) FTFC_FERSTAT_OFF).1 % 256),
        [Access.regWrite FTFC_FSTAT_OFF FSTAT_ERRORS,
          Access.regRead FTFC_FERSTAT_OFF
            ((c.read8 (c.write8 s FTFC_FSTAT_OFF FSTAT_ERRORS) FTFC_FERSTAT_OFF).1 % 256),
          Access.regWrite FTFC_FERSTAT_OFF
            ((c.read8 (c.write8 s FTFC_FSTAT_OFF FSTAT_ERRORS) FTFC_FERSTAT_OFF).1 % 256)]) := by
  unfold s32k_flash_init
  rw [REG8_write_bind, REG8_read_bind, REG8_write_bind, Nat.mod_mod]
  rfl

theorem no_launch_init {σ : Type} (c : Controller σ) (s : σ) :
    no_launch (s32k_flash_init c s).2.2 := by
  rw [s32k_flash_init_run]
  intro a ha
  simp only [List.mem_cons, List.mem_singleton, List.not_mem_nil, or_false] at ha
  rcases ha with h | h | h
  · rw [h]
    refine ⟨fun hl => hl.2 (by decide), fun v hv => ?_⟩
    injection hv with _ h2
    exact h2.symm
  · rw [h]
    exact ⟨fun hl => hl, fun v hv => by cases hv⟩
  · rw [h]
    refine ⟨fun hl => absurd hl.1 (by decide), fun v hv => ?_⟩
    injection hv with h1 _
    exact absurd h1 (by decide)

/-- A read request touches no register. -/
theorem s32k_flash_read_flash_only {σ : Type} (c : Controller σ) (cfg : s32k_flash_config)
    (offset : Int) (buf : Nat → Nat) (len : Nat) (s : σ) (a : Access)
    (ha : a ∈ (s32k_flash_read c cfg offset buf len s).2.2) : ∃ addr, a = Access.flashRead addr := by
  unfold s32k_flash_read at ha
  split at ha
  · exact absurd ha (List.not_mem_nil _)
  · rcases mem_bind_trace _ _ _ _ ha with h | ⟨_, _, h⟩
    · obtain ⟨i, _, hi⟩ := List.mem_map.mp h
      exact ⟨_, hi.symm⟩
    · exact absurd h (List.not_mem_nil _)

theorem no_launch_read {σ : Type} (c : Controller σ) (cfg : s32k_flash_config)
    (offset : Int) (buf : Nat → Nat) (len : Nat) (s : σ) :
    no_launch (s32k_flash_read c cfg offset buf len s).2.2 := by
  intro a ha
  obtain ⟨addr, h⟩ := s32k_flash_read_flash_only c cfg offset buf len s a ha
  rw [h]
  exact ⟨fun hl => hl, fun v hv => by cases hv⟩

theorem launch_discipline_write {σ : Type} (c : Controller σ) (cfg : s32k_flash_config)
    (fuel : Nat) (offset : Int) (buf : Nat → Nat) (len : Nat) (s : σ) :
    launch_discipline (s32k_flash_write c cfg fuel offset buf len s).2.2 := by
  unfold s32k_flash_write
  split
  · exact launch_discipline_of_no_launch _ no_launch_nil
  · split
    · exact launch_discipline_of_no_launch _ no_launch_nil
    · split
      · exact launch_discipline_of_no_launch _ no_launch_nil
      · exact launch_discipline_write_loop c cfg fuel buf len _ _ _ _ s

theorem launch_discipline_erase {σ : Type} (c : Controller σ) (cfg : s32k_flash_config)
    (fuel : Nat) (offset : Int) (size : Nat) (s : σ) :
    launch_discipline (s32k_flash_erase c cfg fuel offset size s).2.2 := by
  unfold s32k_flash_erase
  split
  · exact launch_discipline_of_no_launch _ no_launch_nil
  · split
    · exact launch_discipline_of_no_launch _ no_launch_nil
    · split
      · exact launch_discipline_of_no_launch _ no_launch_nil
      · exact launch_discipline_erase_loop c cfg fuel size _ _ _ s

/-! ## Bytes beyond the eighth of a phrase -/

/-- The data loop reads `data` at indices below 8 only. -/
theorem program_data_loop_congr {σ : Type} (c : Controller σ) (data data' : Nat → Nat)
    (phrase_size : Nat) (h : ∀ j, j < 8 → data' j = data j) (n i : Nat) :
    program_data_loop c data' phrase_size n i = program_data_loop c data phrase_size n i := by
  induction n generalizing i with
  | zero => rfl
  | succ n ih =>
    unfold program_data_loop
    by_cases hg : i < phrase_size ∧ i < 8
    · rw [if_pos hg, if_pos hg, h i hg.2, ih (i + 1)]
    · rw [if_neg hg, if_neg hg]

/-- A program-phrase command reads `data` at indices below 8 only. -/
theorem ftfc_cmd_program_phrase_congr {σ : Type} (c : Controller σ) (fuel addr : Nat)
    (data data' : Nat → Nat) (phrase_size : Nat) (h : ∀ j, j < 8 → data' j = data j) :
    ftfc_cmd_program_phrase c fuel addr data' phrase_size
      = ftfc_cmd_program_phrase c fuel addr data phrase_size := by
  unfold ftfc_cmd_program_phrase
  rw [program_data_loop_congr c data data' phrase_size h 8 0]

/-- The write loop, at a stride boundary of the source, reads only the first 8 bytes of
each stride. -/
theorem write_loop_congr {σ : Type} (c : Controller σ) (cfg : s32k_flash_config)
    (fuel : Nat) (buf buf' : Nat → Nat) (len : Nat)
    (h : ∀ k i, i < 8 → buf' (k * cfg.write_block + i) = buf (k * cfg.write_block + i))
    (n done addr k : Nat) :
    write_loop c cfg fuel buf' len n done addr (k * cfg.write_block)
      = write_loop c cfg fuel buf len n done addr (k * cfg.write_block) := by
  induction n generalizing done addr k with
  | zero => rfl
  | succ n ih =>
    rw [write_loop_succ, write_loop_succ]
    have hk : k * cfg.write_block + cfg.write_block = (k + 1) * cfg.write_block := by
      rw [Nat.succ_mul]
    rw [ftfc_cmd_program_phrase_congr c fuel addr (fun i => buf (k * cfg.write_block + i))
      (fun i => buf' (k * cfg.write_block + i)) cfg.write_block (fun j hj => h k j hj), hk,
      ih]

/-- A write request reads only the first 8 bytes of each stride of its source. -/
theorem s32k_flash_write_congr {σ : Type} (c : Controller σ) (cfg : s32k_flash_config)
    (fuel : Nat) (offset : Int) (buf buf' : Nat → Nat) (len : Nat)
    (h : ∀ k i, i < 8 → buf' (k * cfg.write_block + i) = buf (k * cfg.write_block + i)) :
    s32k_flash_write c cfg fuel offset buf' len = s32k_flash_write c cfg fuel offset buf len := by
  unfold s32k_flash_write
  have h0 := write_loop_congr c cfg fuel buf buf' len h fuel 0
    ((cfg.flash_base + to_size_t offset) % SIZE_MOD) 0
  rw [Nat.zero_mul] at h0
  rw [h0]

/-- The data-register writes of `k` strides that each returned `0`, for a `write_block` of
at least 8: the first 8 bytes of each stride. -/
theorem data_writes_stride_trace {σ : Type} (c : Controller σ) (cfg : s32k_flash_config)
    (fuel : Nat) (offset : Int) (buf : Nat → Nat) (s : σ) (hwb : 8 ≤ cfg.write_block)
    (k : Nat)
    (hok : ∀ i, i < k → (write_stride_cmd c cfg fuel offset buf i
      (stride_state (write_stride_cmd c cfg fuel offset buf) s i)).1 = Except.ok 0) :
    data_writes (stride_trace (write_stride_cmd c cfg fuel offset buf) s k)
      = stride_data buf cfg.write_block k := by
  induction k with
  | zero => rfl
  | succ k ih =>
    show data_writes (stride_trace (write_stride_cmd c cfg fuel offset buf) s k ++
      (write_stride_cmd c cfg fuel offset buf k
        (stride_state (write_stride_cmd c cfg fuel offset buf) s k)).2.2) = _
    rw [data_writes_append, ih (fun i hi => hok i (by omega))]
    have hcmd := hok k (Nat.lt_succ_self k)
    unfold write_stride_cmd at hcmd ⊢
    rw [(ftfc_cmd_program_phrase_data c fuel _ _ _ _
      (ftfc_cmd_program_phrase_ready c fuel _ _ _ _ hcmd)).2, Nat.min_eq_right hwb]
    rfl

/-- The strides contribute 8 data-register writes each. -/
theorem stride_data_length (buf : Nat → Nat) (write_block k : Nat) :
    (stride_data buf write_block k).length = 8 * k := by
  induction k with
  | zero => rfl
  | succ k ih =>
    simp only [stride_data, List.length_append, List.length_map, List.length_range, ih]
    omega

/-! ## Claims -/

/-- C1 (defect): the bounds test adds `(size_t)offset + len` modulo `2^32`.  On the S32K148
geometry the request `offset = 0x1000`, `len = 2^32 - 0x1000` ends beyond the flash region,
yet the sum wraps to `0` and the test passes: `s32k_flash_read` returns `0` after `len` flash
reads, and `s32k_flash_write` and `s32k_flash_erase` go on to the controller, their first
access being a read of the status register. -/
theorem bounds_test_wraps_around :
    ((S32K148_cfg.flash_size : Int) < 0x1000 + ((2 ^ 32 - 0x1000 : Nat) : Int)) ∧
    (∀ (σ : Type) (c : Controller σ) (buf : Nat → Nat) (s : σ),
      (∃ out, (s32k_flash_read c S32K148_cfg 0x1000 buf (2 ^ 32 - 0x1000) s).1
        = Except.ok (0, out)) ∧
      (s32k_flash_read c S32K148_cfg 0x1000 buf (2 ^ 32 - 0x1000) s).2.2
        = (List.range (2 ^ 32 - 0x1000)).map (fun i => Access.flashRead (0x1000 + i))) ∧
    (∀ (σ : Type) (c : Controller σ) (fuel : Nat) (buf : Nat → Nat) (s : σ),
      ∃ t, (s32k_flash_write c S32K148_cfg (fuel + 1) 0x1000 buf (2 ^ 32 - 0x1000) s).2.2
        = Access.regRead FTFC_FSTAT_OFF ((c.read8 s FTFC_FSTAT_OFF).1 % 256) :: t) ∧
    (∀ (σ : Type) (c : Controller σ) (fuel : Nat) (s : σ),
      ∃ t, (s32k_flash_erase c S32K148_cfg (fuel + 1) 0x1000 (2 ^ 32 - 0x1000) s).2.2
        = Access.regRead FTFC_FSTAT_OFF ((c.read8 s FTFC_FSTAT_OFF).1 % 256) :: t) := by
  refine ⟨by decide, ?_, ?_, ?_⟩
  · intro σ c buf s
    unfold s32k_flash_read
    rw [if_neg (by decide)]
    have hm : (memcpy_from_flash c buf
        ((S32K148_cfg.flash_base + to_size_t 0x1000) % SIZE_MOD) (2 ^ 32 - 0x1000) s).1
        = Except.ok (fun i => if i < 2 ^ 32 - 0x1000
            then c.flash s ((S32K148_cfg.flash_base + to_size_t 0x1000) % SIZE_MOD + i) % 256
            else buf i) := rfl
    rw [bind_of_ok _ _ _ _ hm]
    refine ⟨⟨_, rfl⟩, ?_⟩
    have ha : (S32K148_cfg.flash_base + to_size_t 0x1000) % SIZE_MOD = 0x1000 := by decide
    rw [ha]
    simp only [prepend, pure_apply, List.append_nil, memcpy_from_flash]
  · intro σ c fuel buf s
    unfold s32k_flash_write
    rw [if_neg (by decide), if_neg (by decide), if_neg (by decide), write_loop_succ,
      if_pos (by decide)]
    obtain ⟨t, ht⟩ := bind_trace_starts (ftfc_cmd_program_phrase c (fuel + 1)
      ((S32K148_cfg.flash_base + to_size_t 0x1000) % SIZE_MOD) (fun i => buf (0 + i))
      S32K148_cfg.write_block) _ s
    obtain ⟨u, hu⟩ := ftfc_cmd_program_phrase_first_access c (fuel + 1)
      ((S32K148_cfg.flash_base + to_size_t 0x1000) % SIZE_MOD) (fun i => buf (0 + i))
      S32K148_cfg.write_block s
    rw [ht, hu]
    exact ⟨u ++ t, rfl⟩
  · intro σ c fuel s
    unfold s32k_flash_erase
    rw [if_neg (by decide), if_neg (by decide), if_neg (by decide), erase_loop_succ,
      if_pos (by decide)]
    obtain ⟨t, ht⟩ := bind_trace_starts (ftfc_cmd_erase_sector c (fuel + 1)
      ((S32K148_cfg.flash_base + to_size_t 0x1000) % SIZE_MOD)) _ s
    obtain ⟨u, hu⟩ := ftfc_cmd_erase_sector_first_access c (fuel + 1)
      ((S32K148_cfg.flash_base + to_size_t 0x1000) % SIZE_MOD) s
    rw [ht, hu]
    exact ⟨u ++ t, rfl⟩

/-- C2: on a device with `write_block > 0`, a write request whose offset or length is not a
multiple of `write_block` returns `-EINVAL`, performs no hardware access at all and leaves the
controller and the flash array as they were.  A negative offset is rejected whatever the
reading of `offset % write_block` for it. -/
theorem s32k_flash_write_misaligned {σ : Type} (c : Controller σ) (cfg : s32k_flash_config)
    (fuel : Nat) (offset : Int) (buf : Nat → Nat) (len : Nat) (s : σ)
    (hwb : 0 < cfg.write_block) (hoff : off_t_range offset)
    (hmis : offset < 0 ∨ offset % (cfg.write_block : Int) ≠ 0 ∨ len % cfg.write_block ≠ 0) :
    s32k_flash_write c cfg fuel offset buf len s = (Except.ok (- EINVAL), s, []) := by
  unfold s32k_flash_write
  split
  · rfl
  · rename_i hb
    rw [if_neg (by omega)]
    have h0 : 0 ≤ offset := by
      by_contra h
      exact hb (Or.inl (by omega))
    have hm : to_size_t offset % cfg.write_block ≠ 0 ∨ len % cfg.write_block ≠ 0 := by
      rcases hmis with h | h | h
      · omega
      · left
        intro hz
        apply h
        rw [← to_size_t_emod h0 hoff.2, hz]
        rfl
      · exact Or.inr h
    rw [if_pos hm]
    rfl

/-- Witness of C2: `write_block = 8`, `write(4, data, 8)`. -/
theorem s32k_flash_write_misaligned_witness :
    s32k_flash_write (sim 0x1000) S32K148_cfg 4 4 (fun i => i + 1) 8 (sim_init [])
      = (Except.ok (- EINVAL), sim_init [], []) :=
  s32k_flash_write_misaligned (sim 0x1000) S32K148_cfg 4 4 (fun i => i + 1) 8 (sim_init [])
    (by decide) (by unfold off_t_range; decide) (Or.inr (Or.inl (by decide)))

/-- C3: on a device with `erase_block > 0`, an erase request whose offset or size is not a
multiple of `erase_block` returns `-EINVAL` and performs no hardware access at all.  A
negative offset is rejected whatever the reading of `offset % erase_block` for it. -/
theorem s32k_flash_erase_misaligned {σ : Type} (c : Controller σ) (cfg : s32k_flash_config)
    (fuel : Nat) (offset : Int) (size : Nat) (s : σ)
    (heb : 0 < cfg.erase_block) (hoff : off_t_range offset)
    (hmis : offset < 0 ∨ offset % (cfg.erase_block : Int) ≠ 0 ∨ size % cfg.erase_block ≠ 0) :
    s32k_flash_erase c cfg fuel offset size s = (Except.ok (- EINVAL), s, []) := by
  unfold s32k_flash_erase
  split
  · rfl
  · rename_i hb
    rw [if_neg (by omega)]
    have h0 : 0 ≤ offset := by
      by_contra h
      exact hb (Or.inl (by omega))
    have hm : to_size_t offset % cfg.erase_block ≠ 0 ∨ size % cfg.erase_block ≠ 0 := by
      rcases hmis with h | h | h
      · omega
      · left
        intro hz
        apply h
        rw [← to_size_t_emod h0 hoff.2, hz]
        rfl
      · exact Or.inr h
    rw [if_pos hm]
    rfl

/-- Witness of C3: `erase_block = 0x1000`, `erase(0x1000, 0x800)`. -/
theorem s32k_flash_erase_misaligned_witness :
    s32k_flash_erase (sim 0x1000) S32K148_cfg 4 0x1000 0x800 (sim_init [])
      = (Except.ok (- EINVAL), sim_init [], []) :=
  s32k_flash_erase_misaligned (sim 0x1000) S32K148_cfg 4 0x1000 0x800 (sim_init [])
    (by decide) (by unfold off_t_range; decide) (Or.inr (Or.inr (by decide)))

/-- C4: an in-bounds, `write_block`-aligned write request on which every program-phrase
command returns `0` returns `0`, and what it does to the hardware is exactly the
`len / write_block` program-phrase commands of its strides run one after another in ascending
order.  On the bus, the opcode register is written `len / write_block` times, each time with
the program-phrase opcode.  The command of stride `k` is the call of
`ftfc_cmd_program_phrase` with address `flash_base + offset + k * write_block`, data pointer
`buf + k * write_block` and phrase size `write_block`; the address is a `uint32_t`, equal to
that sum for every flash region that lies in the 32-bit address space. -/
theorem s32k_flash_write_strides {σ : Type} (c : Controller σ) (cfg : s32k_flash_config)
    (fuel : Nat) (offset : Int) (buf : Nat → Nat) (len : Nat) (s : σ)
    (hsz : cfg.flash_size < SIZE_MOD)
    (hwb : 0 < cfg.write_block) (h0 : 0 ≤ offset)
    (hin : offset + (len : Int) ≤ (cfg.flash_size : Int))
    (hao : offset % (cfg.write_block : Int) = 0) (hal : len % cfg.write_block = 0)
    (hfuel : len / cfg.write_block ≤ fuel)
    (hok : ∀ k, k < len / cfg.write_block → (write_stride_cmd c cfg fuel offset buf k
      (stride_state (write_stride_cmd c cfg fuel offset buf) s k)).1 = Except.ok 0) :
    s32k_flash_write c cfg fuel offset buf len s =
      (Except.ok 0,
        stride_state (write_stride_cmd c cfg fuel offset buf) s (len / cfg.write_block),
        stride_trace (write_stride_cmd c cfg fuel offset buf) s (len / cfg.write_block)) ∧
    opcode_writes (s32k_flash_write c cfg fuel offset buf len s).2.2
      = List.replicate (len / cfg.write_block) CMD_PROGRAM_PHRASE ∧
    (cfg.flash_base + cfg.flash_size ≤ SIZE_MOD → ∀ k, k < len / cfg.write_block →
      write_stride_cmd c cfg fuel offset buf k =
        ftfc_cmd_program_phrase c fuel (cfg.flash_base + offset.toNat + k * cfg.write_block)
          (fun i => buf (k * cfg.write_block + i)) cfg.write_block) := by
  have hrun := s32k_flash_write_all_strides c cfg fuel offset buf len s hsz hwb h0
    hin hao hal hfuel hok
  refine ⟨hrun, ?_, ?_⟩
  · rw [hrun]
    exact opcode_writes_stride_trace _ s _ _ (fun i hi =>
      opcode_writes_program_phrase c fuel _ _ _ _
        (ftfc_cmd_program_phrase_ready c fuel _ _ _ _ (hok i hi)))
  · intro hregion k hk
    have hnl : len / cfg.write_block * cfg.write_block = len :=
      Nat.div_mul_cancel (Nat.dvd_of_mod_eq_zero hal)
    have hkl : (k + 1) * cfg.write_block ≤ len := by
      calc (k + 1) * cfg.write_block ≤ len / cfg.write_block * cfg.write_block :=
            Nat.mul_le_mul_right _ hk
        _ = len := hnl
    rw [Nat.succ_mul] at hkl
    unfold write_stride_cmd
    rw [Nat.mod_eq_of_lt (by omega)]

/-- Witness of C4: two strides on the simulated S32K148, `write(0, [1..16], 16)`; the
accesses are listed in full, and the second command is the one for address `8` with the data
at `buf + 8`. -/
theorem s32k_flash_write_strides_witness :
    (s32k_flash_write (sim 0x1000) S32K148_cfg 2 0 (fun i => i + 1) 16 (sim_init [])).1
      = Except.ok 0 ∧
    (s32k_flash_write (sim 0x1000) S32K148_cfg 2 0 (fun i => i + 1) 16 (sim_init [])).2.2
      = [Access.regRead 0 0x80, Access.regRead 0 0x80, Access.regRead 0 0x80,
         Access.regWrite 7 7, Access.regWrite 6 0, Access.regWrite 5 0, Access.regWrite 4 0,
         Access.regWrite 0x0B 1, Access.regWrite 0x0C 2, Access.regWrite 0x0D 3,
         Access.regWrite 0x0E 4, Access.regWrite 0x0F 5, Access.regWrite 0x10 6,
         Access.regWrite 0x11 7, Access.regWrite 0x12 8,
         Access.regWrite 0 0x80, Access.regRead 0 0x80, Access.regRead 0 0x80,
         Access.regRead 0x2E 0,
         Access.regRead 0 0x80, Access.regRead 0 0x80, Access.regRead 0 0x80,
         Access.regWrite 7 7, Access.regWrite 6 0, Access.regWrite 5 0, Access.regWrite 4 8,
         Access.regWrite 0x0B 9, Access.regWrite 0x0C 10, Access.regWrite 0x0D 11,
         Access.regWrite 0x0E 12, Access.regWrite 0x0F 13, Access.regWrite 0x10 14,
         Access.regWrite 0x11 15, Access.regWrite 0x12 16,
         Access.regWrite 0 0x80, Access.regRead 0 0x80, Access.regRead 0 0x80,
         Access.regRead 0x2E 0] ∧
    opcode_writes
        (s32k_flash_write (sim 0x1000) S32K148_cfg 2 0 (fun i => i + 1) 16 (sim_init [])).2.2
      = [0x07, 0x07] ∧
    write_stride_cmd (sim 0x1000) S32K148_cfg 2 0 (fun i => i + 1) 1 =
      ftfc_cmd_program_phrase (sim 0x1000) 2 (0 + (0 : Int).toNat + 1 * 8)
        (fun i => (fun i => i + 1) (1 * 8 + i)) 8 := by
  have h := s32k_flash_write_strides (sim 0x1000) S32K148_cfg 2 0 (fun i => i + 1) 16
    (sim_init []) (by decide) (by decide) (by decide) (by decide) (by decide) (by decide)
    (by decide)
    (fun k hk => by
      have hk2 : k < 2 := hk
      have h : k = 0 ∨ k = 1 := by omega
      rcases h with h | h <;> subst h <;> rfl)
  refine ⟨?_, ?_, h.2.1, h.2.2 (by decide) 1 (by decide)⟩
  · rw [h.1]
  · rw [h.1]
    rfl

/-- C5: an in-bounds, `erase_block`-aligned erase request on which every erase-sector command
returns `0` returns `0`, and what it does to the hardware is exactly the `size / erase_block`
erase-sector commands of its strides run one after another in ascending order.  On the bus,
the opcode register is written `size / erase_block` times, each time with the erase-sector
opcode.  The command of stride `k` is the call of `ftfc_cmd_erase_sector` with address
`flash_base + offset + k * erase_block`; the address is a `uint32_t`, equal to that sum for
every flash region that lies in the 32-bit address space. -/
theorem s32k_flash_erase_strides {σ : Type} (c : Controller σ) (cfg : s32k_flash_config)
    (fuel : Nat) (offset : Int) (size : Nat) (s : σ)
    (hsz : cfg.flash_size < SIZE_MOD)
    (heb : 0 < cfg.erase_block) (h0 : 0 ≤ offset)
    (hin : offset + (size : Int) ≤ (cfg.flash_size : Int))
    (hao : offset % (cfg.erase_block : Int) = 0) (hal : size % cfg.erase_block = 0)
    (hfuel : size / cfg.erase_block ≤ fuel)
    (hok : ∀ k, k < size / cfg.erase_block → (erase_stride_cmd c cfg fuel offset k
      (stride_state (erase_stride_cmd c cfg fuel offset) s k)).1 = Except.ok 0) :
    s32k_flash_erase c cfg fuel offset size s =
      (Except.ok 0,
        stride_state (erase_stride_cmd c cfg fuel offset) s (size / cfg.erase_block),
        stride_trace (erase_stride_cmd c cfg fuel offset) s (size / cfg.erase_block)) ∧
    opcode_writes (s32k_flash_erase c cfg fuel offset size s).2.2
      = List.replicate (size / cfg.erase_block) CMD_ERASE_SECTOR ∧
    (cfg.flash_base + cfg.flash_size ≤ SIZE_MOD → ∀ k, k < size / cfg.erase_block →
      erase_stride_cmd c cfg fuel offset k =
        ftfc_cmd_erase_sector c fuel (cfg.flash_base + offset.toNat + k * cfg.erase_block)) := by
  have hrun := s32k_flash_erase_all_strides c cfg fuel offset size s hsz heb h0
    hin hao hal hfuel hok
  refine ⟨hrun, ?_, ?_⟩
  · rw [hrun]
    exact opcode_writes_stride_trace _ s _ _ (fun i hi =>
      opcode_writes_erase_sector c fuel _ _
        (ftfc_cmd_erase_sector_ready c fuel _ _ (hok i hi)))
  · intro hregion k hk
    have hnl : size / cfg.erase_block * cfg.erase_block = size :=
      Nat.div_mul_cancel (Nat.dvd_of_mod_eq_zero hal)
    have hkl : (k + 1) * cfg.erase_block ≤ size := by
      calc (k + 1) * cfg.erase_block ≤ size / cfg.erase_block * cfg.erase_block :=
            Nat.mul_le_mul_right _ hk
        _ = size := hnl
    rw [Nat.succ_mul] at hkl
    unfold erase_stride_cmd
    rw [Nat.mod_eq_of_lt (by omega)]

/-- Witness of C5: `erase(0x2000, 0x3000)` on the simulated S32K148 with a flash array
programmed with zeros: three commands, at `0x2000`, `0x3000` and `0x4000`; the three sectors
read `0xFF` afterwards and their neighbours are untouched. -/
theorem s32k_flash_erase_strides_witness :
    (s32k_flash_erase (sim 0x1000) S32K148_cfg 3 0x2000 0x3000 (sim_written [])).1
      = Except.ok 0 ∧
    (s32k_flash_erase (sim 0x1000) S32K148_cfg 3 0x2000 0x3000 (sim_written [])).2.2
      = [Access.regRead 0 0x80, Access.regRead 0 0x80, Access.regRead 0 0x80,
         Access.regWrite 7 9, Access.regWrite 6 0, Access.regWrite 5 0x20, Access.regWrite 4 0,
         Access.regWrite 0 0x80, Access.regRead 0 0x80, Access.regRead 0 0x80,
         Access.regRead 0x2E 0,
         Access.regRead 0 0x80, Access.regRead 0 0x80, Access.regRead 0 0x80,
         Access.regWrite 7 9, Access.regWrite 6 0, Access.regWrite 5 0x30, Access.regWrite 4 0,
         Access.regWrite 0 0x80, Access.regRead 0 0x80, Access.regRead 0 0x80,
         Access.regRead 0x2E 0,
         Access.regRead 0 0x80, Access.regRead 0 0x80, Access.regRead 0 0x80,
         Access.regWrite 7 9, Access.regWrite 6 0, Access.regWrite 5 0x40, Access.regWrite 4 0,
         Access.regWrite 0 0x80, Access.regRead 0 0x80, Access.regRead 0 0x80,
         Access.regRead 0x2E 0] ∧
    [0x1FFF, 0x2000, 0x4FFF, 0x5000].map
        (s32k_flash_erase (sim 0x1000) S32K148_cfg 3 0x2000 0x3000 (sim_written [])).2.1.mem
      = [0x00, 0xFF, 0xFF, 0x00] ∧
    erase_stride_cmd (sim 0x1000) S32K148_cfg 3 0x2000 2 =
      ftfc_cmd_erase_sector (sim 0x1000) 3 (0 + (0x2000 : Int).toNat + 2 * 0x1000) := by
  have h := s32k_flash_erase_strides (sim 0x1000) S32K148_cfg 3 0x2000 0x3000 (sim_written [])
    (by decide) (by decide) (by decide) (by decide) (by decide) (by decide) (by decide)
    (fun k hk => by
      have hk3 : k < 3 := hk
      have h : k = 0 ∨ k = 1 ∨ k = 2 := by omega
      rcases h with h | h | h <;> subst h <;> rfl)
  refine ⟨?_, ?_, ?_, h.2.2 (by decide) 2 (by decide)⟩
  · rw [h.1]
  · rw [h.1]
    rfl
  · rw [h.1]
    rfl

/-- C6: in a valid multi-block request whose stride `k` is the first whose command fails, the
operation returns that command's error, which is `-EIO`; the controller is left as command `k`
left it and the accesses performed are exactly those of the commands of strides `0..k`, each
of `0..k-1` having returned `0`: nothing is issued for a later stride.  On the bus, the opcode
register is written once for each of the strides `0..k-1` and at most once more, for stride
`k`.  First conjunct: write; second conjunct: erase. -/
theorem first_failing_stride_aborts {σ : Type} (c : Controller σ) (cfg : s32k_flash_config)
    (fuel : Nat) (offset : Int) (buf : Nat → Nat) (len : Nat) (s : σ) (k : Nat) (rc : Int)
    (hsz : cfg.flash_size < SIZE_MOD)
    (h0 : 0 ≤ offset) (hin : offset + (len : Int) ≤ (cfg.flash_size : Int)) (hrc : rc ≠ 0) :
    (0 < cfg.write_block → offset % (cfg.write_block : Int) = 0 → len % cfg.write_block = 0 →
      len / cfg.write_block ≤ fuel → k < len / cfg.write_block →
      (∀ i, i < k → (write_stride_cmd c cfg fuel offset buf i
        (stride_state (write_stride_cmd c cfg fuel offset buf) s i)).1 = Except.ok 0) →
      (write_stride_cmd c cfg fuel offset buf k
        (stride_state (write_stride_cmd c cfg fuel offset buf) s k)).1 = Except.ok rc →
      rc = - EIO ∧
      s32k_flash_write c cfg fuel offset buf len s =
        (Except.ok (- EIO),
          stride_state (write_stride_cmd c cfg fuel offset buf) s (k + 1),
          stride_trace (write_stride_cmd c cfg fuel offset buf) s (k + 1)) ∧
      ∃ l, opcode_writes (s32k_flash_write c cfg fuel offset buf len s).2.2
          = List.replicate k CMD_PROGRAM_PHRASE ++ l ∧ l.length ≤ 1) ∧
    (0 < cfg.erase_block → offset % (cfg.erase_block : Int) = 0 → len % cfg.erase_block = 0 →
      len / cfg.erase_block ≤ fuel → k < len / cfg.erase_block →
      (∀ i, i < k → (erase_stride_cmd c cfg fuel offset i
        (stride_state (erase_stride_cmd c cfg fuel offset) s i)).1 = Except.ok 0) →
      (erase_stride_cmd c cfg fuel offset k
        (stride_state (erase_stride_cmd c cfg fuel offset) s k)).1 = Except.ok rc →
      rc = - EIO ∧
      s32k_flash_erase c cfg fuel offset len s =
        (Except.ok (- EIO),
          stride_state (erase_stride_cmd c cfg fuel offset) s (k + 1),
          stride_trace (erase_stride_cmd c cfg fuel offset) s (k + 1)) ∧
      ∃ l, opcode_writes (s32k_flash_erase c cfg fuel offset len s).2.2
          = List.replicate k CMD_ERASE_SECTOR ++ l ∧ l.length ≤ 1) := by
  constructor
  · intro hwb hao hal hfuel hk hok hfail
    have hio : rc = - EIO := by
      rcases ftfc_cmd_program_phrase_rc c fuel _ _ _ _ rc hfail with h | h
      · exact absurd h hrc
      · exact h
    have hnl : len / cfg.write_block * cfg.write_block = len :=
      Nat.div_mul_cancel (Nat.dvd_of_mod_eq_zero hal)
    have hkl : (k + 1) * cfg.write_block ≤ len := by
      calc (k + 1) * cfg.write_block ≤ len / cfg.write_block * cfg.write_block :=
            Nat.mul_le_mul_right _ hk
        _ = len := hnl
    rw [Nat.succ_mul] at hkl
    have hrun : s32k_flash_write c cfg fuel offset buf len s =
        (Except.ok (- EIO),
          stride_state (write_stride_cmd c cfg fuel offset buf) s (k + 1),
          stride_trace (write_stride_cmd c cfg fuel offset buf) s (k + 1)) := by
      rw [s32k_flash_write_upto c cfg fuel offset buf len s hsz hwb h0 hin hao hal
        k (by omega) (by omega) hok]
      obtain ⟨n', hn'⟩ : ∃ n', fuel - k = n' + 1 := ⟨fuel - k - 1, by omega⟩
      rw [hn', write_loop_succ, if_pos (by omega)]
      have hfail' : (ftfc_cmd_program_phrase c fuel
          ((cfg.flash_base + offset.toNat + k * cfg.write_block) % SIZE_MOD)
          (fun i => buf (k * cfg.write_block + i)) cfg.write_block
          (stride_state (write_stride_cmd c cfg fuel offset buf) s k)).1 = Except.ok rc := hfail
      rw [bind_of_ok _ _ _ rc hfail', if_pos hrc, pure_apply, hio]
      simp only [prepend, List.append_nil]
      rfl
    refine ⟨hio, hrun, ?_⟩
    rw [hrun]
    refine ⟨opcode_writes (write_stride_cmd c cfg fuel offset buf k
      (stride_state (write_stride_cmd c cfg fuel offset buf) s k)).2.2, ?_,
      opcode_writes_program_phrase_le c fuel _ _ _ _⟩
    show opcode_writes (stride_trace (write_stride_cmd c cfg fuel offset buf) s k ++ _) = _
    rw [opcode_writes_append, opcode_writes_stride_trace
      (write_stride_cmd c cfg fuel offset buf) s CMD_PROGRAM_PHRASE k (fun i hi =>
      opcode_writes_program_phrase c fuel _ _ _ _
        (ftfc_cmd_program_phrase_ready c fuel _ _ _ _ (hok i hi)))]
  · intro heb hao hal hfuel hk hok hfail
    have hio : rc = - EIO := by
      rcases ftfc_cmd_erase_sector_rc c fuel _ _ rc hfail with h | h
      · exact absurd h hrc
      · exact h
    have hnl : len / cfg.erase_block * cfg.erase_block = len :=
      Nat.div_mul_cancel (Nat.dvd_of_mod_eq_zero hal)
    have hkl : (k + 1) * cfg.erase_block ≤ len := by
      calc (k + 1) * cfg.erase_block ≤ len / cfg.erase_block * cfg.erase_block :=
            Nat.mul_le_mul_right _ hk
        _ = len := hnl
    rw [Nat.succ_mul] at hkl
    have hrun : s32k_flash_erase c cfg fuel offset len s =
        (Except.ok (- EIO),
          stride_state (erase_stride_cmd c cfg fuel offset) s (k + 1),
          stride_trace (erase_stride_cmd c cfg fuel offset) s (k + 1)) := by
      rw [s32k_flash_erase_upto c cfg fuel offset len s hsz heb h0 hin hao hal
        k (by omega) (by omega) hok]
      obtain ⟨n', hn'⟩ : ∃ n', fuel - k = n' + 1 := ⟨fuel - k - 1, by omega⟩
      rw [hn', erase_loop_succ, if_pos (by omega)]
      have hfail' : (ftfc_cmd_erase_sector c fuel
          ((cfg.flash_base + offset.toNat + k * cfg.erase_block) % SIZE_MOD)
          (stride_state (erase_stride_cmd c cfg fuel offset) s k)).1 = Except.ok rc := hfail
      rw [bind_of_ok _ _ _ rc hfail', if_pos hrc, pure_apply, hio]
      simp only [prepend, List.append_nil]
      rfl
    refine ⟨hio, hrun, ?_⟩
    rw [hrun]
    refine ⟨opcode_writes (erase_stride_cmd c cfg fuel offset k
      (stride_state (erase_stride_cmd c cfg fuel offset) s k)).2.2, ?_,
      opcode_writes_erase_sector_le c fuel _ _⟩
    show opcode_writes (stride_trace (erase_stride_cmd c cfg fuel offset) s k ++ _) = _
    rw [opcode_writes_append, opcode_writes_stride_trace
      (erase_stride_cmd c cfg fuel offset) s CMD_ERASE_SECTOR k (fun i hi =>
      opcode_writes_erase_sector c fuel _ _
        (ftfc_cmd_erase_sector_ready c fuel _ _ (hok i hi)))]

/-- Witness of C6: three erase strides on the simulated S32K148 in front of a flash array
programmed with zeros, the controller reporting a protection violation on the second; and
three write strides with the same report.  The erase returns `-EIO` after the accesses
listed: the first sector's command runs to its end, the second is launched and fails, its
error flag is cleared, and nothing follows.  Afterwards the first sector reads `0xFF`, the
second and third are untouched, and no error flag is set. -/
theorem first_failing_stride_aborts_witness :
    (s32k_flash_write (sim 0x1000) S32K148_cfg 3 0 (fun i => i + 1) 24
        (sim_init [(0, 0), (0x10, 0)])).1 = Except.ok (- EIO) ∧
    (s32k_flash_erase (sim 0x1000) S32K148_cfg 3 0 0x3000 (sim_written [(0, 0), (0x10, 0)])).1
      = Except.ok (- EIO) ∧
    (s32k_flash_erase (sim 0x1000) S32K148_cfg 3 0 0x3000
        (sim_written [(0, 0), (0x10, 0)])).2.2
      = [Access.regRead 0 0x80, Access.regRead 0 0x80, Access.regRead 0 0x80,
         Access.regWrite 7 9, Access.regWrite 6 0, Access.regWrite 5 0, Access.regWrite 4 0,
         Access.regWrite 0 0x80, Access.regRead 0 0x80, Access.regRead 0 0x80,
         Access.regRead 0x2E 0,
         Access.regRead 0 0x80, Access.regRead 0 0x80, Access.regRead 0 0x80,
         Access.regWrite 7 9, Access.regWrite 6 0, Access.regWrite 5 0x10,
         Access.regWrite 4 0,
         Access.regWrite 0 0x80, Access.regRead 0 0x90, Access.regRead 0 0x90,
         Access.regWrite 0 0x70] ∧
    [0x0000, 0x0FFF, 0x1000, 0x1FFF, 0x2000, 0x2FFF].map
        (s32k_flash_erase (sim 0x1000) S32K148_cfg 3 0 0x3000
          (sim_written [(0, 0), (0x10, 0)])).2.1.mem
      = [0xFF, 0xFF, 0x00, 0x00, 0x00, 0x00] ∧
    (s32k_flash_erase (sim 0x1000) S32K148_cfg 3 0 0x3000
        (sim_written [(0, 0), (0x10, 0)])).2.1.fstat &&& FSTAT_ERRORS = 0 ∧
    (s32k_flash_erase (sim 0x1000) S32K148_cfg 3 0 0x3000
        (sim_written [(0, 0), (0x10, 0)])).2.1.ferstat = 0 := by
  have h := first_failing_stride_aborts (sim 0x1000) S32K148_cfg 3 0 (fun i => i + 1) 0x3000
    (sim_written [(0, 0), (0x10, 0)]) 1 (- EIO) (by decide) (by decide) (by decide)
    (by decide)
  have hw := first_failing_stride_aborts (sim 0x1000) S32K148_cfg 3 0 (fun i => i + 1) 24
    (sim_init [(0, 0), (0x10, 0)]) 1 (- EIO) (by decide) (by decide) (by decide) (by decide)
  have he := h.2 (by decide) (by decide) (by decide) (by decide) (by decide)
    (fun i hi => by
      have h : i = 0 := by omega
      subst h
      rfl) rfl
  have hw2 := hw.1 (by decide) (by decide) (by decide) (by decide) (by decide)
    (fun i hi => by
      have h : i = 0 := by omega
      subst h
      rfl) rfl
  refine ⟨?_, ?_, ?_, ?_, ?_, ?_⟩
  · rw [hw2.2.1]
  · rw [he.2.1]
  · rw [he.2.1]
    rfl
  · rw [he.2.1]
    rfl
  · rw [he.2.1]
    rfl
  · rw [he.2.1]
    rfl

/-- C7 (defect): when a launched command ends with an error bit in the status byte,
`ftfc_launch_and_wait` clears the status error bits and returns `-EIO` without looking at the
secondary error-status byte.  On the simulated controller, whose error flags are
write-1-to-clear, a command that raises access-error together with a bit of the secondary
byte makes the command functions and the API functions return `-EIO` with the three status
error bits clear but the secondary byte still `0x02`. -/
theorem secondary_error_left_set_on_status_error :
    ((ftfc_cmd_erase_sector (sim 0x1000) 1 0 (sim_init [(0x20, 0x02)])).1 = Except.ok (- EIO) ∧
      (ftfc_cmd_erase_sector (sim 0x1000) 1 0 (sim_init [(0x20, 0x02)])).2.1.fstat
        &&& FSTAT_ERRORS = 0 ∧
      (ftfc_cmd_erase_sector (sim 0x1000) 1 0 (sim_init [(0x20, 0x02)])).2.1.ferstat = 0x02) ∧
    ((ftfc_cmd_program_phrase (sim 0x1000) 1 0 (fun i => i + 1) 8
        (sim_init [(0x20, 0x02)])).1 = Except.ok (- EIO) ∧
      (ftfc_cmd_program_phrase (sim 0x1000) 1 0 (fun i => i + 1) 8
        (sim_init [(0x20, 0x02)])).2.1.ferstat = 0x02) ∧
    ((s32k_flash_erase (sim 0x1000) S32K148_cfg 1 0 0x1000 (sim_init [(0x20, 0x02)])).1
        = Except.ok (- EIO) ∧
      (s32k_flash_erase (sim 0x1000) S32K148_cfg 1 0 0x1000
        (sim_init [(0x20, 0x02)])).2.1.ferstat = 0x02) ∧
    ((s32k_flash_write (sim 0x1000) S32K148_cfg 1 0 (fun i => i + 1) 8
        (sim_init [(0x20, 0x02)])).1 = Except.ok (- EIO) ∧
      (s32k_flash_write (sim 0x1000) S32K148_cfg 1 0 (fun i => i + 1) 8
        (sim_init [(0x20, 0x02)])).2.1.ferstat = 0x02) := by
  refine ⟨⟨rfl, rfl, rfl⟩, ⟨rfl, rfl⟩, ⟨rfl, rfl⟩, ⟨rfl, rfl⟩⟩

/-- C8: when the ready check passes, an erase-sector or program-phrase command for `addr`
writes, right after the ready check and in this order, the opcode (`0x09`, `0x07`) to
register `0x07` and the bytes `(addr >> 16) & 0xFF`, `(addr >> 8) & 0xFF`, `addr & 0xFF` to
registers `0x06`, `0x05`, `0x04`.  Every other access of an erase-sector command goes to the
status register or the secondary error-status register, so it writes no data register; every
other access of a program-phrase command goes to those two or writes a data register
`0x0B..0x12`.  For `addr < 2^24` the three bytes reassemble to `addr`. -/
theorem command_register_encoding {σ : Type} (c : Controller σ) (fuel addr : Nat)
    (data : Nat → Nat) (phrase_size : Nat) (s : σ)
    (hready : (ftfc_clear_errors_and_ready c fuel s).1 = Except.ok 0) :
    (∃ t, (ftfc_cmd_erase_sector c fuel addr s).2.2 =
        (ftfc_clear_errors_and_ready c fuel s).2.2 ++
          Access.regWrite 0x07 CMD_ERASE_SECTOR ::
          Access.regWrite 0x06 ((addr >>> 16) &&& 0xFF) ::
          Access.regWrite 0x05 ((addr >>> 8) &&& 0xFF) ::
          Access.regWrite 0x04 (addr &&& 0xFF) :: t ∧
        ∀ a, a ∈ (ftfc_clear_errors_and_ready c fuel s).2.2 ++ t →
          a.reg = some FTFC_FSTAT_OFF ∨ a.reg = some FTFC_FERSTAT_OFF) ∧
    (∃ t, (ftfc_cmd_program_phrase c fuel addr data phrase_size s).2.2 =
        (ftfc_clear_errors_and_ready c fuel s).2.2 ++
          Access.regWrite 0x07 CMD_PROGRAM_PHRASE ::
          Access.regWrite 0x06 ((addr >>> 16) &&& 0xFF) ::
          Access.regWrite 0x05 ((addr >>> 8) &&& 0xFF) ::
          Access.regWrite 0x04 (addr &&& 0xFF) :: t ∧
        ∀ a, a ∈ (ftfc_clear_errors_and_ready c fuel s).2.2 ++ t →
          a.reg = some FTFC_FSTAT_OFF ∨ a.reg = some FTFC_FERSTAT_OFF ∨
          ∃ j v, j < 8 ∧ a = Access.regWrite (0x0B + j) v) ∧
    (addr < 2 ^ 24 →
      ((addr >>> 16) &&& 0xFF) * 65536 + ((addr >>> 8) &&& 0xFF) * 256 + (addr &&& 0xFF)
        = addr) := by
  have hrt : ∀ a, a ∈ (ftfc_clear_errors_and_ready c fuel s).2.2 →
      a.reg = some FTFC_FSTAT_OFF := by
    intro a ha
    rcases ftfc_clear_errors_and_ready_touches c fuel s a ha with ⟨v, h⟩ | h
    · rw [h]; rfl
    · rw [h]; rfl
  refine ⟨?_, ?_, addr_bytes_reassemble addr⟩
  · refine ⟨_, ftfc_cmd_erase_sector_trace c fuel addr s hready, ?_⟩
    intro a ha
    rcases List.mem_append.mp ha with h | h
    · exact Or.inl (hrt a h)
    · exact ftfc_launch_and_wait_touches _ _ _ _ h
  · obtain ⟨t, ht, htouch⟩ := ftfc_cmd_program_phrase_trace c fuel addr data phrase_size s hready
    refine ⟨t, ht, ?_⟩
    intro a ha
    rcases List.mem_append.mp ha with h | h
    · exact Or.inl (hrt a h)
    · rcases htouch a h with ⟨j, h1, _, h3⟩ | h | h
      · exact Or.inr (Or.inr ⟨j, _, h1, h3⟩)
      · exact Or.inl h
      · exact Or.inr (Or.inl h)

/-- Witness of C8: the erase and program commands for address `0x123456` on the ready
simulated controller. -/
theorem command_register_encoding_witness :
    (∃ t, (ftfc_cmd_erase_sector (sim 0x1000) 1 0x123456 (sim_init [])).2.2 =
        (ftfc_clear_errors_and_ready (sim 0x1000) 1 (sim_init [])).2.2 ++
          Access.regWrite 0x07 0x09 :: Access.regWrite 0x06 0x12 ::
          Access.regWrite 0x05 0x34 :: Access.regWrite 0x04 0x56 :: t) ∧
    (0x12 * 65536 + 0x34 * 256 + 0x56 = 0x123456) := by
  have h := command_register_encoding (sim 0x1000) 1 0x123456 (fun i => i + 1) 8 (sim_init [])
    rfl
  obtain ⟨⟨t, ht, _⟩, _, h3⟩ := h
  exact ⟨⟨t, ht⟩, h3 (by decide)⟩

/-- C9 as stated fails.  (1) With `write_block = 16`, a valid geometry, the write of 16
bytes at offset 0 returns `0` but only the first 8 bytes of the stride reach the simulated
controller: the read gives `0xFF`, not `data[8] = 9`, at index 8.  (2) With the flash region
at `2^24` the three address bytes name location 0, so the read of the region does not see
the bytes written. -/
theorem round_trip_fails_as_stated :
    ((0 < wide_phrase_cfg.flash_size ∧ 0 < wide_phrase_cfg.erase_block ∧
        0 < wide_phrase_cfg.write_block ∧
        wide_phrase_cfg.erase_block % wide_phrase_cfg.write_block = 0 ∧
        (0 : Int) + ((16 : Nat) : Int) ≤ (wide_phrase_cfg.flash_size : Int) ∧
        (0 : Int) % (wide_phrase_cfg.write_block : Int) = 0 ∧
        16 % wide_phrase_cfg.write_block = 0) ∧
      (s32k_flash_write (sim 0x1000) wide_phrase_cfg 1 0 (fun i => i + 1) 16 (sim_init [])).1
        = Except.ok 0 ∧
      ∃ out, (s32k_flash_read (sim 0x1000) wide_phrase_cfg 0 (fun _ => 0) 16
          (s32k_flash_write (sim 0x1000) wide_phrase_cfg 1 0 (fun i => i + 1) 16
            (sim_init [])).2.1).1 = Except.ok (0, out) ∧
        out 8 = 0xFF ∧ (fun i => i + 1) 8 = 9) ∧
    ((0 < high_base_cfg.flash_size ∧ 0 < high_base_cfg.erase_block ∧
        0 < high_base_cfg.write_block ∧
        high_base_cfg.erase_block % high_base_cfg.write_block = 0 ∧
        (0 : Int) + ((8 : Nat) : Int) ≤ (high_base_cfg.flash_size : Int) ∧
        (0 : Int) % (high_base_cfg.write_block : Int) = 0 ∧
        8 % high_base_cfg.write_block = 0) ∧
      (s32k_flash_write (sim 0x1000) high_base_cfg 1 0 (fun i => i + 1) 8 (sim_init [])).1
        = Except.ok 0 ∧
      ∃ out, (s32k_flash_read (sim 0x1000) high_base_cfg 0 (fun _ => 0) 8
          (s32k_flash_write (sim 0x1000) high_base_cfg 1 0 (fun i => i + 1) 8
            (sim_init [])).2.1).1 = Except.ok (0, out) ∧
        out 0 = 0xFF ∧ (fun i => i + 1) 0 = 1) := by
  refine ⟨⟨by decide, rfl, ⟨_, rfl, rfl, rfl⟩⟩, ⟨by decide, rfl, ⟨_, rfl, rfl, rfl⟩⟩⟩

/-- C9, amended: on the simulated controller, for a geometry with `0 < write_block ≤ 8`
whose flash region lies below `2^24`, and an in-bounds request `(offset, data, N)` with
`offset` and `N` multiples of `write_block`: if `s32k_flash_write(offset, data, N)` returns
`0`, then `s32k_flash_read(offset, buf, N)` on the state it leaves returns `0` with
`buf[i] = data[i]` (as bytes) for every `i < N`. -/
theorem write_then_read_round_trip (sector : Nat) (cfg : s32k_flash_config) (fuel : Nat)
    (offset : Int) (data buf : Nat → Nat) (N : Nat) (s : SimState)
    (hwb : 0 < cfg.write_block) (hwb8 : cfg.write_block ≤ 8)
    (hregion : cfg.flash_base + cfg.flash_size ≤ 2 ^ 24)
    (h0 : 0 ≤ offset) (hin : offset + (N : Int) ≤ (cfg.flash_size : Int))
    (hao : offset % (cfg.write_block : Int) = 0) (hal : N % cfg.write_block = 0)
    (hw : (s32k_flash_write (sim sector) cfg fuel offset data N s).1 = Except.ok 0) :
    ∃ out, (s32k_flash_read (sim sector) cfg offset buf N
        (s32k_flash_write (sim sector) cfg fuel offset data N s).2.1).1 = Except.ok (0, out) ∧
      ∀ i, i < N → out i = data i % 256 := by
  have hsz : cfg.flash_size < SIZE_MOD := by simp only [SIZE_MOD]; omega
  have hreg : cfg.flash_base + cfg.flash_size ≤ SIZE_MOD := by simp only [SIZE_MOD]; omega
  obtain ⟨hfuel, hok⟩ := s32k_flash_write_ok_strides (sim sector) cfg fuel offset data N s
    hsz hwb h0 hin hao hal hw (N / cfg.write_block) (Nat.le_refl _)
  have hnl : N / cfg.write_block * cfg.write_block = N :=
    Nat.div_mul_cancel (Nat.dvd_of_mod_eq_zero hal)
  have hmem := sim_write_strides_mem sector cfg fuel offset data s N hwb8 (by omega)
    (N / cfg.write_block) (by omega) hok
  rw [hnl] at hmem
  rw [s32k_flash_write_all_strides (sim sector) cfg fuel offset data N s hsz hwb h0 hin
    hao hal hfuel hok]
  obtain ⟨hts, hb⟩ := bounds_test_in_bounds cfg.flash_size offset N hsz h0 hin
  unfold s32k_flash_read
  rw [if_neg hb, hts]
  refine ⟨_, rfl, ?_⟩
  intro i hi
  show (if i < N then (sim sector).flash _ ((cfg.flash_base + offset.toNat) % SIZE_MOD + i) % 256
    else buf i) = data i % 256
  rw [if_pos hi, Nat.mod_eq_of_lt
    (show cfg.flash_base + offset.toNat < SIZE_MOD by simp only [SIZE_MOD]; omega)]
  show (stride_state (write_stride_cmd (sim sector) cfg fuel offset data) s
    (N / cfg.write_block)).mem (cfg.flash_base + offset.toNat + i) % 256 = data i % 256
  rw [hmem i hi, Nat.mod_mod]

/-- Witness of C9: `write_block = 8`, `write(0, [1,2,3,4,5,6,7,8], 8)` then `read(0, buf, 8)`
gives `[1..8]`. -/
theorem write_then_read_round_trip_witness :
    ∃ out, (s32k_flash_read (sim 0x1000) S32K148_cfg 0 (fun _ => 0) 8
        (s32k_flash_write (sim 0x1000) S32K148_cfg 1 0 (fun i => i + 1) 8
          (sim_init [])).2.1).1 = Except.ok (0, out) ∧
      (List.range 8).map out = [1, 2, 3, 4, 5, 6, 7, 8] := by
  obtain ⟨out, h1, h2⟩ := write_then_read_round_trip 0x1000 S32K148_cfg 1 0 (fun i => i + 1)
    (fun _ => 0) 8 (sim_init []) (by decide) (by decide) (by decide) (by decide) (by decide)
    (by decide) (by decide) (by rfl)
  refine ⟨out, h1, ?_⟩
  simp only [List.range, List.range.loop, List.map]
  rw [h2 0 (by decide), h2 1 (by decide), h2 2 (by decide), h2 3 (by decide),
    h2 4 (by decide), h2 5 (by decide), h2 6 (by decide), h2 7 (by decide)]

/-- C10 (defect, the one of C1): on the S32K148 geometry the request `offset = 8`,
`len = 2^32 - 8` is not in bounds, yet `s32k_flash_read` returns `0` and overwrites the
buffer with flash contents; on an erased simulated flash a zeroed buffer comes back changed. -/
theorem s32k_flash_read_wraps_and_overwrites :
    ¬ ((8 : Int) + ((2 ^ 32 - 8 : Nat) : Int) ≤ (S32K148_cfg.flash_size : Int)) ∧
    (∀ (σ : Type) (c : Controller σ) (buf : Nat → Nat) (s : σ),
      ∃ out, (s32k_flash_read c S32K148_cfg 8 buf (2 ^ 32 - 8) s).1 = Except.ok (0, out) ∧
        ∀ i, i < 2 ^ 32 - 8 → out i = c.flash s (8 + i) % 256) ∧
    (∃ out, (s32k_flash_read (sim 0x1000) S32K148_cfg 8 (fun _ => 0) (2 ^ 32 - 8)
        (sim_init [])).1 = Except.ok (0, out) ∧ out 0 ≠ (fun _ => 0) 0) := by
  have hm : ∀ (σ : Type) (c : Controller σ) (buf : Nat → Nat) (s : σ),
      (s32k_flash_read c S32K148_cfg 8 buf (2 ^ 32 - 8) s).1
        = Except.ok (0, fun i => if i < 2 ^ 32 - 8 then c.flash s (8 + i) % 256 else buf i) := by
    intro σ c buf s
    unfold s32k_flash_read
    rw [if_neg (by decide)]
    have ha : (S32K148_cfg.flash_base + to_size_t 8) % SIZE_MOD = 8 := by decide
    rw [ha]
    have h1 : (memcpy_from_flash c buf 8 (2 ^ 32 - 8) s).1
        = Except.ok (fun i => if i < 2 ^ 32 - 8 then c.flash s (8 + i) % 256 else buf i) := rfl
    rw [bind_of_ok _ _ _ _ h1]
    rfl
  refine ⟨by decide, ?_, ?_⟩
  · intro σ c buf s
    refine ⟨_, hm σ c buf s, ?_⟩
    intro i hi
    simp only [if_pos hi]
  · refine ⟨_, hm _ _ _ _, ?_⟩
    decide

/-- C11 as stated fails: for the geometry with `flash_size = 512 * 1024` and
`erase_block = 0x800` the page-layout query reports 384 pages of 4096 bytes, not
`flash_size / erase_block = 256` pages of 2048 bytes. -/
theorem page_layout_ignores_configuration :
    0 < small_sector_cfg.erase_block ∧
    s32k_page_layout small_sector_cfg = ([{ pages_count := 384, pages_size := 4096 }], 1) ∧
    small_sector_cfg.flash_size / small_sector_cfg.erase_block = 256 ∧
    small_sector_cfg.erase_block = 2048 ∧
    ¬ (∃ e, s32k_page_layout small_sector_cfg = ([e], 1) ∧
      e.pages_count = small_sector_cfg.flash_size / small_sector_cfg.erase_block ∧
      e.pages_size = small_sector_cfg.erase_block) := by
  refine ⟨by decide, rfl, rfl, rfl, ?_⟩
  rintro ⟨e, he, h1, _⟩
  have he' : e = s32k_layout := by
    have h := congrArg Prod.fst he
    have h2 : [s32k_layout] = [e] := h
    injection h2 with h3 _
    exact h3.symm
  rw [he'] at h1
  exact absurd h1 (by decide)

/-- C11, amended: for every device configuration the page-layout query reports a single
uniform region whose page count is `S32K148_FLASH_SIZE / S32K148_FLASH_PAGE_SIZE = 384` and
whose page size is `S32K148_FLASH_PAGE_SIZE = 0x1000`, whatever the configuration; these are
`flash_size / erase_block` and `erase_block` of the configuration exactly when its
`erase_block` is `0x1000` and its `flash_size / erase_block` is 384. -/
theorem s32k_page_layout_constant (cfg : s32k_flash_config) :
    s32k_page_layout cfg = ([{ pages_count := 384, pages_size := 0x1000 }], 1) ∧
    ((∃ e, s32k_page_layout cfg = ([e], 1) ∧
        e.pages_count = cfg.flash_size / cfg.erase_block ∧ e.pages_size = cfg.erase_block) ↔
      (cfg.erase_block = 0x1000 ∧ cfg.flash_size / cfg.erase_block = 384)) := by
  refine ⟨rfl, ?_⟩
  constructor
  · rintro ⟨e, he, h1, h2⟩
    have he' : e = s32k_layout := by
      have h := congrArg Prod.fst he
      have h3 : [s32k_layout] = [e] := h
      injection h3 with h4 _
      exact h4.symm
    rw [he'] at h1 h2
    exact ⟨h2.symm, h1.symm⟩
  · rintro ⟨h1, h2⟩
    exact ⟨s32k_layout, rfl, h2.symm, h1.symm⟩

/-- Witness of C11, amended: the S32K148 geometry. -/
theorem s32k_page_layout_constant_witness :
    s32k_page_layout S32K148_cfg = ([{ pages_count := 384, pages_size := 0x1000 }], 1) ∧
    ∃ e, s32k_page_layout S32K148_cfg = ([e], 1) ∧
      e.pages_count = S32K148_cfg.flash_size / S32K148_cfg.erase_block ∧
      e.pages_size = S32K148_cfg.erase_block :=
  ⟨(s32k_page_layout_constant S32K148_cfg).1,
    (s32k_page_layout_constant S32K148_cfg).2.mpr ⟨rfl, rfl⟩⟩

/-- C12: for a device with `flash_size = 1536 * 1024` and `erase_block = 0x1000` the
page-layout query returns `layout_size = 1` and one layout entry with `pages_count = 384`
and `pages_size = 4096`, which are `flash_size / erase_block` and `erase_block`. -/
theorem s32k_page_layout_s32k148 (cfg : s32k_flash_config)
    (hsize : cfg.flash_size = 1536 * 1024) (heb : cfg.erase_block = 0x1000) :
    (s32k_page_layout cfg).2 = 1 ∧
    (s32k_page_layout cfg).1 = [{ pages_count := 384, pages_size := 4096 }] ∧
    (s32k_page_layout cfg).1 =
      [{ pages_count := cfg.flash_size / cfg.erase_block, pages_size := cfg.erase_block }] := by
  refine ⟨rfl, rfl, ?_⟩
  rw [hsize, heb]
  rfl

/-- Witness of C12: the S32K148 configuration. -/
theorem s32k_page_layout_s32k148_witness :
    (s32k_page_layout S32K148_cfg).2 = 1 ∧
    (s32k_page_layout S32K148_cfg).1 = [{ pages_count := 384, pages_size := 4096 }] :=
  ⟨(s32k_page_layout_s32k148 S32K148_cfg rfl rfl).1,
    (s32k_page_layout_s32k148 S32K148_cfg rfl rfl).2.1⟩

/-- C13: once its wait loop has seen command-complete set, `ftfc_launch_and_wait` returns
`-EIO` if and only if the status byte it then reads has one of the bits 4, 5, 6 set or the
secondary error-status byte at `0x2E` is non-zero, and returns `0` otherwise; for every
controller. -/
theorem launch_step_result {σ : Type} (c : Controller σ) (fuel : Nat) (s : σ)
    (hwait : (wait_ccif c fuel (c.write8 s FTFC_FSTAT_OFF (FSTAT_CCIF % 256))).1
      = Except.ok ()) :
    ((ftfc_launch_and_wait c fuel s).1 = Except.ok (- EIO) ↔
      ((launch_status c fuel s).testBit 4 = true ∨ (launch_status c fuel s).testBit 5 = true ∨
        (launch_status c fuel s).testBit 6 = true ∨ launch_secondary c fuel s ≠ 0)) ∧
    ((ftfc_launch_and_wait c fuel s).1 = Except.ok 0 ↔
      ¬ ((launch_status c fuel s).testBit 4 = true ∨ (launch_status c fuel s).testBit 5 = true ∨
        (launch_status c fuel s).testBit 6 = true ∨ launch_secondary c fuel s ≠ 0)) := by
  have hlt : launch_status c fuel s < 256 := Nat.mod_lt _ (by decide)
  have hbits := status_error_bits (launch_status c fuel s) hlt
  have hP : (launch_status c fuel s &&& FSTAT_ERRORS ≠ 0 ∨ launch_secondary c fuel s ≠ 0) ↔
      ((launch_status c fuel s).testBit 4 = true ∨ (launch_status c fuel s).testBit 5 = true ∨
        (launch_status c fuel s).testBit 6 = true ∨ launch_secondary c fuel s ≠ 0) := by
    rw [hbits]
    constructor
    · rintro ((h | h | h) | h)
      · exact Or.inl h
      · exact Or.inr (Or.inl h)
      · exact Or.inr (Or.inr (Or.inl h))
      · exact Or.inr (Or.inr (Or.inr h))
    · rintro (h | h | h | h)
      · exact Or.inl (Or.inl h)
      · exact Or.inl (Or.inr (Or.inl h))
      · exact Or.inl (Or.inr (Or.inr h))
      · exact Or.inr h
  rw [← hP, ftfc_launch_and_wait_rc_eq c fuel s hwait]
  by_cases h : launch_status c fuel s &&& FSTAT_ERRORS ≠ 0 ∨ launch_secondary c fuel s ≠ 0
  · rw [if_pos h]
    refine ⟨⟨fun _ => h, fun _ => rfl⟩, ⟨fun h0 => ?_, fun hn => absurd h hn⟩⟩
    injection h0 with h0
    exact absurd h0 (by decide)
  · rw [if_neg h]
    refine ⟨⟨fun h0 => ?_, fun hp => absurd hp h⟩, ⟨fun _ => h, fun _ => rfl⟩⟩
    injection h0 with h0
    exact absurd h0 (by decide)

/-- Witness of C13: on the scripted controller, a command that completes with access-error
(status `0xA0`) gives `-EIO`, one that completes with secondary byte `0x02` gives `-EIO`, and
one that completes clean gives `0`. -/
theorem launch_step_result_witness :
    (ftfc_launch_and_wait scripted 2 { fstat_reads := [0x00, 0x80, 0xA0], ferstat_reads := [] }).1
      = Except.ok (- EIO) ∧
    (ftfc_launch_and_wait scripted 2 { fstat_reads := [0x80, 0x80], ferstat_reads := [0x02] }).1
      = Except.ok (- EIO) ∧
    (ftfc_launch_and_wait scripted 2 { fstat_reads := [0x80, 0x80], ferstat_reads := [0x00] }).1
      = Except.ok 0 :=
  ⟨(launch_step_result scripted 2 { fstat_reads := [0x00, 0x80, 0xA0], ferstat_reads := [] }
      rfl).1.mpr (Or.inr (Or.inl rfl)),
    (launch_step_result scripted 2 { fstat_reads := [0x80, 0x80], ferstat_reads := [0x02] }
      rfl).1.mpr (Or.inr (Or.inr (Or.inr (by decide)))),
    (launch_step_result scripted 2 { fstat_reads := [0x80, 0x80], ferstat_reads := [0x00] }
      rfl).2.mpr (by decide)⟩

/-- C14: when the ready check reports a failure, `ftfc_cmd_program_phrase` and
`ftfc_cmd_erase_sector` return that failure, which is `-EIO`, and do nothing beyond the
ready check: every register write they perform is the error-clear mask written to the status
register, so no opcode, address or data register is written, and no write sets the
command-complete bit. -/
theorem failed_ready_check_issues_nothing {σ : Type} (c : Controller σ) (fuel addr : Nat)
    (data : Nat → Nat) (phrase_size : Nat) (s : σ) (rc : Int)
    (hfail : (ftfc_clear_errors_and_ready c fuel s).1 = Except.ok rc) (hrc : rc ≠ 0) :
    rc = - EIO ∧
    ftfc_cmd_program_phrase c fuel addr data phrase_size s
      = (Except.ok (- EIO), (ftfc_clear_errors_and_ready c fuel s).2.1,
          (ftfc_clear_errors_and_ready c fuel s).2.2) ∧
    ftfc_cmd_erase_sector c fuel addr s
      = (Except.ok (- EIO), (ftfc_clear_errors_and_ready c fuel s).2.1,
          (ftfc_clear_errors_and_ready c fuel s).2.2) ∧
    (∀ a, a ∈ (ftfc_clear_errors_and_ready c fuel s).2.2 →
      ¬ a.is_launch ∧
      ∀ off v, a = Access.regWrite off v → off = FTFC_FSTAT_OFF ∧ v = FSTAT_ERRORS) ∧
    FSTAT_ERRORS &&& FSTAT_CCIF = 0 := by
  have hio : rc = - EIO := by
    rcases ftfc_clear_errors_and_ready_rc c fuel s rc hfail with h | h
    · exact absurd h hrc
    · exact h
  have hne : (ftfc_clear_errors_and_ready c fuel s).1 ≠ Except.ok 0 := by
    rw [hfail]
    intro h
    injection h with h
    exact hrc h
  refine ⟨hio, ?_, ?_, ?_, by decide⟩
  · rw [ftfc_cmd_program_phrase_not_ready c fuel addr data phrase_size s hne, ← hio, ← hfail]
  · rw [ftfc_cmd_erase_sector_not_ready c fuel addr s hne, ← hio, ← hfail]
  · intro a ha
    rcases ftfc_clear_errors_and_ready_touches c fuel s a ha with ⟨w, h⟩ | h
    · rw [h]
      exact ⟨fun hl => hl, fun off v hv => by cases hv⟩
    · rw [h]
      refine ⟨fun hl => hl.2 (by decide), fun off v hv => ?_⟩
      injection hv with h1 h2
      exact ⟨h1.symm, h2.symm⟩

/-- Witness of C14: on the scripted controller with the protection-violation bit stuck in
the status byte, both commands return `-EIO` after the accesses of the ready check alone. -/
theorem failed_ready_check_issues_nothing_witness :
    ftfc_cmd_program_phrase scripted 1 0x1000 (fun i => i + 1) 8
        { fstat_reads := [0x90, 0x90, 0x90], ferstat_reads := [] }
      = (Except.ok (- EIO), { fstat_reads := [], ferstat_reads := [] },
          [Access.regRead 0 0x90, Access.regWrite 0 0x70, Access.regRead 0 0x90,
            Access.regRead 0 0x90, Access.regWrite 0 0x70]) ∧
    ftfc_cmd_erase_sector scripted 1 0x1000
        { fstat_reads := [0x90, 0x90, 0x90], ferstat_reads := [] }
      = (Except.ok (- EIO), { fstat_reads := [], ferstat_reads := [] },
          [Access.regRead 0 0x90, Access.regWrite 0 0x70, Access.regRead 0 0x90,
            Access.regRead 0 0x90, Access.regWrite 0 0x70]) :=
  ⟨(failed_ready_check_issues_nothing scripted 1 0x1000 (fun i => i + 1) 8
      { fstat_reads := [0x90, 0x90, 0x90], ferstat_reads := [] } (- EIO) rfl (by decide)).2.1,
    (failed_ready_check_issues_nothing scripted 1 0x1000 (fun i => i + 1) 8
      { fstat_reads := [0x90, 0x90, 0x90], ferstat_reads := [] } (- EIO) rfl
      (by decide)).2.2.1⟩

/-- C15 as stated fails: on the scripted controller the status byte read at entry is `0x00`
(no error bit; a command is still running), command-complete then reads as set, and the
command has ended with access-error (`0xA0`): the ready check writes the error-clear mask and
returns `-EIO`. -/
theorem ready_check_fails_after_clean_entry :
    ready_status_at_entry scripted { fstat_reads := [0x00, 0xA0, 0xA0], ferstat_reads := [] }
      &&& FSTAT_ERRORS = 0 ∧
    (wait_ccif scripted 1
      (scripted.read8 { fstat_reads := [0x00, 0xA0, 0xA0], ferstat_reads := [] }
        FTFC_FSTAT_OFF).2).1 = Except.ok () ∧
    ftfc_clear_errors_and_ready scripted 1
        { fstat_reads := [0x00, 0xA0, 0xA0], ferstat_reads := [] }
      = (Except.ok (- EIO), { fstat_reads := [], ferstat_reads := [] },
          [Access.regRead 0 0x00, Access.regRead 0 0xA0, Access.regRead 0 0xA0,
            Access.regWrite 0 0x70]) := by
  refine ⟨by decide, rfl, rfl⟩

/-- C15, amended: for every controller, if none of the three error bits is set in the status
byte read at entry, command-complete eventually reads as set, and none of the three error
bits is set in the status byte read after the wait either, then the ready check writes no
register (all its accesses are reads of the status register) and returns `0`. -/
theorem ready_check_idempotent {σ : Type} (c : Controller σ) (fuel : Nat) (s : σ)
    (hentry : ready_status_at_entry c s &&& FSTAT_ERRORS = 0)
    (hwait : (wait_ccif c fuel (c.read8 s FTFC_FSTAT_OFF).2).1 = Except.ok ())
    (hafter : ready_status_after_wait c fuel s &&& FSTAT_ERRORS = 0) :
    (ftfc_clear_errors_and_ready c fuel s).1 = Except.ok 0 ∧
    ∀ a, a ∈ (ftfc_clear_errors_and_ready c fuel s).2.2 →
      ∃ v, a = Access.regRead FTFC_FSTAT_OFF v := by
  rw [(ftfc_clear_errors_and_ready_clean_entry c fuel s hentry hwait).1 hafter]
  refine ⟨rfl, ?_⟩
  intro a ha
  rcases List.mem_cons.mp ha with h | h
  · exact ⟨_, h⟩
  · rcases List.mem_append.mp h with h | h
    · exact wait_ccif_touches c fuel _ a h
    · exact ⟨_, List.mem_singleton.mp h⟩

/-- Witness of C15, amended: the scripted controller is busy for two reads and then ready
and error-free; the ready check performs four reads, no write, and returns `0`. -/
theorem ready_check_idempotent_witness :
    (ftfc_clear_errors_and_ready scripted 2
        { fstat_reads := [0x00, 0x00, 0x80, 0x80], ferstat_reads := [] }).1 = Except.ok 0 ∧
    (ftfc_clear_errors_and_ready scripted 2
        { fstat_reads := [0x00, 0x00, 0x80, 0x80], ferstat_reads := [] }).2.2
      = [Access.regRead 0 0x00, Access.regRead 0 0x00, Access.regRead 0 0x80,
          Access.regRead 0 0x80] :=
  ⟨(ready_check_idempotent scripted 2
      { fstat_reads := [0x00, 0x00, 0x80, 0x80], ferstat_reads := [] }
      (by decide) rfl (by decide)).1, rfl⟩

/-- C16: when the ready check passes, the accesses of `ftfc_cmd_program_phrase` are those of
the ready check, the opcode and the three address bytes, then the writes of `data[i]` to
register `0x0B + i` for `i = 0, 1, ..., min(phrase_size, 8) - 1` in increasing `i`, then the
launch write and what follows it, in which no data register is written.  The data-register
writes of the command are exactly these; each goes to a register in `0x0B..0x12`; for
`phrase_size ≤ 8` they are `data[0..phrase_size-1]`. -/
theorem program_phrase_data_registers {σ : Type} (c : Controller σ) (fuel addr : Nat)
    (data : Nat → Nat) (phrase_size : Nat) (s : σ)
    (hready : (ftfc_clear_errors_and_ready c fuel s).1 = Except.ok 0) :
    (∃ l, (ftfc_cmd_program_phrase c fuel addr data phrase_size s).2.2 =
        (ftfc_clear_errors_and_ready c fuel s).2.2 ++
          ([Access.regWrite 0x07 CMD_PROGRAM_PHRASE,
            Access.regWrite 0x06 ((addr >>> 16) &&& 0xFF),
            Access.regWrite 0x05 ((addr >>> 8) &&& 0xFF),
            Access.regWrite 0x04 (addr &&& 0xFF)] ++
          ((List.range (min phrase_size 8)).map
            (fun i => Access.regWrite (0x0B + i) (data i % 256)) ++
          Access.regWrite FTFC_FSTAT_OFF FSTAT_CCIF :: l)) ∧
      data_writes l = []) ∧
    data_writes (ftfc_cmd_program_phrase c fuel addr data phrase_size s).2.2
      = (List.range (min phrase_size 8)).map (fun i => (0x0B + i, data i % 256)) ∧
    (∀ p, p ∈ data_writes (ftfc_cmd_program_phrase c fuel addr data phrase_size s).2.2 →
      0x0B ≤ p.1 ∧ p.1 ≤ 0x12) ∧
    (phrase_size ≤ 8 →
      data_writes (ftfc_cmd_program_phrase c fuel addr data phrase_size s).2.2
        = (List.range phrase_size).map (fun i => (0x0B + i, data i % 256))) := by
  obtain ⟨⟨l, hl, hq⟩, hd⟩ := ftfc_cmd_program_phrase_data c fuel addr data phrase_size s hready
  refine ⟨⟨l, hl, ?_⟩, hd, ?_, ?_⟩
  · apply data_writes_eq_nil
    intro a ha off v hv
    rcases hq a ha with ⟨o, w, h⟩ | h | ⟨w, h⟩
    · rw [h] at hv; cases hv
    · rw [h] at hv
      injection hv with h1 _
      subst h1
      decide
    · rw [h] at hv
      injection hv with h1 _
      subst h1
      decide
  · intro p hp
    rw [hd] at hp
    obtain ⟨i, hi, hpi⟩ := List.mem_map.mp hp
    have hi2 : i < min phrase_size 8 := List.mem_range.mp hi
    rw [← hpi]
    show 0x0B ≤ 0x0B + i ∧ 0x0B + i ≤ 0x12
    omega
  · intro hps
    rw [hd, Nat.min_eq_left hps]

/-- Witness of C16: on the ready simulated controller, a phrase of 4 bytes gives four data
writes and a phrase of 16 bytes gives eight. -/
theorem program_phrase_data_registers_witness :
    (ftfc_cmd_program_phrase (sim 0x1000) 1 0x1000 (fun i => i + 1) 4 (sim_init [])).2.2
      = [Access.regRead 0 0x80, Access.regRead 0 0x80, Access.regRead 0 0x80,
         Access.regWrite 7 7, Access.regWrite 6 0, Access.regWrite 5 0x10, Access.regWrite 4 0,
         Access.regWrite 0x0B 1, Access.regWrite 0x0C 2, Access.regWrite 0x0D 3,
         Access.regWrite 0x0E 4,
         Access.regWrite 0 0x80, Access.regRead 0 0x80, Access.regRead 0 0x80,
         Access.regRead 0x2E 0] ∧
    data_writes
        (ftfc_cmd_program_phrase (sim 0x1000) 1 0x1000 (fun i => i + 1) 4 (sim_init [])).2.2
      = [(0x0B, 1), (0x0C, 2), (0x0D, 3), (0x0E, 4)] ∧
    data_writes
        (ftfc_cmd_program_phrase (sim 0x1000) 1 0x1000 (fun i => i + 1) 16 (sim_init [])).2.2
      = [(0x0B, 1), (0x0C, 2), (0x0D, 3), (0x0E, 4), (0x0F, 5), (0x10, 6), (0x11, 7),
         (0x12, 8)] :=
  ⟨rfl,
    (program_phrase_data_registers (sim 0x1000) 1 0x1000 (fun i => i + 1) 4 (sim_init [])
      rfl).2.2.2 (by decide),
    (program_phrase_data_registers (sim 0x1000) 1 0x1000 (fun i => i + 1) 16 (sim_init [])
      rfl).2.1⟩

/-- C17: launch discipline.  For every controller and every request, the accesses of
`s32k_flash_init` and of `s32k_flash_read` contain no write of a value with bit 7 set to the
status register, and in the accesses of `s32k_flash_write` and `s32k_flash_erase` every such
write is the write of `FSTAT_CCIF` that `ftfc_launch_and_wait` starts with and comes after
the last poll of the command's ready check (command-complete set), its final status read (no
error bit: the ready check returned `0`), the opcode byte, the three address bytes and
nothing but data-register writes.  Every other write to the status register is the
error-clear mask `0x70`, which has bit 7 clear. -/
theorem launch_discipline_holds {σ : Type} (c : Controller σ) (cfg : s32k_flash_config)
    (fuel : Nat) (offset : Int) (buf : Nat → Nat) (len : Nat) (s : σ) :
    no_launch (s32k_flash_init c s).2.2 ∧
    no_launch (s32k_flash_read c cfg offset buf len s).2.2 ∧
    launch_discipline (s32k_flash_write c cfg fuel offset buf len s).2.2 ∧
    launch_discipline (s32k_flash_erase c cfg fuel offset len s).2.2 ∧
    FSTAT_ERRORS &&& FSTAT_CCIF = 0 :=
  ⟨no_launch_init c s, no_launch_read c cfg offset buf len s,
    launch_discipline_write c cfg fuel offset buf len s,
    launch_discipline_erase c cfg fuel offset len s, by decide⟩

/-- Witness of C17: in the erase of two sectors on the simulated S32K148 the second launch
stands after the first command and the prepared second command. -/
theorem launch_discipline_holds_witness :
    (s32k_flash_erase (sim 0x1000) S32K148_cfg 2 0 0x2000 (sim_init [])).2.2 =
      [Access.regRead 0 0x80, Access.regRead 0 0x80, Access.regRead 0 0x80,
         Access.regWrite 7 9, Access.regWrite 6 0, Access.regWrite 5 0, Access.regWrite 4 0,
         Access.regWrite 0 0x80, Access.regRead 0 0x80, Access.regRead 0 0x80,
         Access.regRead 0x2E 0,
         Access.regRead 0 0x80, Access.regRead 0 0x80, Access.regRead 0 0x80,
         Access.regWrite 7 9, Access.regWrite 6 0, Access.regWrite 5 0x10,
         Access.regWrite 4 0] ++
        Access.regWrite 0 0x80 ::
          [Access.regRead 0 0x80, Access.regRead 0 0x80, Access.regRead 0x2E 0] ∧
    launch_prepared
      [Access.regRead 0 0x80, Access.regRead 0 0x80, Access.regRead 0 0x80,
         Access.regWrite 7 9, Access.regWrite 6 0, Access.regWrite 5 0, Access.regWrite 4 0,
         Access.regWrite 0 0x80, Access.regRead 0 0x80, Access.regRead 0 0x80,
         Access.regRead 0x2E 0,
         Access.regRead 0 0x80, Access.regRead 0 0x80, Access.regRead 0 0x80,
         Access.regWrite 7 9, Access.regWrite 6 0, Access.regWrite 5 0x10,
         Access.regWrite 4 0] :=
  ⟨rfl,
    ((launch_discipline_holds (sim 0x1000) S32K148_cfg 2 0 (fun _ => 0) 0x2000
      (sim_init [])).2.2.2.1.1
      [Access.regRead 0 0x80, Access.regRead 0 0x80, Access.regRead 0 0x80,
         Access.regWrite 7 9, Access.regWrite 6 0, Access.regWrite 5 0, Access.regWrite 4 0,
         Access.regWrite 0 0x80, Access.regRead 0 0x80, Access.regRead 0 0x80,
         Access.regRead 0x2E 0,
         Access.regRead 0 0x80, Access.regRead 0 0x80, Access.regRead 0 0x80,
         Access.regWrite 7 9, Access.regWrite 6 0, Access.regWrite 5 0x10,
         Access.regWrite 4 0]
      (Access.regWrite 0 0x80)
      [Access.regRead 0 0x80, Access.regRead 0 0x80, Access.regRead 0x2E 0] (by rfl)
      (show 0 = FTFC_FSTAT_OFF ∧ 0x80 &&& FSTAT_CCIF ≠ 0 from ⟨rfl, by decide⟩)).2⟩

/-- C18: for a `write_block` larger than 8, bytes `8 .. write_block-1` of every stride of the
source take no part in `s32k_flash_write`: two sources that agree on the first 8 bytes of
every stride give the same result, the same controller state and the same accesses.  When the
request is in bounds and aligned and every stride command returns `0`, the write returns `0`,
the commands advance the address and the source by `write_block` per stride, and the
data-register writes are the first 8 bytes of each stride and nothing else: `8` writes per
stride, fewer than the `write_block` bytes the stride covers. -/
theorem wide_phrase_tail_never_written {σ : Type} (c : Controller σ) (cfg : s32k_flash_config)
    (fuel : Nat) (offset : Int) (buf : Nat → Nat) (len : Nat) (s : σ)
    (hwb : 8 < cfg.write_block) :
    (∀ buf0 : Nat → Nat,
      (∀ k i, i < 8 → buf0 (k * cfg.write_block + i) = buf (k * cfg.write_block + i)) →
      s32k_flash_write c cfg fuel offset buf0 len = s32k_flash_write c cfg fuel offset buf len) ∧
    (cfg.flash_size < SIZE_MOD → 0 ≤ offset → offset + (len : Int) ≤ (cfg.flash_size : Int) →
      offset % (cfg.write_block : Int) = 0 → len % cfg.write_block = 0 →
      len / cfg.write_block ≤ fuel →
      (∀ k, k < len / cfg.write_block → (write_stride_cmd c cfg fuel offset buf k
        (stride_state (write_stride_cmd c cfg fuel offset buf) s k)).1 = Except.ok 0) →
      s32k_flash_write c cfg fuel offset buf len s =
        (Except.ok 0,
          stride_state (write_stride_cmd c cfg fuel offset buf) s (len / cfg.write_block),
          stride_trace (write_stride_cmd c cfg fuel offset buf) s (len / cfg.write_block)) ∧
      (∀ k, write_stride_cmd c cfg fuel offset buf k =
        ftfc_cmd_program_phrase c fuel
          ((cfg.flash_base + offset.toNat + k * cfg.write_block) % SIZE_MOD)
          (fun i => buf (k * cfg.write_block + i)) cfg.write_block) ∧
      data_writes (s32k_flash_write c cfg fuel offset buf len s).2.2
        = stride_data buf cfg.write_block (len / cfg.write_block) ∧
      (data_writes (s32k_flash_write c cfg fuel offset buf len s).2.2).length
        = 8 * (len / cfg.write_block) ∧
      (0 < len →
        (data_writes (s32k_flash_write c cfg fuel offset buf len s).2.2).length < len)) := by
  refine ⟨fun buf0 h => s32k_flash_write_congr c cfg fuel offset buf buf0 len h, ?_⟩
  intro hsz h0 hin hao hal hfuel hok
  have hrun := s32k_flash_write_all_strides c cfg fuel offset buf len s hsz (by omega) h0
    hin hao hal hfuel hok
  have hdata : data_writes (s32k_flash_write c cfg fuel offset buf len s).2.2
      = stride_data buf cfg.write_block (len / cfg.write_block) := by
    rw [hrun]
    exact data_writes_stride_trace c cfg fuel offset buf s (by omega) _ hok
  refine ⟨hrun, fun k => rfl, hdata, ?_, ?_⟩
  · rw [hdata, stride_data_length]
  · intro hlen
    rw [hdata, stride_data_length]
    have hnl : len / cfg.write_block * cfg.write_block = len :=
      Nat.div_mul_cancel (Nat.dvd_of_mod_eq_zero hal)
    have hpos : 0 < len / cfg.write_block := by
      rcases Nat.eq_zero_or_pos (len / cfg.write_block) with h | h
      · rw [h, Nat.zero_mul] at hnl; omega
      · exact h
    calc 8 * (len / cfg.write_block) = len / cfg.write_block * 8 := Nat.mul_comm _ _
      _ < len / cfg.write_block * cfg.write_block := Nat.mul_lt_mul_of_pos_left hwb hpos
      _ = len := hnl

/-- Witness of C18: two strides of 16 bytes on the simulated controller.  The source with
bytes `8..15` of each stride zeroed gives the same run, the write returns `0`, and the 16
data-register writes carry bytes `0..7` and `16..23` of the source. -/
theorem wide_phrase_tail_never_written_witness :
    s32k_flash_write (sim 0x1000) wide_phrase_cfg 2 0
        (fun i => if i % 16 < 8 then i + 1 else 0) 32
      = s32k_flash_write (sim 0x1000) wide_phrase_cfg 2 0 (fun i => i + 1) 32 ∧
    (s32k_flash_write (sim 0x1000) wide_phrase_cfg 2 0 (fun i => i + 1) 32 (sim_init [])).1
      = Except.ok 0 ∧
    data_writes
        (s32k_flash_write (sim 0x1000) wide_phrase_cfg 2 0 (fun i => i + 1) 32
          (sim_init [])).2.2
      = [(0x0B, 1), (0x0C, 2), (0x0D, 3), (0x0E, 4), (0x0F, 5), (0x10, 6), (0x11, 7),
         (0x12, 8), (0x0B, 17), (0x0C, 18), (0x0D, 19), (0x0E, 20), (0x0F, 21), (0x10, 22),
         (0x11, 23), (0x12, 24)] := by
  have h := wide_phrase_tail_never_written (sim 0x1000) wide_phrase_cfg 2 0 (fun i => i + 1)
    32 (sim_init []) (by decide)
  have h2 := h.2 (by decide) (by decide) (by decide) (by decide) (by decide) (by decide)
    (fun k hk => by
      have hk2 : k < 2 := hk
      have h : k = 0 ∨ k = 1 := by omega
      rcases h with h | h <;> subst h <;> rfl)
  refine ⟨h.1 _ ?_, ?_, ?_⟩
  · intro k i hi
    show (if (k * 16 + i) % 16 < 8 then k * 16 + i + 1 else 0) = k * 16 + i + 1
    rw [if_pos (by omega)]
  · rw [h2.1]
  · rw [h2.2.2.1]
    rfl

/-- C19: a zero-length request at an offset inside the flash region or at its end
(`0 ≤ offset ≤ flash_size`) returns `0`, leaves the controller state unchanged and makes no
access at all, for `s32k_flash_write` and `s32k_flash_erase` (offset aligned to the block
size) and for `s32k_flash_read`, which also leaves the destination buffer unchanged. -/
theorem zero_length_requests {σ : Type} (c : Controller σ) (cfg : s32k_flash_config)
    (fuel : Nat) (offset : Int) (buf : Nat → Nat) (s : σ)
    (hsz : cfg.flash_size < SIZE_MOD) (h0 : 0 ≤ offset)
    (hle : offset ≤ (cfg.flash_size : Int)) :
    (0 < cfg.write_block → offset % (cfg.write_block : Int) = 0 →
      s32k_flash_write c cfg fuel offset buf 0 s = (Except.ok 0, s, [])) ∧
    (0 < cfg.erase_block → offset % (cfg.erase_block : Int) = 0 →
      s32k_flash_erase c cfg fuel offset 0 s = (Except.ok 0, s, [])) ∧
    s32k_flash_read c cfg offset buf 0 s = (Except.ok (0, buf), s, []) := by
  have hin : offset + ((0 : Nat) : Int) ≤ (cfg.flash_size : Int) := by
    rw [Int.natCast_zero, Int.add_zero]; exact hle
  refine ⟨?_, ?_, ?_⟩
  · intro hwb hao
    rw [s32k_flash_write_checked c cfg fuel offset buf 0 hsz hwb h0 hin hao (Nat.zero_mod _)]
    exact write_loop_done c cfg fuel buf 0 fuel 0 _ 0 (Nat.lt_irrefl 0) s
  · intro heb hao
    rw [s32k_flash_erase_checked c cfg fuel offset 0 hsz heb h0 hin hao (Nat.zero_mod _)]
    exact erase_loop_done c cfg fuel 0 fuel 0 _ (Nat.lt_irrefl 0) s
  · obtain ⟨_, hb⟩ := bounds_test_in_bounds cfg.flash_size offset 0 hsz h0 hin
    unfold s32k_flash_read
    rw [if_neg hb]
    have hcopy : ∀ src, memcpy_from_flash c buf src 0 s = (Except.ok buf, s, []) := by
      intro src
      unfold memcpy_from_flash
      have hf : (fun i => if i < 0 then c.flash s (src + i) % 256 else buf i) = buf := by
        funext i
        rw [if_neg (Nat.not_lt_zero i)]
      rw [hf]
      rfl
    rw [bind_of_ok _ _ s buf (by rw [hcopy]), hcopy]
    rfl

/-- Witness of C19: zero-length requests at `offset = flash_size` on the simulated
S32K148. -/
theorem zero_length_requests_witness :
    s32k_flash_write (sim 0x1000) S32K148_cfg 0 (1536 * 1024) (fun i => i + 1) 0 (sim_init [])
      = (Except.ok 0, sim_init [], []) ∧
    s32k_flash_erase (sim 0x1000) S32K148_cfg 0 (1536 * 1024) 0 (sim_init [])
      = (Except.ok 0, sim_init [], []) ∧
    s32k_flash_read (sim 0x1000) S32K148_cfg (1536 * 1024) (fun i => i + 1) 0 (sim_init [])
      = (Except.ok (0, fun i => i + 1), sim_init [], []) := by
  have h := zero_length_requests (sim 0x1000) S32K148_cfg 0 (1536 * 1024) (fun i => i + 1)
    (sim_init []) (by decide) (by decide) (by decide)
  exact ⟨h.1 (by decide) (by decide), h.2.1 (by decide) (by decide), h.2.2⟩

end S32kFlash
